import Mathlib

/-! # Column filter and sort engine (`src/trace_processor/db/column.cc`)

A shallow embedding of `Column::FilterIntoSlow`, `Column::StableSort` and the constructors,
together with the collaborators they call.  `column.cc` is the only translation unit
available; the headers it includes (`column.h`, `compare.h`, `row_map.h`, `nullable_vector.h`, `string_pool.h`,
`basic_types.h`, `logging.h`) are not, so what they declare is modelled from the specification
and marked as such.  The routine `std::stable_sort` of the C++ library, to which a sort comes
down, is embedded as the GNU C++ library implements it.

Conventions.
* Row indices and physical positions are `uint32_t` in the source and `Nat` here.
* Values of `int32_t`, `uint32_t` and `int64_t` columns are `Int`; the widening cast
  `static_cast<int64_t>(v)` keeps the value of every `v` of those three types, so it is the
  identity.  The narrowing cast `static_cast<uint32_t>` is written out with `% 2 ^ 32`.
* A call that ends in `PERFETTO_FATAL`, or in a failing `PERFETTO_DCHECK` of a build that has
  them switched on, returns `none`.
-/

namespace trace_processor

/-! ## Data model -/

/-- The storage type of a column (`ColumnType`, used by every `switch (type_)`). -/
inductive ColumnType
  | kInt32 | kUint32 | kInt64 | kDouble | kString | kId | kDummy
  deriving DecidableEq, Repr

/-- The filter operators named by the `switch (op)` statements of `column.cc`. -/
inductive FilterOp
  | kLt | kEq | kGt | kNe | kLe | kGe | kIsNull | kIsNotNull
  deriving DecidableEq, Repr

/-- Modelled from the spec: the value of a `double`.  A finite double is the rational number it
denotes (both zeros are `finite 0`); the two infinities and NaN are kept apart. -/
inductive Double
  | nan | neg_inf | finite (q : ℚ) | pos_inf
  deriving DecidableEq

/-- Modelled from the spec: the built-in `<` of two doubles ("NaN handling is inherited from the
underlying numeric comparison"): every comparison with NaN is false. -/
def Double.lt : Double → Double → Bool
  | .nan, _ => false
  | _, .nan => false
  | .neg_inf, .neg_inf => false
  | .neg_inf, _ => true
  | .finite _, .neg_inf => false
  | .finite a, .finite b => decide (a < b)
  | .finite _, .pos_inf => true
  | .pos_inf, _ => false

instance : LT Double := ⟨fun a b => Double.lt a b = true⟩

instance (a b : Double) : Decidable (a < b) :=
  inferInstanceAs (Decidable (Double.lt a b = true))

/-- The bytes of a string, without the terminating NUL. -/
abbrev Bytes := List Nat

/-- Modelled from the spec: a `NullTermStringView`; `none` is the view whose `data()` is
`nullptr` (an absent string), `some []` the empty string. -/
abbrev NullTermStringView := Option Bytes

/-- Modelled from the spec: the scalar handed to a filter (`SqlValue`, `basic_types.h`): "either
absent (null marker), a 64-bit signed integer, a double-precision float, or a string view".  The
string scalar always has bytes, which is what `PERFETTO_DCHECK(str_value.data() != nullptr)`
asks for. -/
inductive SqlValue
  | Null
  | Long (long_value : Int)
  | Double (double_value : Double)
  | String (string_value : Bytes)

/-- The member function `SqlValue::is_null()`. -/
def SqlValue.is_null : SqlValue → Bool
  | .Null => true
  | _ => false

/-- The tag `SqlValue::Type` of a scalar. -/
inductive SqlValue.Type
  | kNull | kLong | kDouble | kString
  deriving DecidableEq, Repr

/-- The member `type` of a scalar. -/
def SqlValue.type : SqlValue → SqlValue.Type
  | .Null => .kNull
  | .Long _ => .kLong
  | .Double _ => .kDouble
  | .String _ => .kString

/-- Modelled from the spec: the Nullable Storage Accessor (`NullableVector<T>`), which exposes
"get possibly-absent value at row" and "get value at row known non-null". -/
structure NullableVector (T : Type) where
  Get : Nat → Option T
  GetNonNull : Nat → T

/-- The type-erased `NullableVectorBase*` member.  `nullable_vector<T>()` casts it to the vector
of the column's own element type; the model keeps one typed view for each family of element
types, and a column reads only the view of its type. -/
structure NullableVectorBase where
  as_long : NullableVector Int
  as_double : NullableVector Double
  as_string_id : NullableVector Nat

/-- Modelled from the spec: the string pool, "resolve(handle) -> byte-string-view-or-absent". -/
structure StringPool where
  Get : Nat → NullTermStringView

/-- Modelled from the spec: the Row Index Set (`RowMap`) of a table, through which a column's
"logical rows map" to physical positions.  Of a table's own row maps only the lookup is needed.
The row map that a filter narrows (`RowMap* rm`) and the vector that a sort reorders are the
ordered lists of the row indices they hold. -/
structure RowMap where
  Get : Nat → Nat

/-- Modelled from the spec: `RowMap::FilterInto(out, p)` "retains rows of `out`'s current
contents for which `predicate` holds, preserving relative order"; the predicate is given the
position the row maps to. -/
def RowMap.FilterInto (self : RowMap) (out : List Nat) (p : Nat → Bool) : List Nat :=
  out.filter (fun i => p (self.Get i))

/-- Insertion of an element that came first: it goes behind the elements that are smaller under
`comp`, in front of the first element that is not. -/
def stable_insert (comp : Nat → Nat → Bool) (x : Nat) : List Nat → List Nat
  | [] => [x]
  | y :: ys => if comp y x then y :: stable_insert comp x ys else x :: y :: ys

/-- Modelled from the spec: "an order-preserving-on-ties sort" under the strict comparator
`comp`, written as the stable insertion sort.  It is the sequence that the contract of
`std::stable_sort` determines when `comp` is a strict weak order; the library routine itself is
`std.stable_sort` below, and `std_stable_sort_eq` proves that the two agree under such a
comparator. -/
def stable_sort (comp : Nat → Nat → Bool) : List Nat → List Nat
  | [] => []
  | x :: xs => stable_insert comp x (stable_sort comp xs)

/-- Insertion of an element that came last: it goes behind the elements that are not greater
under `comp`, in front of the first element that is greater. -/
def stable_insert_last (comp : Nat → Nat → Bool) (x : Nat) : List Nat → List Nat
  | [] => [x]
  | y :: ys => if comp x y then x :: y :: ys else y :: stable_insert_last comp x ys

/-! ### The library routine `std::stable_sort`

`RowMap::StableSort` hands the comparator to `std::stable_sort`, which belongs to the C++
library and not to the repository.  Its contract fixes the result only for a comparator that is
a strict weak order, and the comparator of a Double column is none when a key is NaN, so the
routine is embedded as the GNU C++ library implements it (`bits/stl_algo.h`, `__stable_sort`
with its temporary buffer of half the length allocated).  A range is the list of its elements;
the runs that `__merge_sort_with_buffer` merges are a list of lists. -/

namespace std

/-- The loop of `__unguarded_linear_insert`, which walks back from `val` while
`comp(val, next)` holds and puts `val` where it stops.  The argument holds the elements in
front of `val`, the nearest first, and so does the result.  The caller has checked that `val`
is not below the first element of the range, so the walk ends inside the range. -/
def unguarded_linear_insert (comp : Nat → Nat → Bool) (val : Nat) : List Nat → List Nat
  | [] => [val]
  | next :: before =>
    if comp val next then next :: unguarded_linear_insert comp val before
    else val :: next :: before

/-- The body of the loop of `__insertion_sort`: `sorted` is the range in front of `val`.  An
element below the first one is moved to the front, every other one is placed by
`__unguarded_linear_insert`. -/
def linear_insert (comp : Nat → Nat → Bool) (sorted : List Nat) (val : Nat) : List Nat :=
  match sorted with
  | [] => [val]
  | first :: _ =>
    if comp val first then val :: sorted
    else (unguarded_linear_insert comp val sorted.reverse).reverse

/-- The routine `__insertion_sort(first, last, comp)`. -/
def insertion_sort (comp : Nat → Nat → Bool) (l : List Nat) : List Nat :=
  l.foldl (linear_insert comp) []

/-- The routine `__chunk_insertion_sort`: while at least `chunk_size` elements are left the
next `chunk_size` of them are sorted by insertion, and then the rest is.  The result is the list
of the sorted runs; the first argument bounds the number of turns of the loop. -/
def chunk_insertion_sort (comp : Nat → Nat → Bool) (chunk_size : Nat) :
    Nat → List Nat → List (List Nat)
  | 0, l => [insertion_sort comp l]
  | fuel + 1, l =>
    if l.length ≥ chunk_size then
      insertion_sort comp (l.take chunk_size) ::
        chunk_insertion_sort comp chunk_size fuel (l.drop chunk_size)
    else [insertion_sort comp l]

/-- The loop of `__move_merge` for a first range `x :: xs` that stays in place while elements of
the second range are taken; `advance` merges once `x` has been taken. -/
def move_merge_loop (comp : Nat → Nat → Bool) (x : Nat) (xs : List Nat)
    (advance : List Nat → List Nat) : List Nat → List Nat
  | [] => x :: xs
  | y :: ys =>
    if comp y x then y :: move_merge_loop comp x xs advance ys
    else x :: advance (y :: ys)

/-- The routine `__move_merge`, and `__move_merge_adaptive`, whose loop is the same: the head
of the second range is taken when `comp(first2, first1)` holds, the head of the first range
otherwise; what is left of either range follows. -/
def move_merge (comp : Nat → Nat → Bool) : List Nat → List Nat → List Nat
  | [] => fun l2 => l2
  | x :: xs => move_merge_loop comp x xs (move_merge comp xs)

/-- The routine `__merge_sort_loop`: one pass that merges every run with its right neighbour; a
run without a neighbour is copied. -/
def merge_sort_loop (comp : Nat → Nat → Bool) : List (List Nat) → List (List Nat)
  | r1 :: r2 :: rest => move_merge comp r1 r2 :: merge_sort_loop comp rest
  | rest => rest

/-- The loop of `__merge_sort_with_buffer`: passes of `__merge_sort_loop` until one run is
left, which is when the step size has reached the length.  The first argument bounds the number
of passes. -/
def merge_sort_passes (comp : Nat → Nat → Bool) : Nat → List (List Nat) → List Nat
  | _, [] => []
  | _, [r] => r
  | 0, runs => runs.flatten
  | fuel + 1, runs => merge_sort_passes comp fuel (merge_sort_loop comp runs)

/-- The routine `__merge_sort_with_buffer`, with `_S_chunk_size = 7`. -/
def merge_sort_with_buffer (comp : Nat → Nat → Bool) (l : List Nat) : List Nat :=
  let runs := chunk_insertion_sort comp 7 l.length l
  merge_sort_passes comp runs.length runs

/-- The loop of `__move_merge_adaptive_backward` for a first range whose last element `a` stays
in place while elements of the second range are taken; both ranges are given last element
first. -/
def move_merge_backward_loop (comp : Nat → Nat → Bool) (a : Nat) (r1 : List Nat)
    (advance : List Nat → List Nat) : List Nat → List Nat
  | [] => a :: r1
  | b :: r2 =>
    if comp b a then a :: advance (b :: r2)
    else b :: move_merge_backward_loop comp a r1 advance r2

/-- The loop of `__move_merge_adaptive_backward` on two ranges given last element first: the
last element of the first range is taken when `comp(last2, last1)` holds, the last element of
the second range otherwise.  The result is given last element first. -/
def move_merge_backward (comp : Nat → Nat → Bool) : List Nat → List Nat → List Nat
  | [] => fun r2 => r2
  | a :: r1 => move_merge_backward_loop comp a r1 (move_merge_backward comp r1)

/-- The routine `__move_merge_adaptive_backward`, which fills the result from its end. -/
def move_merge_adaptive_backward (comp : Nat → Nat → Bool) (l1 l2 : List Nat) : List Nat :=
  (move_merge_backward comp l1.reverse l2.reverse).reverse

/-- The routine `__merge_adaptive` with a buffer that holds the shorter range: it merges
forwards when the first range is not the longer one and backwards otherwise. -/
def merge_adaptive (comp : Nat → Nat → Bool) (l1 l2 : List Nat) : List Nat :=
  if l1.length ≤ l2.length then move_merge comp l1 l2
  else move_merge_adaptive_backward comp l1 l2

/-- The routine `__stable_sort_adaptive` with a buffer of half the length: the two halves are
sorted by `__merge_sort_with_buffer` and merged by `__merge_adaptive`. -/
def stable_sort_adaptive (comp : Nat → Nat → Bool) (l : List Nat) : List Nat :=
  let len := (l.length + 1) / 2
  merge_adaptive comp (merge_sort_with_buffer comp (l.take len))
    (merge_sort_with_buffer comp (l.drop len))

/-- The routine `std::stable_sort(first, last, comp)`, that is `__stable_sort`. -/
def stable_sort (comp : Nat → Nat → Bool) (l : List Nat) : List Nat :=
  if l.isEmpty then l else stable_sort_adaptive comp l

end std

/-- Modelled from the spec: `RowMap::StableSort(out, c)`, which sorts the row indices of `out`
with `std::stable_sort`, comparing the positions they map to. -/
def RowMap.StableSort (self : RowMap) (out : List Nat) (c : Nat → Nat → Bool) : List Nat :=
  std.stable_sort (fun a b => c (self.Get a) (self.Get b)) out

/-- The owning table, as far as a column reads it: `row_maps_` and `string_pool_`. -/
structure Table where
  row_maps_ : Nat → RowMap
  string_pool_ : StringPool

/-- The members of a `Column` that the constructor at `column.cc:38` initialises.
`nullable` is modelled from the spec: it is the answer of `IsNullable()` (declared in
`column.h`), which the spec lists as the boolean attribute `nullability`. -/
structure Column where
  type_ : ColumnType
  nullable_vector_ : NullableVectorBase
  name_ : String
  flags_ : Nat
  table_ : Table
  col_idx_in_table_ : Nat
  row_map_idx_ : Nat
  string_pool_ : StringPool
  nullable : Bool

/-- The member function `Column::IsNullable()`. -/
def Column.IsNullable (c : Column) : Bool := c.nullable

/-! ## Comparison primitives (`compare.h`) -/

namespace compare

/-- Modelled from the spec: `compare::Numeric`, "same-type numeric compare: standard ordering",
returning a tri-state sign. -/
def Numeric {T : Type} [LT T] [DecidableRel (fun a b : T => a < b)] (a b : T) : Int :=
  if a < b then -1 else if b < a then 1 else 0

/-- Modelled from the spec: `compare::LongToDouble(i, d)`, the "dedicated integer-vs-double
comparator", which "must be mathematically correct for the full 64-bit integer range compared
against a double": the sign of `i - d` over the exact values; NaN is neither below nor above. -/
def LongToDouble (i : Int) : Double → Int
  | .nan => 0
  | .neg_inf => 1
  | .pos_inf => -1
  | .finite q => if (i : ℚ) < q then -1 else if q < (i : ℚ) then 1 else 0

/-- Modelled from the spec: `compare::String`, "byte-wise/lexicographic ordering on the
dereferenced string content". -/
def String (a b : Bytes) : Int :=
  if a < b then -1 else if b < a then 1 else 0

/-- Modelled from the spec: `compare::NullableNumeric`: "treat absent as sorting before present",
"nulls among themselves compare equal". -/
def NullableNumeric {T : Type} [LT T] [DecidableRel (fun a b : T => a < b)] :
    Option T → Option T → Int
  | none, none => 0
  | none, some _ => -1
  | some _, none => 1
  | some a, some b => Numeric a b

/-- Modelled from the spec: `compare::NullableString`, the null-aware string comparator. -/
def NullableString : NullTermStringView → NullTermStringView → Int
  | none, none => 0
  | none, some _ => -1
  | some _, none => 1
  | some a, some b => String a b

end compare

/-- The spacing of the doubles at the magnitude `n`: 1 below `2 ^ 53`, and twice as wide with
every further binary digit. -/
def double_spacing : Nat → Nat → Nat
  | 0, _ => 1
  | fuel + 1, n => if n < 9007199254740992 then 1 else 2 * double_spacing fuel (n / 2)

/-- The conversion `static_cast<double>(v)` of a 64-bit integer, which the spec calls the
promotion of the integer to double: the nearest double, a tie going to the even significand.
An integer of magnitude up to `2 ^ 53` is a double itself. -/
def static_cast_double (v : Int) : Double :=
  let n := v.natAbs
  if n ≤ 9007199254740992 then Double.finite v
  else
    let u := double_spacing 64 n
    let q := n / u
    let r := n % u
    let m := if 2 * r < u then q else if u < 2 * r then q + 1 else if q % 2 = 0 then q else q + 1
    Double.finite (if v < 0 then -((m * u : Nat) : ℚ) else ((m * u : Nat) : ℚ))

/-! ## Assertions -/

/-- `PERFETTO_DCHECK` is a macro of `logging.h`; whether it is compiled in is a property of the
build and is taken as the parameter `dcheck_is_on`.  A failing check aborts. -/
def PERFETTO_DCHECK (dcheck_is_on : Bool) (cond : Bool) : Option Unit :=
  if dcheck_is_on && !cond then none else some ()

/-- `PERFETTO_FATAL` aborts unconditionally. -/
def PERFETTO_FATAL {α : Type} (_msg : String) : Option α := none

/-! ## Column accessors -/

/-- `Column::row_map()`, `column.cc:485`. -/
def Column.row_map (dcheck_is_on : Bool) (c : Column) : Option RowMap := do
  PERFETTO_DCHECK dcheck_is_on (c.type_ != ColumnType.kDummy)
  pure (c.table_.row_maps_ c.row_map_idx_)

/-- Modelled from the spec: `Column::GetStringPoolStringAtIdx` (declared in `column.h`): the
handle stored at the position, resolved through the string pool. -/
def Column.GetStringPoolStringAtIdx (c : Column) (idx : Nat) : NullTermStringView :=
  c.string_pool_.Get (c.nullable_vector_.as_string_id.GetNonNull idx)

/-- The element types `T` that the numeric templates are instantiated with. -/
inductive NumericT
  | int32_t | uint32_t | int64_t | double
  deriving DecidableEq, Repr

/-- `ColumnTypeHelper<T>::ToColumnType()`. -/
def ColumnTypeHelper.ToColumnType : NumericT → ColumnType
  | .int32_t => .kInt32
  | .uint32_t => .kUint32
  | .int64_t => .kInt64
  | .double => .kDouble

/-- `std::is_arithmetic<T>::value`, true of each of the four element types. -/
def is_arithmetic (_T : NumericT) : Bool := true

/-- `nullable_vector<T>().Get(row).has_value()` for the element type `T`. -/
def Column.has_value (c : Column) (T : NumericT) (row : Nat) : Bool :=
  if T = NumericT.double then (c.nullable_vector_.as_double.Get row).isSome
  else (c.nullable_vector_.as_long.Get row).isSome

/-! ## The filter engine -/

/-- `Column::FilterIntoNumericWithComparatorSlow<T, is_nullable, Comparator>`, `column.cc:217`.
`nv` is `nullable_vector<T>()`, whose element type the caller fixes together with `cmp`. -/
def Column.FilterIntoNumericWithComparatorSlow {T : Type} (dcheck_is_on : Bool) (c : Column)
    (nv : NullableVector T) (is_nullable : Bool) (op : FilterOp) (rm : List Nat)
    (cmp : T → Int) : Option (List Nat) :=
  match op with
  | .kLt => do
    pure ((← c.row_map dcheck_is_on).FilterInto rm (fun idx =>
      if is_nullable then
        match nv.Get idx with
        | some v => decide (cmp v < 0)
        | none => false
      else decide (cmp (nv.GetNonNull idx) < 0)))
  | .kEq => do
    pure ((← c.row_map dcheck_is_on).FilterInto rm (fun idx =>
      if is_nullable then
        match nv.Get idx with
        | some v => decide (cmp v = 0)
        | none => false
      else decide (cmp (nv.GetNonNull idx) = 0)))
  | .kGt => do
    pure ((← c.row_map dcheck_is_on).FilterInto rm (fun idx =>
      if is_nullable then
        match nv.Get idx with
        | some v => decide (cmp v > 0)
        | none => false
      else decide (cmp (nv.GetNonNull idx) > 0)))
  | .kNe => do
    pure ((← c.row_map dcheck_is_on).FilterInto rm (fun idx =>
      if is_nullable then
        match nv.Get idx with
        | some v => decide (cmp v ≠ 0)
        | none => false
      else decide (cmp (nv.GetNonNull idx) ≠ 0)))
  | .kLe => do
    pure ((← c.row_map dcheck_is_on).FilterInto rm (fun idx =>
      if is_nullable then
        match nv.Get idx with
        | some v => decide (cmp v ≤ 0)
        | none => false
      else decide (cmp (nv.GetNonNull idx) ≤ 0)))
  | .kGe => do
    pure ((← c.row_map dcheck_is_on).FilterInto rm (fun idx =>
      if is_nullable then
        match nv.Get idx with
        | some v => decide (cmp v ≥ 0)
        | none => false
      else decide (cmp (nv.GetNonNull idx) ≥ 0)))
  | .kIsNull => PERFETTO_FATAL "Should be handled above"
  | .kIsNotNull => PERFETTO_FATAL "Should be handled above"

/-- `Column::FilterIntoNumericSlow<T, is_nullable>`, `column.cc:145`. -/
def Column.FilterIntoNumericSlow (dcheck_is_on : Bool) (c : Column) (T : NumericT)
    (is_nullable : Bool) (op : FilterOp) (value : SqlValue) (rm : List Nat) :
    Option (List Nat) := do
  PERFETTO_DCHECK dcheck_is_on (c.IsNullable == is_nullable)
  PERFETTO_DCHECK dcheck_is_on (c.type_ == ColumnTypeHelper.ToColumnType T)
  PERFETTO_DCHECK dcheck_is_on (is_arithmetic T)
  if op = FilterOp.kIsNull then
    PERFETTO_DCHECK dcheck_is_on value.is_null
    if is_nullable then
      pure ((← c.row_map dcheck_is_on).FilterInto rm (fun row => !c.has_value T row))
    else
      pure []
  else if op = FilterOp.kIsNotNull then
    PERFETTO_DCHECK dcheck_is_on value.is_null
    if is_nullable then
      pure ((← c.row_map dcheck_is_on).FilterInto rm (fun row => c.has_value T row))
    else
      pure rm
  else
    match value with
    | .Double double_value =>
      if T = NumericT.double then
        c.FilterIntoNumericWithComparatorSlow dcheck_is_on c.nullable_vector_.as_double
          is_nullable op rm (fun v => compare.Numeric v double_value)
      else
        c.FilterIntoNumericWithComparatorSlow dcheck_is_on c.nullable_vector_.as_long
          is_nullable op rm (fun v => compare.LongToDouble v double_value)
    | .Long long_value =>
      if T = NumericT.double then
        c.FilterIntoNumericWithComparatorSlow dcheck_is_on c.nullable_vector_.as_double
          is_nullable op rm (fun v => -compare.LongToDouble long_value v)
      else
        c.FilterIntoNumericWithComparatorSlow dcheck_is_on c.nullable_vector_.as_long
          is_nullable op rm (fun v => compare.Numeric v long_value)
    | _ => pure []

/-- `Column::FilterIntoStringSlow`, `column.cc:282`. -/
def Column.FilterIntoStringSlow (dcheck_is_on : Bool) (c : Column) (op : FilterOp)
    (value : SqlValue) (rm : List Nat) : Option (List Nat) := do
  PERFETTO_DCHECK dcheck_is_on (c.type_ == ColumnType.kString)
  if op = FilterOp.kIsNull then
    PERFETTO_DCHECK dcheck_is_on value.is_null
    pure ((← c.row_map dcheck_is_on).FilterInto rm (fun row =>
      (c.GetStringPoolStringAtIdx row).isNone))
  else if op = FilterOp.kIsNotNull then
    PERFETTO_DCHECK dcheck_is_on value.is_null
    pure ((← c.row_map dcheck_is_on).FilterInto rm (fun row =>
      (c.GetStringPoolStringAtIdx row).isSome))
  else
    match value with
    | .String str_value =>
      match op with
      | .kLt => do
        pure ((← c.row_map dcheck_is_on).FilterInto rm (fun idx =>
          match c.GetStringPoolStringAtIdx idx with
          | some v => decide (compare.String v str_value < 0)
          | none => false))
      | .kEq => do
        pure ((← c.row_map dcheck_is_on).FilterInto rm (fun idx =>
          match c.GetStringPoolStringAtIdx idx with
          | some v => decide (compare.String v str_value = 0)
          | none => false))
      | .kGt => do
        pure ((← c.row_map dcheck_is_on).FilterInto rm (fun idx =>
          match c.GetStringPoolStringAtIdx idx with
          | some v => decide (compare.String v str_value > 0)
          | none => false))
      | .kNe => do
        pure ((← c.row_map dcheck_is_on).FilterInto rm (fun idx =>
          match c.GetStringPoolStringAtIdx idx with
          | some v => decide (compare.String v str_value ≠ 0)
          | none => false))
      | .kLe => do
        pure ((← c.row_map dcheck_is_on).FilterInto rm (fun idx =>
          match c.GetStringPoolStringAtIdx idx with
          | some v => decide (compare.String v str_value ≤ 0)
          | none => false))
      | .kGe => do
        pure ((← c.row_map dcheck_is_on).FilterInto rm (fun idx =>
          match c.GetStringPoolStringAtIdx idx with
          | some v => decide (compare.String v str_value ≥ 0)
          | none => false))
      | .kIsNull => PERFETTO_FATAL "Should be handled above"
      | .kIsNotNull => PERFETTO_FATAL "Should be handled above"
    | _ => pure []

/-- The cast `static_cast<uint32_t>(long_value)`: reduction modulo `2 ^ 32`. -/
def static_cast_uint32 (long_value : Int) : Nat :=
  (long_value % 4294967296).toNat

/-- `Column::FilterIntoIdSlow`, `column.cc:352`. -/
def Column.FilterIntoIdSlow (dcheck_is_on : Bool) (c : Column) (op : FilterOp)
    (value : SqlValue) (rm : List Nat) : Option (List Nat) := do
  PERFETTO_DCHECK dcheck_is_on (c.type_ == ColumnType.kId)
  if op = FilterOp.kIsNull then
    PERFETTO_DCHECK dcheck_is_on value.is_null
    pure []
  else if op = FilterOp.kIsNotNull then
    PERFETTO_DCHECK dcheck_is_on value.is_null
    pure rm
  else
    match value with
    | .Long long_value =>
      let id_value : Nat := static_cast_uint32 long_value
      match op with
      | .kLt => do
        pure ((← c.row_map dcheck_is_on).FilterInto rm (fun idx =>
          decide (compare.Numeric idx id_value < 0)))
      | .kEq => do
        pure ((← c.row_map dcheck_is_on).FilterInto rm (fun idx =>
          decide (compare.Numeric idx id_value = 0)))
      | .kGt => do
        pure ((← c.row_map dcheck_is_on).FilterInto rm (fun idx =>
          decide (compare.Numeric idx id_value > 0)))
      | .kNe => do
        pure ((← c.row_map dcheck_is_on).FilterInto rm (fun idx =>
          decide (compare.Numeric idx id_value ≠ 0)))
      | .kLe => do
        pure ((← c.row_map dcheck_is_on).FilterInto rm (fun idx =>
          decide (compare.Numeric idx id_value ≤ 0)))
      | .kGe => do
        pure ((← c.row_map dcheck_is_on).FilterInto rm (fun idx =>
          decide (compare.Numeric idx id_value ≥ 0)))
      | .kIsNull => PERFETTO_FATAL "Should be handled above"
      | .kIsNotNull => PERFETTO_FATAL "Should be handled above"
    | _ => pure []

/-- `Column::FilterIntoSlow`, `column.cc:98`. -/
def Column.FilterIntoSlow (dcheck_is_on : Bool) (c : Column) (op : FilterOp) (value : SqlValue)
    (rm : List Nat) : Option (List Nat) :=
  match c.type_ with
  | .kInt32 =>
    if c.IsNullable then c.FilterIntoNumericSlow dcheck_is_on NumericT.int32_t true op value rm
    else c.FilterIntoNumericSlow dcheck_is_on NumericT.int32_t false op value rm
  | .kUint32 =>
    if c.IsNullable then c.FilterIntoNumericSlow dcheck_is_on NumericT.uint32_t true op value rm
    else c.FilterIntoNumericSlow dcheck_is_on NumericT.uint32_t false op value rm
  | .kInt64 =>
    if c.IsNullable then c.FilterIntoNumericSlow dcheck_is_on NumericT.int64_t true op value rm
    else c.FilterIntoNumericSlow dcheck_is_on NumericT.int64_t false op value rm
  | .kDouble =>
    if c.IsNullable then c.FilterIntoNumericSlow dcheck_is_on NumericT.double true op value rm
    else c.FilterIntoNumericSlow dcheck_is_on NumericT.double false op value rm
  | .kString => c.FilterIntoStringSlow dcheck_is_on op value rm
  | .kId => c.FilterIntoIdSlow dcheck_is_on op value rm
  | .kDummy => PERFETTO_FATAL "FilterIntoSlow not allowed on dummy column"

/-! ## The sort engine -/

/-- `Column::StableSortNumeric<desc, T, is_nullable>`, `column.cc:463`, with `nv` the vector
`nullable_vector<T>()`. -/
def Column.StableSortNumeric {V : Type} [LT V] [DecidableRel (fun a b : V => a < b)]
    (dcheck_is_on : Bool) (c : Column) (desc : Bool) (T : NumericT) (nv : NullableVector V)
    (is_nullable : Bool) (out : List Nat) : Option (List Nat) := do
  PERFETTO_DCHECK dcheck_is_on (c.IsNullable == is_nullable)
  PERFETTO_DCHECK dcheck_is_on (ColumnTypeHelper.ToColumnType T == c.type_)
  pure ((← c.row_map dcheck_is_on).StableSort out (fun a_idx b_idx =>
    if is_nullable then
      let a_val := nv.Get a_idx
      let b_val := nv.Get b_idx
      let res := compare.NullableNumeric a_val b_val
      if desc then decide (res > 0) else decide (res < 0)
    else
      let a_val := nv.GetNonNull a_idx
      let b_val := nv.GetNonNull b_idx
      if desc then decide (compare.Numeric a_val b_val > 0)
      else decide (compare.Numeric a_val b_val < 0)))

/-- The template `Column::StableSort<desc>`, `column.cc:407`. -/
def Column.StableSortT (dcheck_is_on : Bool) (c : Column) (desc : Bool) (out : List Nat) :
    Option (List Nat) :=
  match c.type_ with
  | .kInt32 =>
    if c.IsNullable then
      c.StableSortNumeric dcheck_is_on desc NumericT.int32_t c.nullable_vector_.as_long true out
    else
      c.StableSortNumeric dcheck_is_on desc NumericT.int32_t c.nullable_vector_.as_long false out
  | .kUint32 =>
    if c.IsNullable then
      c.StableSortNumeric dcheck_is_on desc NumericT.uint32_t c.nullable_vector_.as_long true out
    else
      c.StableSortNumeric dcheck_is_on desc NumericT.uint32_t c.nullable_vector_.as_long false out
  | .kInt64 =>
    if c.IsNullable then
      c.StableSortNumeric dcheck_is_on desc NumericT.int64_t c.nullable_vector_.as_long true out
    else
      c.StableSortNumeric dcheck_is_on desc NumericT.int64_t c.nullable_vector_.as_long false out
  | .kDouble =>
    if c.IsNullable then
      c.StableSortNumeric dcheck_is_on desc NumericT.double c.nullable_vector_.as_double true out
    else
      c.StableSortNumeric dcheck_is_on desc NumericT.double c.nullable_vector_.as_double false out
  | .kString => do
    pure ((← c.row_map dcheck_is_on).StableSort out (fun a_idx b_idx =>
      let a_str := c.GetStringPoolStringAtIdx a_idx
      let b_str := c.GetStringPoolStringAtIdx b_idx
      let res := compare.NullableString a_str b_str
      if desc then decide (res > 0) else decide (res < 0)))
  | .kId => do
    pure ((← c.row_map dcheck_is_on).StableSort out (fun a_idx b_idx =>
      let res := compare.Numeric a_idx b_idx
      if desc then decide (res > 0) else decide (res < 0)))
  | .kDummy => PERFETTO_FATAL "StableSort not allowed on dummy column"

/-- `Column::StableSort(bool desc, std::vector<uint32_t>* idx)`, `column.cc:90`. -/
def Column.StableSort (dcheck_is_on : Bool) (c : Column) (desc : Bool) (idx : List Nat) :
    Option (List Nat) :=
  if desc then c.StableSortT dcheck_is_on true idx
  else c.StableSortT dcheck_is_on false idx

/-! ## Construction -/

/-- Declarations of `column.h` that the constructors use and `column.cc` does not define; they
are taken as parameters: the constant `kNoCrossTableInheritFlags`, the member `IsDense()`, the
answer of `nullable_vector<T>().IsDense()` and the predicate `IsFlagsAndTypeValid`. -/
structure ColumnDecls where
  kNoCrossTableInheritFlags : Nat
  IsDense : Column → Bool
  vector_IsDense : NullableVectorBase → Bool
  IsFlagsAndTypeValid : Nat → ColumnType → Bool

/-- The complement `~x` of a `uint32_t`. -/
def uint32_not (x : Nat) : Nat := 4294967296 - (x % 4294967296 + 1)

/-- The constructor `Column::Column(name, type, flags, table, col_idx_in_table, row_map_idx,
nv)`, `column.cc:38`.  `nullable`, the answer that `IsNullable()` will give, is an attribute in
this model and is handed over with the storage accessor it describes. -/
def Column.make (d : ColumnDecls) (dcheck_is_on : Bool) (name : String) (type : ColumnType)
    (flags : Nat) (table : Table) (col_idx_in_table row_map_idx : Nat)
    (nv : NullableVectorBase) (nullable : Bool) : Option Column := do
  let c : Column :=
    { type_ := type
      nullable_vector_ := nv
      name_ := name
      flags_ := flags
      table_ := table
      col_idx_in_table_ := col_idx_in_table
      row_map_idx_ := row_map_idx
      string_pool_ := table.string_pool_
      nullable := nullable }
  match c.type_ with
  | .kInt32 => PERFETTO_DCHECK dcheck_is_on (d.vector_IsDense nv == d.IsDense c)
  | .kUint32 => PERFETTO_DCHECK dcheck_is_on (d.vector_IsDense nv == d.IsDense c)
  | .kInt64 => PERFETTO_DCHECK dcheck_is_on (d.vector_IsDense nv == d.IsDense c)
  | .kDouble => PERFETTO_DCHECK dcheck_is_on (d.vector_IsDense nv == d.IsDense c)
  | .kString => PERFETTO_DCHECK dcheck_is_on (d.vector_IsDense nv == d.IsDense c)
  | .kId => pure ()
  | .kDummy => pure ()
  PERFETTO_DCHECK dcheck_is_on (d.IsFlagsAndTypeValid c.flags_ c.type_)
  pure c

/-- The copy-rebind constructor `Column::Column(const Column&, Table*, uint32_t col_idx,
uint32_t row_map_idx, const char* name)`, `column.cc:25`; `name` is `none` for a null pointer. -/
def Column.make_rebound (d : ColumnDecls) (dcheck_is_on : Bool) (column : Column) (table : Table)
    (col_idx row_map_idx : Nat) (name : Option String) : Option Column :=
  Column.make d dcheck_is_on
    (match name with
      | some n => n
      | none => column.name_)
    column.type_ (column.flags_ &&& uint32_not d.kNoCrossTableInheritFlags) table col_idx
    row_map_idx column.nullable_vector_ column.nullable

/-! ## Reading a column -/

/-- The row map of the column, `table_->row_maps_[row_map_idx_]`. -/
def Column.rows (c : Column) : RowMap := c.table_.row_maps_ c.row_map_idx_

/-- The physical position that the row index `r` maps to. -/
def Column.position (c : Column) (r : Nat) : Nat := c.rows.Get r

/-- The integer stored at a position of an Int32, UInt32 or Int64 column.  A nullable column is
read with `Get` and may be absent; a non-nullable one is read with `GetNonNull`. -/
def Column.long_at (c : Column) (p : Nat) : Option Int :=
  if c.IsNullable then c.nullable_vector_.as_long.Get p
  else some (c.nullable_vector_.as_long.GetNonNull p)

/-- The double stored at a position of a Double column. -/
def Column.double_at (c : Column) (p : Nat) : Option Double :=
  if c.IsNullable then c.nullable_vector_.as_double.Get p
  else some (c.nullable_vector_.as_double.GetNonNull p)

/-- The six ordering operators. -/
def FilterOp.is_ordering (op : FilterOp) : Bool :=
  op != FilterOp.kIsNull && op != FilterOp.kIsNotNull

/-- What an ordering operator says of a stored value `v` and a scalar `k` of one linearly
ordered type. -/
def FilterOp.holds {α : Type} [LinearOrder α] (op : FilterOp) (v k : α) : Bool :=
  match op with
  | .kLt => decide (v < k)
  | .kEq => decide (v = k)
  | .kGt => decide (k < v)
  | .kNe => decide (v ≠ k)
  | .kLe => decide (v ≤ k)
  | .kGe => decide (k ≤ v)
  | .kIsNull => false
  | .kIsNotNull => false

/-- The column is an Int32, UInt32, Int64 or Double column. -/
def Column.is_numeric (c : Column) : Bool :=
  c.type_ == ColumnType.kInt32 || c.type_ == ColumnType.kUint32 || c.type_ == ColumnType.kInt64 ||
    c.type_ == ColumnType.kDouble

/-- The value is present and passes the test `p`; an absent value passes no test. -/
def present_and {T : Type} (o : Option T) (p : T → Bool) : Bool :=
  match o with
  | some v => p v
  | none => false

/-- What the lambda of an ordering operator's `case` does with the tri-state result of the
comparator: `< 0` for `kLt`, `== 0` for `kEq`, and so on. -/
def FilterOp.accepts (op : FilterOp) (res : Int) : Bool :=
  match op with
  | .kLt => decide (res < 0)
  | .kEq => decide (res = 0)
  | .kGt => decide (res > 0)
  | .kNe => decide (res ≠ 0)
  | .kLe => decide (res ≤ 0)
  | .kGe => decide (res ≥ 0)
  | .kIsNull => false
  | .kIsNotNull => false

/-! ## The order of sort keys -/

/-- The value a row is sorted by. -/
inductive Key
  | long (v : Int)
  | double (d : Double)
  | string (s : Bytes)
  | position (p : Nat)
  deriving DecidableEq

/-- The sort key at a position: the stored number, the resolved string, or the position itself
for a RowId column; `none` is an absent value. -/
def Column.key (c : Column) (p : Nat) : Option Key :=
  match c.type_ with
  | .kInt32 => (c.long_at p).map Key.long
  | .kUint32 => (c.long_at p).map Key.long
  | .kInt64 => (c.long_at p).map Key.long
  | .kDouble => (c.double_at p).map Key.double
  | .kString => (c.GetStringPoolStringAtIdx p).map Key.string
  | .kId => some (Key.position p)
  | .kDummy => none

/-- Strictly below, for two present keys: numeric order, byte-wise string order, order of the
positions. -/
def Key.below : Key → Key → Bool
  | .long a, .long b => decide (a < b)
  | .double a, .double b => Double.lt a b
  | .string a, .string b => decide (a < b)
  | .position a, .position b => decide (a < b)
  | _, _ => false

/-- Strictly below, for two keys that may be absent: "an absent value compares below every
present value and equal to another absent value". -/
def key_below : Option Key → Option Key → Bool
  | none, some _ => true
  | some a, some b => a.below b
  | _, none => false

/-- The key of the row index `r`. -/
def Column.row_key (c : Column) (r : Nat) : Option Key := c.key (c.position r)

/-- The value of the row index `r` is absent: `Get` has no value in a nullable numeric column,
the resolved string has no bytes in a String column. -/
def Column.absent (c : Column) (r : Nat) : Bool := (c.row_key r).isNone

/-- Row `a` may stand before row `b` in the sort direction: the key of `b` is not below the key
of `a` when ascending, not above it when descending. -/
def Column.in_order (c : Column) (desc : Bool) (a b : Nat) : Prop :=
  if desc then key_below (c.row_key a) (c.row_key b) = false
  else key_below (c.row_key b) (c.row_key a) = false

/-- The rows `a` and `b` have equal keys under the comparator: neither is below the other. -/
def Column.same_key (c : Column) (a b : Nat) : Prop :=
  key_below (c.row_key a) (c.row_key b) = false ∧ key_below (c.row_key b) (c.row_key a) = false

instance (c : Column) (desc : Bool) (a b : Nat) : Decidable (c.in_order desc a b) := by
  unfold Column.in_order
  exact inferInstance

instance (c : Column) (a b : Nat) : Decidable (c.same_key a b) := by
  unfold Column.same_key
  exact inferInstance

/-- The strict comparator on row indices that a sort in the given direction uses, written with
the keys. -/
def Column.sort_comp (c : Column) (desc : Bool) (a b : Nat) : Bool :=
  if desc then key_below (c.row_key b) (c.row_key a) else key_below (c.row_key a) (c.row_key b)

/-- No row of `s` has a NaN as its key. -/
def Column.nan_free (c : Column) (s : List Nat) : Prop :=
  ∀ r ∈ s, c.row_key r ≠ some (Key.double Double.nan)

/-- In the sequence `out` every row whose value is absent stands before every row whose value is
present: no present row precedes an absent one. -/
def Column.absent_first (c : Column) (out : List Nat) : Prop :=
  out.Pairwise (fun a b => c.absent b = true → c.absent a = true)

/-- In the sequence `out` every row whose value is absent stands behind every row whose value is
present: no absent row precedes a present one. -/
def Column.absent_last (c : Column) (out : List Nat) : Prop :=
  out.Pairwise (fun a b => c.absent b = false → c.absent a = false)

instance (c : Column) (s : List Nat) : Decidable (c.nan_free s) := by
  unfold Column.nan_free
  exact inferInstance

instance (c : Column) (out : List Nat) : Decidable (c.absent_first out) := by
  unfold Column.absent_first
  exact inferInstance

instance (c : Column) (out : List Nat) : Decidable (c.absent_last out) := by
  unfold Column.absent_last
  exact inferInstance

/-- The tri-state result that the filter paths compute for the value at a position and the
scalar; `none` when the value is absent or the kind of the scalar does not fit the column. -/
def Column.compare_with (c : Column) (value : SqlValue) (p : Nat) : Option Int :=
  match c.type_ with
  | .kDouble =>
    match value with
    | .Long k => (c.double_at p).map (fun v => -compare.LongToDouble k v)
    | .Double d => (c.double_at p).map (fun v => compare.Numeric v d)
    | _ => none
  | .kString =>
    match value with
    | .String s => (c.GetStringPoolStringAtIdx p).map (fun v => compare.String v s)
    | _ => none
  | .kId =>
    match value with
    | .Long k => some (compare.Numeric p (static_cast_uint32 k))
    | _ => none
  | .kDummy => none
  | _ =>
    match value with
    | .Long k => (c.long_at p).map (fun v => compare.Numeric v k)
    | .Double d => (c.long_at p).map (fun v => compare.LongToDouble v d)
    | _ => none

/-- The kind of the scalar fits the column: an integer or a double on a numeric column, a string
on a String column, an integer on a RowId column. -/
def Column.compatible (c : Column) (value : SqlValue) : Bool :=
  match c.type_ with
  | .kString => value.type == SqlValue.Type.kString
  | .kId => value.type == SqlValue.Type.kLong
  | .kDummy => false
  | _ => value.type == SqlValue.Type.kLong || value.type == SqlValue.Type.kDouble

/-! ## Example tables -/

/-- A nullable vector with the listed entries; `dflt` fills what is not listed. -/
def NullableVector.of_list {T : Type} (dflt : T) (l : List (Option T)) : NullableVector T where
  Get := fun i => l.getD i none
  GetNonNull := fun i => (l.getD i none).getD dflt

/-- A string pool whose handle `i` resolves to the `i`-th listed string. -/
def StringPool.of_list (l : List NullTermStringView) : StringPool where
  Get := fun i => l.getD i none

/-- A table whose row maps are all the identity. -/
def example_table (pool : StringPool) : Table where
  row_maps_ := fun _ => { Get := fun i => i }
  string_pool_ := pool

/-- A column over `example_table` with the given type, nullability and contents; the string of
row `i` has the handle `i`. -/
def example_column (type : ColumnType) (nullable : Bool) (longs : List (Option Int))
    (doubles : List (Option Double)) (strings : List NullTermStringView) : Column where
  type_ := type
  nullable_vector_ :=
    { as_long := NullableVector.of_list 0 longs
      as_double := NullableVector.of_list (Double.finite 0) doubles
      as_string_id := { Get := fun i => some i, GetNonNull := fun i => i } }
  name_ := "c"
  flags_ := 0
  table_ := example_table (StringPool.of_list strings)
  col_idx_in_table_ := 0
  row_map_idx_ := 0
  string_pool_ := StringPool.of_list strings
  nullable := nullable

/-- Scenario A of the spec: a nullable Int32 column holding 5, null, 3, 5. -/
def scenario_a : Column :=
  example_column ColumnType.kInt32 true [some 5, none, some 3, some 5] [] []

/-- A nullable String column holding "a", an absent string and the empty string. -/
def string_column : Column :=
  example_column ColumnType.kString true [] [] [some [97], none, some []]

/-- Scenario E of the spec: a non-nullable Int64 column holding 7. -/
def scenario_e : Column :=
  example_column ColumnType.kInt64 false [some 7] [] []

/-- A RowId column over the identity row map. -/
def id_column : Column :=
  example_column ColumnType.kId false [] [] []

/-- Scenario B of the spec: a non-nullable Double column holding 1.0 and 2.0. -/
def scenario_b : Column :=
  example_column ColumnType.kDouble false [] [some (Double.finite 1), some (Double.finite 2)] []

/-- A nullable Int32 column over a row map that reverses its four rows. -/
def reversed_column : Column :=
  { scenario_a with
    table_ :=
      { row_maps_ := (fun _ => { Get := (fun i => 3 - i) })
        string_pool_ := StringPool.of_list [] } }

/-- Scenario C of the spec: a String column holding "b", an absent string and "a". -/
def scenario_c : Column :=
  example_column ColumnType.kString true [] [] [some [98], none, some [97]]

/-- A non-nullable Int64 column holding the value 1 in both of its rows. -/
def tied_column : Column :=
  example_column ColumnType.kInt64 false [some 1, some 1] [] []

/-- A nullable Int32 column holding 2, null, 1, null, 2. -/
def sorted_twice_column : Column :=
  example_column ColumnType.kInt32 true [some 2, none, some 1, none, some 2] [] []

/-- A non-nullable Double column holding 2.0, NaN and 1.0. -/
def nan_column : Column :=
  example_column ColumnType.kDouble false []
    [some (Double.finite 2), some Double.nan, some (Double.finite 1)] []

/-- A non-nullable Double column holding NaN, 3.0, NaN, 2.0, 2.0, 5.0, 5.0, 5.0. -/
def nan_ties_column : Column :=
  example_column ColumnType.kDouble false []
    [some Double.nan, some (Double.finite 3), some Double.nan, some (Double.finite 2),
      some (Double.finite 2), some (Double.finite 5), some (Double.finite 5),
      some (Double.finite 5)] []

/-- A non-nullable Double column holding 2.0, NaN, 2.0, 1.0, NaN. -/
def nan_twice_column : Column :=
  example_column ColumnType.kDouble false []
    [some (Double.finite 2), some Double.nan, some (Double.finite 2), some (Double.finite 1),
      some Double.nan] []

/-- A non-nullable Double column holding 2.0, NaN, 1.0, NaN. -/
def nan_direction_column : Column :=
  example_column ColumnType.kDouble false []
    [some (Double.finite 2), some Double.nan, some (Double.finite 1), some Double.nan] []

/-- A Dummy column. -/
def dummy_column : Column :=
  example_column ColumnType.kDummy false [] [] []

/-- Declarations under which flags 0 and 2 are stripped and no assertion of the constructor
fails. -/
def example_decls : ColumnDecls where
  kNoCrossTableInheritFlags := 5
  IsDense := fun _ => false
  vector_IsDense := fun _ => false
  IsFlagsAndTypeValid := fun _ _ => true

/-- The column of scenario A with the flags 0, 1 and 2 set. -/
def flagged_column : Column :=
  { scenario_a with flags_ := 7 }

/-- A non-nullable Int64 column holding `2 ^ 53 + 1`. -/
def large_column : Column :=
  example_column ColumnType.kInt64 false [some 9007199254740993] [] []

/-- A nullable Int64 column holding 3, null and `2 ^ 53 + 1`. -/
def mixed_column : Column :=
  example_column ColumnType.kInt64 true [some 3, none, some 9007199254740993] [] []

/-! ## Theorems -/

/-! ### The stable sort -/

theorem stable_insert_perm (comp : Nat → Nat → Bool) (x : Nat) (l : List Nat) :
    (stable_insert comp x l).Perm (x :: l) := by
  induction l with
  | nil => simp [stable_insert]
  | cons y ys ih =>
    unfold stable_insert
    split
    · exact (List.Perm.cons y ih).trans (List.Perm.swap x y ys)
    · exact List.Perm.refl _

theorem stable_sort_perm (comp : Nat → Nat → Bool) (l : List Nat) :
    (stable_sort comp l).Perm l := by
  induction l with
  | nil => simp [stable_sort]
  | cons x xs ih =>
    unfold stable_sort
    exact (stable_insert_perm comp x _).trans (List.Perm.cons x ih)

theorem mem_stable_insert (comp : Nat → Nat → Bool) (x z : Nat) (l : List Nat) :
    z ∈ stable_insert comp x l ↔ z = x ∨ z ∈ l := by
  rw [(stable_insert_perm comp x l).mem_iff]; simp

theorem stable_insert_chain (comp : Nat → Nat → Bool)
    (hasym : ∀ a b, comp a b = true → comp b a = false) (x : Nat) (l : List Nat)
    (hl : l.Chain' (fun a b => comp b a = false)) :
    (stable_insert comp x l).Chain' (fun a b => comp b a = false) := by
  induction l with
  | nil => simp [stable_insert]
  | cons y ys ih =>
    unfold stable_insert
    split
    next hyx =>
      have htail := ih (List.Chain'.tail hl)
      refine List.Chain'.cons' htail ?_
      intro z hz
      cases ys with
      | nil =>
        simp [stable_insert] at hz
        subst hz
        exact hasym _ _ hyx
      | cons w ws =>
        unfold stable_insert at hz
        split at hz
        · simp at hz
          subst hz
          exact (List.chain'_cons.1 hl).1
        · simp at hz
          subst hz
          exact hasym _ _ hyx
    next hyx =>
      refine List.Chain'.cons ?_ hl
      simpa using hyx

theorem stable_sort_chain (comp : Nat → Nat → Bool)
    (hasym : ∀ a b, comp a b = true → comp b a = false) (l : List Nat) :
    (stable_sort comp l).Chain' (fun a b => comp b a = false) := by
  induction l with
  | nil => simp [stable_sort]
  | cons x xs ih =>
    unfold stable_sort
    exact stable_insert_chain comp hasym x _ ih

theorem stable_insert_pairwise (comp : Nat → Nat → Bool) (P : Nat → Prop)
    (hasym : ∀ a b, comp a b = true → comp b a = false)
    (htrans : ∀ a b c, P a → P b → P c → comp b a = false → comp c b = false → comp c a = false)
    (x : Nat) (l : List Nat) (hx : P x) (hP : ∀ z ∈ l, P z)
    (hl : l.Pairwise (fun a b => comp b a = false)) :
    (stable_insert comp x l).Pairwise (fun a b => comp b a = false) := by
  induction l with
  | nil => simp [stable_insert]
  | cons y ys ih =>
    have hy : P y := hP y (List.mem_cons_self _ _)
    have hys : ∀ z ∈ ys, P z := fun z hz => hP z (List.mem_cons_of_mem _ hz)
    rw [List.pairwise_cons] at hl
    unfold stable_insert
    split
    next hyx =>
      rw [List.pairwise_cons]
      refine ⟨?_, ih hys hl.2⟩
      intro z hz
      rcases (mem_stable_insert comp x z ys).1 hz with rfl | hz
      · exact hasym _ _ hyx
      · exact hl.1 z hz
    next hyx =>
      have hyx' : comp y x = false := by simpa using hyx
      rw [List.pairwise_cons]
      refine ⟨?_, List.pairwise_cons.2 hl⟩
      intro z hz
      rcases List.mem_cons.1 hz with rfl | hz
      · exact hyx'
      · exact htrans x y z hx hy (hys z hz) hyx' (hl.1 z hz)

theorem stable_sort_pairwise (comp : Nat → Nat → Bool) (P : Nat → Prop)
    (hasym : ∀ a b, comp a b = true → comp b a = false)
    (htrans : ∀ a b c, P a → P b → P c → comp b a = false → comp c b = false → comp c a = false)
    (l : List Nat) (hP : ∀ z ∈ l, P z) :
    (stable_sort comp l).Pairwise (fun a b => comp b a = false) := by
  induction l with
  | nil => simp [stable_sort]
  | cons x xs ih =>
    unfold stable_sort
    refine stable_insert_pairwise comp P hasym htrans x _ (hP x (List.mem_cons_self _ _)) ?_
      (ih fun z hz => hP z (List.mem_cons_of_mem _ hz))
    intro z hz
    exact hP z (List.mem_cons_of_mem _ ((stable_sort_perm comp xs).mem_iff.1 hz))

theorem sublist_stable_insert (comp : Nat → Nat → Bool) (x : Nat) (l : List Nat) :
    l.Sublist (stable_insert comp x l) := by
  induction l with
  | nil => simp
  | cons y ys ih =>
    unfold stable_insert
    split
    · exact List.Sublist.cons₂ y ih
    · exact List.Sublist.cons x (List.Sublist.refl _)

theorem pair_sublist_stable_insert (comp : Nat → Nat → Bool) (x b : Nat) (l : List Nat)
    (hb : b ∈ l) (hbx : comp b x = false) : [x, b].Sublist (stable_insert comp x l) := by
  induction l with
  | nil => simp at hb
  | cons y ys ih =>
    unfold stable_insert
    split
    next hyx =>
      rcases List.mem_cons.1 hb with rfl | hb
      · rw [hbx] at hyx; exact absurd hyx (by simp)
      · exact List.Sublist.cons y (ih hb)
    next hyx =>
      exact List.Sublist.cons₂ x (List.singleton_sublist.2 hb)

theorem pair_sublist_stable_sort (comp : Nat → Nat → Bool) (a b : Nat) (l : List Nat)
    (hab : [a, b].Sublist l) (hba : comp b a = false) :
    [a, b].Sublist (stable_sort comp l) := by
  induction l with
  | nil => simp at hab
  | cons x xs ih =>
    unfold stable_sort
    cases hab with
    | cons _ h => exact (ih h).trans (sublist_stable_insert comp x _)
    | cons₂ _ h =>
      have hb : b ∈ stable_sort comp xs :=
        (stable_sort_perm comp xs).mem_iff.2 (List.singleton_sublist.1 h)
      exact pair_sublist_stable_insert comp a b _ hb hba

theorem stable_sort_of_chain (comp : Nat → Nat → Bool) (l : List Nat)
    (hl : l.Chain' (fun a b => comp b a = false)) : stable_sort comp l = l := by
  induction l with
  | nil => simp [stable_sort]
  | cons x xs ih =>
    unfold stable_sort
    rw [ih (List.Chain'.tail hl)]
    cases xs with
    | nil => simp [stable_insert]
    | cons y ys =>
      have h : comp y x = false := (List.chain'_cons.1 hl).1
      simp [stable_insert, h]

theorem stable_insert_comm (comp : Nat → Nat → Bool)
    (hasym : ∀ a b, comp a b = true → comp b a = false)
    (htrans : ∀ a b c, comp a b = true → comp b c = true → comp a c = true)
    (x y : Nat) (hxy : comp x y = true) (l : List Nat) :
    stable_insert comp y (stable_insert comp x l) =
      stable_insert comp x (stable_insert comp y l) := by
  have hyx : comp y x = false := hasym x y hxy
  induction l with
  | nil => simp [stable_insert, hxy, hyx]
  | cons z zs ih =>
    cases hzx : comp z x
    · cases hzy : comp z y <;> simp [stable_insert, hzx, hzy, hxy, hyx]
    · have hzy : comp z y = true := htrans z x y hzx hxy
      simp [stable_insert, hzx, hzy, ih]

theorem stable_sort_stable_insert (comp₁ comp₂ : Nat → Nat → Bool)
    (hasym : ∀ a b, comp₂ a b = true → comp₂ b a = false)
    (htrans : ∀ a b c, comp₂ a b = true → comp₂ b c = true → comp₂ a c = true)
    (hflip : ∀ a b, comp₁ a b = true → comp₂ b a = true) (x : Nat) (m : List Nat) :
    stable_sort comp₂ (stable_insert comp₁ x m) = stable_insert comp₂ x (stable_sort comp₂ m) := by
  induction m with
  | nil => simp [stable_insert, stable_sort]
  | cons y ys ih =>
    cases hyx : comp₁ y x
    · simp [stable_insert, hyx, stable_sort]
    · simp only [stable_insert, hyx, if_true, stable_sort, ih]
      exact stable_insert_comm comp₂ hasym htrans x y (hflip y x hyx) _

theorem stable_sort_stable_sort (comp₁ comp₂ : Nat → Nat → Bool)
    (hasym : ∀ a b, comp₂ a b = true → comp₂ b a = false)
    (htrans : ∀ a b c, comp₂ a b = true → comp₂ b c = true → comp₂ a c = true)
    (hflip : ∀ a b, comp₁ a b = true → comp₂ b a = true) (l : List Nat) :
    stable_sort comp₂ (stable_sort comp₁ l) = stable_sort comp₂ l := by
  induction l with
  | nil => simp [stable_sort]
  | cons x xs ih =>
    simp only [stable_sort]
    rw [stable_sort_stable_insert comp₁ comp₂ hasym htrans hflip, ih]

/-! ### The library sort returns a permutation -/

theorem std_unguarded_linear_insert_eq (comp : Nat → Nat → Bool) (val : Nat) (l : List Nat) :
    std.unguarded_linear_insert comp val l = stable_insert (fun a b => comp b a) val l := by
  induction l with
  | nil => rfl
  | cons y ys ih => simp [std.unguarded_linear_insert, stable_insert, ih]

theorem std_linear_insert_perm (comp : Nat → Nat → Bool) (sorted : List Nat) (val : Nat) :
    (std.linear_insert comp sorted val).Perm (val :: sorted) := by
  cases sorted with
  | nil => simp [std.linear_insert]
  | cons first rest =>
    simp only [std.linear_insert]
    split
    · exact List.Perm.refl _
    · rw [std_unguarded_linear_insert_eq]
      exact (List.reverse_perm _).trans
        ((stable_insert_perm _ val _).trans (List.Perm.cons val (List.reverse_perm _)))

theorem std_foldl_linear_insert_perm (comp : Nat → Nat → Bool) (l sorted : List Nat) :
    (l.foldl (std.linear_insert comp) sorted).Perm (sorted ++ l) := by
  induction l generalizing sorted with
  | nil => simp
  | cons v vs ih =>
    rw [List.foldl_cons]
    refine (ih _).trans ?_
    refine (List.Perm.append_right vs (std_linear_insert_perm comp sorted v)).trans ?_
    simp only [List.cons_append]
    exact List.perm_middle.symm

theorem std_insertion_sort_perm (comp : Nat → Nat → Bool) (l : List Nat) :
    (std.insertion_sort comp l).Perm l := by
  simpa [std.insertion_sort] using std_foldl_linear_insert_perm comp l []

theorem std_chunk_insertion_sort_perm (comp : Nat → Nat → Bool) (chunk_size fuel : Nat)
    (l : List Nat) : (std.chunk_insertion_sort comp chunk_size fuel l).flatten.Perm l := by
  induction fuel generalizing l with
  | zero => simpa [std.chunk_insertion_sort] using std_insertion_sort_perm comp l
  | succ n ih =>
    unfold std.chunk_insertion_sort
    split
    · rw [List.flatten_cons]
      refine ((std_insertion_sort_perm comp _).append (ih _)).trans ?_
      rw [List.take_append_drop]
    · simpa using std_insertion_sort_perm comp l

theorem std_move_merge_nil (comp : Nat → Nat → Bool) (l : List Nat) :
    std.move_merge comp l [] = l := by
  cases l <;> rfl

theorem std_move_merge_cons (comp : Nat → Nat → Bool) (x y : Nat) (xs ys : List Nat) :
    std.move_merge comp (x :: xs) (y :: ys) =
      if comp y x then y :: std.move_merge comp (x :: xs) ys
      else x :: std.move_merge comp xs (y :: ys) := rfl

theorem std_move_merge_perm (comp : Nat → Nat → Bool) (l1 l2 : List Nat) :
    (std.move_merge comp l1 l2).Perm (l1 ++ l2) := by
  induction l1 generalizing l2 with
  | nil => exact List.Perm.refl _
  | cons x xs ih1 =>
    induction l2 with
    | nil => simp [std_move_merge_nil]
    | cons y ys ih2 =>
      rw [std_move_merge_cons]
      split
      · exact (List.Perm.cons y ih2).trans List.perm_middle.symm
      · exact List.Perm.cons x (ih1 _)

theorem std_merge_sort_loop_perm (comp : Nat → Nat → Bool) :
    ∀ runs : List (List Nat), (std.merge_sort_loop comp runs).flatten.Perm runs.flatten
  | [] => by simp [std.merge_sort_loop]
  | [r] => by simp [std.merge_sort_loop]
  | r1 :: r2 :: rest => by
    simp only [std.merge_sort_loop, List.flatten_cons, ← List.append_assoc]
    exact (std_move_merge_perm comp r1 r2).append (std_merge_sort_loop_perm comp rest)

theorem std_merge_sort_loop_length (comp : Nat → Nat → Bool) :
    ∀ runs : List (List Nat), (std.merge_sort_loop comp runs).length = (runs.length + 1) / 2
  | [] => by simp [std.merge_sort_loop]
  | [r] => by simp [std.merge_sort_loop]
  | r1 :: r2 :: rest => by
    simp only [std.merge_sort_loop, List.length_cons, std_merge_sort_loop_length comp rest]
    omega

theorem std_merge_sort_passes_succ (comp : Nat → Nat → Bool) (fuel : Nat) (r1 r2 : List Nat)
    (rest : List (List Nat)) :
    std.merge_sort_passes comp (fuel + 1) (r1 :: r2 :: rest) =
      std.merge_sort_passes comp fuel (std.merge_sort_loop comp (r1 :: r2 :: rest)) := by
  simp [std.merge_sort_passes]

theorem std_merge_sort_passes_perm (comp : Nat → Nat → Bool) (fuel : Nat)
    (runs : List (List Nat)) : (std.merge_sort_passes comp fuel runs).Perm runs.flatten := by
  induction fuel generalizing runs with
  | zero =>
    match runs with
    | [] => simp [std.merge_sort_passes]
    | [r] => simp [std.merge_sort_passes]
    | r1 :: r2 :: rest => simp [std.merge_sort_passes]
  | succ n ih =>
    match runs with
    | [] => simp [std.merge_sort_passes]
    | [r] => simp [std.merge_sort_passes]
    | r1 :: r2 :: rest =>
      rw [std_merge_sort_passes_succ]
      exact (ih _).trans (std_merge_sort_loop_perm comp _)

theorem std_merge_sort_with_buffer_perm (comp : Nat → Nat → Bool) (l : List Nat) :
    (std.merge_sort_with_buffer comp l).Perm l :=
  (std_merge_sort_passes_perm comp _ _).trans (std_chunk_insertion_sort_perm comp _ _ l)

theorem std_move_merge_backward_eq (comp : Nat → Nat → Bool) (r1 r2 : List Nat) :
    std.move_merge_backward comp r1 r2 = std.move_merge (fun a b => comp b a) r2 r1 := by
  induction r1 generalizing r2 with
  | nil => rw [std_move_merge_nil]; rfl
  | cons a r1 ih1 =>
    induction r2 with
    | nil => rfl
    | cons b r2 ih2 =>
      rw [std_move_merge_cons, ← ih2, ← ih1]
      rfl

theorem std_move_merge_adaptive_backward_eq (comp : Nat → Nat → Bool) (l1 l2 : List Nat) :
    std.move_merge_adaptive_backward comp l1 l2 =
      (std.move_merge (fun a b => comp b a) l2.reverse l1.reverse).reverse := by
  rw [std.move_merge_adaptive_backward, std_move_merge_backward_eq]

theorem std_merge_adaptive_perm (comp : Nat → Nat → Bool) (l1 l2 : List Nat) :
    (std.merge_adaptive comp l1 l2).Perm (l1 ++ l2) := by
  unfold std.merge_adaptive
  split
  · exact std_move_merge_perm comp l1 l2
  · rw [std_move_merge_adaptive_backward_eq]
    refine (List.reverse_perm _).trans ((std_move_merge_perm _ _ _).trans ?_)
    exact List.perm_append_comm.trans ((List.reverse_perm l1).append (List.reverse_perm l2))

theorem std_stable_sort_perm (comp : Nat → Nat → Bool) (l : List Nat) :
    (std.stable_sort comp l).Perm l := by
  unfold std.stable_sort
  split
  · exact List.Perm.refl _
  · unfold std.stable_sort_adaptive
    refine (std_merge_adaptive_perm comp _ _).trans ?_
    refine ((std_merge_sort_with_buffer_perm comp _).append
      (std_merge_sort_with_buffer_perm comp _)).trans ?_
    rw [List.take_append_drop]

/-! ### The library sort puts every element in order with its successor -/

theorem std_unguarded_linear_insert_head (comp : Nat → Nat → Bool) (val : Nat) (l : List Nat) :
    ∀ z ∈ (std.unguarded_linear_insert comp val l).head?, z = val ∨ z ∈ l.head? := by
  cases l with
  | nil => simp [std.unguarded_linear_insert]
  | cons y ys =>
    unfold std.unguarded_linear_insert
    split <;> simp

theorem std_unguarded_linear_insert_chain (comp : Nat → Nat → Bool) (Rel : Nat → Nat → Prop)
    (h1 : ∀ a b, comp a b = true → Rel a b) (h2 : ∀ a b, comp b a = false → Rel a b)
    (val : Nat) (l : List Nat) (hl : l.Chain' (fun a b => Rel b a)) :
    (std.unguarded_linear_insert comp val l).Chain' (fun a b => Rel b a) := by
  induction l with
  | nil => simp [std.unguarded_linear_insert]
  | cons y ys ih =>
    unfold std.unguarded_linear_insert
    split
    next h =>
      rw [List.chain'_cons']
      refine ⟨?_, ih hl.tail⟩
      intro z hz
      rcases std_unguarded_linear_insert_head comp val ys z hz with rfl | hz
      · exact h1 _ _ h
      · exact (List.chain'_cons'.1 hl).1 z hz
    next h =>
      exact List.Chain'.cons (h2 _ _ (by simpa using h)) hl

theorem std_linear_insert_chain (comp : Nat → Nat → Bool) (Rel : Nat → Nat → Prop)
    (h1 : ∀ a b, comp a b = true → Rel a b) (h2 : ∀ a b, comp b a = false → Rel a b)
    (sorted : List Nat) (val : Nat) (hs : sorted.Chain' Rel) :
    (std.linear_insert comp sorted val).Chain' Rel := by
  cases sorted with
  | nil => simp [std.linear_insert]
  | cons first rest =>
    simp only [std.linear_insert]
    split
    next h => exact List.Chain'.cons (h1 _ _ h) hs
    next h =>
      rw [List.chain'_reverse]
      exact std_unguarded_linear_insert_chain comp Rel h1 h2 val _
        (List.chain'_reverse.1 (by simpa using hs))

theorem std_insertion_sort_chain (comp : Nat → Nat → Bool) (Rel : Nat → Nat → Prop)
    (h1 : ∀ a b, comp a b = true → Rel a b) (h2 : ∀ a b, comp b a = false → Rel a b)
    (l : List Nat) : (std.insertion_sort comp l).Chain' Rel := by
  have key : ∀ sorted : List Nat, sorted.Chain' Rel →
      (l.foldl (std.linear_insert comp) sorted).Chain' Rel := by
    induction l with
    | nil => intro s hs; simpa using hs
    | cons v vs ih =>
      intro s hs
      exact ih _ (std_linear_insert_chain comp Rel h1 h2 s v hs)
  exact key [] List.chain'_nil

theorem std_move_merge_head (comp : Nat → Nat → Bool) (l1 l2 : List Nat) :
    ∀ z ∈ (std.move_merge comp l1 l2).head?, z ∈ l1.head? ∨ z ∈ l2.head? := by
  cases l1 with
  | nil => intro z hz; exact Or.inr hz
  | cons x xs =>
    cases l2 with
    | nil => intro z hz; exact Or.inl hz
    | cons y ys =>
      rw [std_move_merge_cons]
      split <;> simp

theorem std_move_merge_chain (comp : Nat → Nat → Bool) (Rel : Nat → Nat → Prop)
    (h1 : ∀ a b, comp a b = true → Rel a b) (h2 : ∀ a b, comp b a = false → Rel a b)
    (l1 l2 : List Nat) (hl1 : l1.Chain' Rel) (hl2 : l2.Chain' Rel) :
    (std.move_merge comp l1 l2).Chain' Rel := by
  induction l1 generalizing l2 with
  | nil => exact hl2
  | cons x xs ih1 =>
    induction l2 with
    | nil => exact hl1
    | cons y ys ih2 =>
      rw [std_move_merge_cons]
      split
      next h =>
        rw [List.chain'_cons']
        refine ⟨?_, ih2 hl2.tail⟩
        intro z hz
        rcases std_move_merge_head comp _ _ z hz with hz | hz
        · simp at hz; subst hz; exact h1 _ _ h
        · exact (List.chain'_cons'.1 hl2).1 z hz
      next h =>
        rw [List.chain'_cons']
        refine ⟨?_, ih1 _ hl1.tail hl2⟩
        intro z hz
        rcases std_move_merge_head comp _ _ z hz with hz | hz
        · exact (List.chain'_cons'.1 hl1).1 z hz
        · simp at hz; subst hz; exact h2 _ _ (by simpa using h)

theorem std_merge_sort_loop_chain (comp : Nat → Nat → Bool) (Rel : Nat → Nat → Prop)
    (h1 : ∀ a b, comp a b = true → Rel a b) (h2 : ∀ a b, comp b a = false → Rel a b) :
    ∀ runs : List (List Nat), (∀ r ∈ runs, r.Chain' Rel) →
      ∀ r ∈ std.merge_sort_loop comp runs, r.Chain' Rel
  | [], _ => by simp [std.merge_sort_loop]
  | [r], h => by simpa [std.merge_sort_loop] using h
  | r1 :: r2 :: rest, h => by
    simp only [std.merge_sort_loop, List.mem_cons, forall_eq_or_imp]
    exact ⟨std_move_merge_chain comp Rel h1 h2 r1 r2 (h r1 (by simp)) (h r2 (by simp)),
      std_merge_sort_loop_chain comp Rel h1 h2 rest (fun r hr => h r (by simp [hr]))⟩

theorem std_merge_sort_passes_chain (comp : Nat → Nat → Bool) (Rel : Nat → Nat → Prop)
    (h1 : ∀ a b, comp a b = true → Rel a b) (h2 : ∀ a b, comp b a = false → Rel a b)
    (fuel : Nat) (runs : List (List Nat)) (hfuel : runs.length ≤ fuel + 1)
    (h : ∀ r ∈ runs, r.Chain' Rel) : (std.merge_sort_passes comp fuel runs).Chain' Rel := by
  induction fuel generalizing runs with
  | zero =>
    match runs, hfuel, h with
    | [], _, _ => simp [std.merge_sort_passes]
    | [r], _, h => simpa [std.merge_sort_passes] using h
    | _ :: _ :: _, hfuel, _ => simp at hfuel
  | succ n ih =>
    match runs, hfuel, h with
    | [], _, _ => simp [std.merge_sort_passes]
    | [r], _, h => simpa [std.merge_sort_passes] using h
    | r1 :: r2 :: rest, hfuel, h =>
      rw [std_merge_sort_passes_succ]
      refine ih _ ?_ (std_merge_sort_loop_chain comp Rel h1 h2 _ h)
      rw [std_merge_sort_loop_length]
      simp only [List.length_cons] at hfuel ⊢
      omega

theorem std_chunk_insertion_sort_chain (comp : Nat → Nat → Bool) (Rel : Nat → Nat → Prop)
    (h1 : ∀ a b, comp a b = true → Rel a b) (h2 : ∀ a b, comp b a = false → Rel a b)
    (chunk_size fuel : Nat) (l : List Nat) :
    ∀ r ∈ std.chunk_insertion_sort comp chunk_size fuel l, r.Chain' Rel := by
  induction fuel generalizing l with
  | zero =>
    simp only [std.chunk_insertion_sort, List.mem_singleton, forall_eq]
    exact std_insertion_sort_chain comp Rel h1 h2 l
  | succ n ih =>
    unfold std.chunk_insertion_sort
    split
    · simp only [List.mem_cons, forall_eq_or_imp]
      exact ⟨std_insertion_sort_chain comp Rel h1 h2 _, ih _⟩
    · simp only [List.mem_singleton, forall_eq]
      exact std_insertion_sort_chain comp Rel h1 h2 l

theorem std_merge_sort_with_buffer_chain (comp : Nat → Nat → Bool) (Rel : Nat → Nat → Prop)
    (h1 : ∀ a b, comp a b = true → Rel a b) (h2 : ∀ a b, comp b a = false → Rel a b)
    (l : List Nat) : (std.merge_sort_with_buffer comp l).Chain' Rel :=
  std_merge_sort_passes_chain comp Rel h1 h2 _ _ (Nat.le_succ _)
    (std_chunk_insertion_sort_chain comp Rel h1 h2 _ _ l)

theorem std_merge_adaptive_chain (comp : Nat → Nat → Bool) (Rel : Nat → Nat → Prop)
    (h1 : ∀ a b, comp a b = true → Rel a b) (h2 : ∀ a b, comp b a = false → Rel a b)
    (l1 l2 : List Nat) (hl1 : l1.Chain' Rel) (hl2 : l2.Chain' Rel) :
    (std.merge_adaptive comp l1 l2).Chain' Rel := by
  unfold std.merge_adaptive
  split
  · exact std_move_merge_chain comp Rel h1 h2 l1 l2 hl1 hl2
  · rw [std_move_merge_adaptive_backward_eq, List.chain'_reverse]
    exact std_move_merge_chain (fun a b => comp b a) (fun a b => Rel b a)
      (fun a b hab => h1 b a hab) (fun a b hab => h2 b a hab) _ _
      (List.chain'_reverse.1 (by simpa using hl2)) (List.chain'_reverse.1 (by simpa using hl1))

/-- Whatever the comparator, the library sort leaves every element in relation `Rel` with its
successor, for every relation that holds of `a`, `b` when `comp b a` is false or `comp a b` is
true. -/
theorem std_stable_sort_chain (comp : Nat → Nat → Bool) (Rel : Nat → Nat → Prop)
    (h1 : ∀ a b, comp a b = true → Rel a b) (h2 : ∀ a b, comp b a = false → Rel a b)
    (l : List Nat) : (std.stable_sort comp l).Chain' Rel := by
  unfold std.stable_sort
  split
  next h =>
    have : l = [] := by simpa using h
    subst this
    exact List.chain'_nil
  · exact std_merge_adaptive_chain comp Rel h1 h2 _ _
      (std_merge_sort_with_buffer_chain comp Rel h1 h2 _)
      (std_merge_sort_with_buffer_chain comp Rel h1 h2 _)

/-! ### Under a strict weak order the library sort is the stable insertion sort -/

theorem stable_insert_swap (comp : Nat → Nat → Bool) (P : Nat → Prop)
    (htrans : ∀ a b c, comp a b = true → comp b c = true → comp a c = true)
    (hneg : ∀ a b c, P a → P b → P c → comp b a = false → comp c b = false → comp c a = false)
    (a v : Nat) (s : List Nat) (ha : P a) (hv : P v) (hs : ∀ z ∈ s, P z) :
    stable_insert comp a (stable_insert_last comp v s) =
      stable_insert_last comp v (stable_insert comp a s) := by
  induction s with
  | nil =>
    cases h : comp v a <;> simp [stable_insert, stable_insert_last, h]
  | cons y ys ih =>
    have hy : P y := hs y (List.mem_cons_self _ _)
    have ih' := ih (fun z hz => hs z (List.mem_cons_of_mem _ hz))
    cases hvy : comp v y <;> cases hya : comp y a
    · have hva : comp v a = false := hneg a y v ha hy hv hya hvy
      simp [stable_insert, stable_insert_last, hvy, hya, hva]
    · simp [stable_insert, stable_insert_last, hvy, hya, ih']
    · cases hva : comp v a <;> simp [stable_insert, stable_insert_last, hvy, hya, hva]
    · have hva : comp v a = true := htrans v y a hvy hya
      simp [stable_insert, stable_insert_last, hvy, hya, hva]

theorem stable_sort_append_singleton (comp : Nat → Nat → Bool) (P : Nat → Prop)
    (htrans : ∀ a b c, comp a b = true → comp b c = true → comp a c = true)
    (hneg : ∀ a b c, P a → P b → P c → comp b a = false → comp c b = false → comp c a = false)
    (l : List Nat) (v : Nat) (hl : ∀ z ∈ l, P z) (hv : P v) :
    stable_sort comp (l ++ [v]) = stable_insert_last comp v (stable_sort comp l) := by
  induction l with
  | nil => simp [stable_sort, stable_insert, stable_insert_last]
  | cons a as ih =>
    have has : ∀ z ∈ as, P z := fun z hz => hl z (List.mem_cons_of_mem _ hz)
    show stable_insert comp a (stable_sort comp (as ++ [v])) =
      stable_insert_last comp v (stable_insert comp a (stable_sort comp as))
    rw [ih has]
    exact stable_insert_swap comp P htrans hneg a v _ (hl a (List.mem_cons_self _ _)) hv
      (fun z hz => has z ((stable_sort_perm comp as).mem_iff.1 hz))

theorem stable_insert_append_of_not (comp : Nat → Nat → Bool) (v y : Nat) (r : List Nat)
    (h : comp y v = false) : stable_insert comp v (r ++ [y]) = stable_insert comp v r ++ [y] := by
  induction r with
  | nil => simp [stable_insert, h]
  | cons z zs ih =>
    cases hz : comp z v <;> simp [stable_insert, hz, ih]

theorem stable_insert_of_all (comp : Nat → Nat → Bool) (v : Nat) (r : List Nat)
    (h : ∀ z ∈ r, comp z v = true) : stable_insert comp v r = r ++ [v] := by
  induction r with
  | nil => rfl
  | cons z zs ih =>
    simp [stable_insert, h z (List.mem_cons_self _ _),
      ih (fun w hw => h w (List.mem_cons_of_mem _ hw))]

/-- In a sorted sequence, walking back from the end past the greater elements reaches the place
that walking forward past the elements that are not greater reaches. -/
theorem stable_insert_reverse (comp : Nat → Nat → Bool) (P : Nat → Prop)
    (hneg : ∀ a b c, P a → P b → P c → comp b a = false → comp c b = false → comp c a = false)
    (v : Nat) (s : List Nat) (hv : P v) (hs : ∀ z ∈ s, P z)
    (hsorted : s.Pairwise (fun a b => comp b a = false)) :
    (stable_insert (fun a b => comp b a) v s.reverse).reverse = stable_insert_last comp v s := by
  induction s with
  | nil => rfl
  | cons y ys ih =>
    have hy : P y := hs y (List.mem_cons_self _ _)
    have hys : ∀ z ∈ ys, P z := fun z hz => hs z (List.mem_cons_of_mem _ hz)
    rw [List.pairwise_cons] at hsorted
    cases hvy : comp v y
    · rw [List.reverse_cons, stable_insert_append_of_not _ v y _ hvy, List.reverse_append]
      simp [stable_insert_last, hvy, ih hys hsorted.2]
    · have hall : ∀ z ∈ (y :: ys).reverse, comp v z = true := by
        intro z hz
        rcases List.mem_cons.1 (List.mem_reverse.1 hz) with rfl | hz
        · exact hvy
        · cases hvz : comp v z
          · have := hneg y z v hy (hys z hz) hv (hsorted.1 z hz) hvz
            rw [this] at hvy
            exact absurd hvy (by simp)
          · rfl
      rw [stable_insert_of_all (fun a b => comp b a) v _ hall]
      simp [stable_insert_last, hvy]

theorem std_linear_insert_eq (comp : Nat → Nat → Bool) (P : Nat → Prop)
    (hneg : ∀ a b c, P a → P b → P c → comp b a = false → comp c b = false → comp c a = false)
    (v : Nat) (s : List Nat) (hv : P v) (hs : ∀ z ∈ s, P z)
    (hsorted : s.Pairwise (fun a b => comp b a = false)) :
    std.linear_insert comp s v = stable_insert_last comp v s := by
  cases s with
  | nil => rfl
  | cons first rest =>
    simp only [std.linear_insert]
    split
    next h => simp [stable_insert_last, h]
    next h =>
      rw [std_unguarded_linear_insert_eq]
      exact stable_insert_reverse comp P hneg v _ hv hs hsorted

theorem std_insertion_sort_eq (comp : Nat → Nat → Bool) (P : Nat → Prop)
    (hasym : ∀ a b, comp a b = true → comp b a = false)
    (htrans : ∀ a b c, comp a b = true → comp b c = true → comp a c = true)
    (hneg : ∀ a b c, P a → P b → P c → comp b a = false → comp c b = false → comp c a = false)
    (l : List Nat) (hl : ∀ z ∈ l, P z) : std.insertion_sort comp l = stable_sort comp l := by
  have key : ∀ l pre : List Nat, (∀ z ∈ pre, P z) → (∀ z ∈ l, P z) →
      l.foldl (std.linear_insert comp) (stable_sort comp pre) = stable_sort comp (pre ++ l) := by
    intro l
    induction l with
    | nil => intro pre _ _; simp
    | cons v vs ih =>
      intro pre hpre hl
      have hv : P v := hl v (List.mem_cons_self _ _)
      rw [List.foldl_cons, std_linear_insert_eq comp P hneg v _ hv
        (fun z hz => hpre z ((stable_sort_perm comp pre).mem_iff.1 hz))
        (stable_sort_pairwise comp P hasym hneg pre hpre),
        ← stable_sort_append_singleton comp P htrans hneg pre v hpre hv,
        ih (pre ++ [v]) (by
          intro z hz
          rcases List.mem_append.1 hz with hz | hz
          · exact hpre z hz
          · rw [List.mem_singleton.1 hz]; exact hv)
          (fun z hz => hl z (List.mem_cons_of_mem _ hz))]
      simp
  simpa [std.insertion_sort, stable_sort] using key l [] (by simp) hl

theorem stable_sort_append (comp : Nat → Nat → Bool) (pre m : List Nat) :
    stable_sort comp (pre ++ m) = pre.foldr (stable_insert comp) (stable_sort comp m) := by
  induction pre with
  | nil => rfl
  | cons a as ih => simp [stable_sort, ih]

theorem stable_sort_stable_insert_append (comp : Nat → Nat → Bool)
    (hasym : ∀ a b, comp a b = true → comp b a = false)
    (htrans : ∀ a b c, comp a b = true → comp b c = true → comp a c = true)
    (a : Nat) (s m : List Nat) :
    stable_sort comp (stable_insert comp a s ++ m) =
      stable_insert comp a (stable_sort comp (s ++ m)) := by
  induction s with
  | nil => simp [stable_insert, stable_sort]
  | cons y ys ih =>
    cases hya : comp y a
    · simp [stable_insert, hya, stable_sort]
    · simp only [stable_insert, hya, if_true, List.cons_append, stable_sort, ih]
      exact (stable_insert_comm comp hasym htrans y a hya _).symm

theorem stable_sort_stable_sort_append (comp : Nat → Nat → Bool)
    (hasym : ∀ a b, comp a b = true → comp b a = false)
    (htrans : ∀ a b c, comp a b = true → comp b c = true → comp a c = true)
    (l m : List Nat) :
    stable_sort comp (stable_sort comp l ++ m) = stable_sort comp (l ++ m) := by
  induction l with
  | nil => rfl
  | cons a as ih =>
    show stable_sort comp (stable_insert comp a (stable_sort comp as) ++ m) =
      stable_insert comp a (stable_sort comp (as ++ m))
    rw [stable_sort_stable_insert_append comp hasym htrans, ih]

theorem stable_sort_idem (comp : Nat → Nat → Bool)
    (hasym : ∀ a b, comp a b = true → comp b a = false) (l : List Nat) :
    stable_sort comp (stable_sort comp l) = stable_sort comp l :=
  stable_sort_of_chain comp _ (stable_sort_chain comp hasym l)

theorem stable_sort_append_stable_sort (comp : Nat → Nat → Bool)
    (hasym : ∀ a b, comp a b = true → comp b a = false) (l m : List Nat) :
    stable_sort comp (l ++ stable_sort comp m) = stable_sort comp (l ++ m) := by
  rw [stable_sort_append, stable_sort_idem comp hasym, ← stable_sort_append]

theorem stable_sort_append_congr (comp : Nat → Nat → Bool) (l m m' : List Nat)
    (h : stable_sort comp m = stable_sort comp m') :
    stable_sort comp (l ++ m) = stable_sort comp (l ++ m') := by
  rw [stable_sort_append, h, ← stable_sort_append]

theorem stable_insert_of_head (comp : Nat → Nat → Bool) (a : Nat) (m : List Nat)
    (h : ∀ z ∈ m.head?, comp z a = false) : stable_insert comp a m = a :: m := by
  cases m with
  | nil => rfl
  | cons y ys => simp [stable_insert, h y (by simp)]

theorem std_move_merge_stable_insert (comp : Nat → Nat → Bool) (P : Nat → Prop)
    (hneg : ∀ a b c, P a → P b → P c → comp b a = false → comp c b = false → comp c a = false)
    (a : Nat) (s1 s2 : List Nat) (ha : P a) (h1 : ∀ z ∈ s1, P z) (h2 : ∀ z ∈ s2, P z)
    (hs1 : (a :: s1).Pairwise (fun x y => comp y x = false)) :
    stable_insert comp a (std.move_merge comp s1 s2) = std.move_merge comp (a :: s1) s2 := by
  rw [List.pairwise_cons] at hs1
  induction s2 with
  | nil =>
    rw [std_move_merge_nil, std_move_merge_nil]
    exact stable_insert_of_head comp a s1 (fun z hz => hs1.1 z (List.mem_of_mem_head? hz))
  | cons y ys ih =>
    have hy : P y := h2 y (List.mem_cons_self _ _)
    have ih' := ih (fun z hz => h2 z (List.mem_cons_of_mem _ hz))
    rw [std_move_merge_cons]
    cases hya : comp y a
    · simp only [Bool.false_eq_true, if_false]
      refine stable_insert_of_head comp a _ ?_
      intro z hz
      rcases std_move_merge_head comp _ _ z hz with hz | hz
      · exact hs1.1 z (List.mem_of_mem_head? hz)
      · simp at hz; subst hz; exact hya
    · simp only [if_true]
      rw [← ih']
      cases s1 with
      | nil => simp [std.move_merge, stable_insert, hya]
      | cons x xs =>
        have hyx : comp y x = true := by
          cases hyx : comp y x
          · have := hneg a x y ha (h1 x (List.mem_cons_self _ _)) hy
              (hs1.1 x (List.mem_cons_self _ _)) hyx
            rw [this] at hya
            exact absurd hya (by simp)
          · rfl
        rw [std_move_merge_cons]
        simp [hyx, stable_insert, hya]

theorem std_move_merge_eq (comp : Nat → Nat → Bool) (P : Nat → Prop)
    (hneg : ∀ a b c, P a → P b → P c → comp b a = false → comp c b = false → comp c a = false)
    (s1 s2 : List Nat) (h1 : ∀ z ∈ s1, P z) (h2 : ∀ z ∈ s2, P z)
    (hs1 : s1.Pairwise (fun x y => comp y x = false))
    (hs2 : s2.Pairwise (fun x y => comp y x = false)) :
    std.move_merge comp s1 s2 = stable_sort comp (s1 ++ s2) := by
  induction s1 with
  | nil => exact (stable_sort_of_chain comp s2 hs2.chain').symm
  | cons a as ih =>
    have has : ∀ z ∈ as, P z := fun z hz => h1 z (List.mem_cons_of_mem _ hz)
    show _ = stable_insert comp a (stable_sort comp (as ++ s2))
    rw [← ih has (List.pairwise_cons.1 hs1).2]
    exact (std_move_merge_stable_insert comp P hneg a as s2 (h1 a (List.mem_cons_self _ _)) has
      h2 hs1).symm

/-- Sorting the reversed sequence under the reversed comparator and reversing the result gives
the stable sort. -/
theorem stable_sort_reverse (comp : Nat → Nat → Bool) (P : Nat → Prop)
    (hasym : ∀ a b, comp a b = true → comp b a = false)
    (htrans : ∀ a b c, comp a b = true → comp b c = true → comp a c = true)
    (hneg : ∀ a b c, P a → P b → P c → comp b a = false → comp c b = false → comp c a = false)
    (l : List Nat) (hl : ∀ z ∈ l, P z) :
    (stable_sort (fun a b => comp b a) l.reverse).reverse = stable_sort comp l := by
  induction l with
  | nil => rfl
  | cons a as ih =>
    have ha : P a := hl a (List.mem_cons_self _ _)
    have has : ∀ z ∈ as, P z := fun z hz => hl z (List.mem_cons_of_mem _ hz)
    have hrev : stable_sort (fun a b => comp b a) as.reverse = (stable_sort comp as).reverse := by
      rw [← ih has, List.reverse_reverse]
    have hsorted := stable_sort_pairwise comp P hasym hneg as has
    have hmem : ∀ z ∈ (stable_sort comp as).reverse, P z := fun z hz =>
      has z ((stable_sort_perm comp as).mem_iff.1 (List.mem_reverse.1 hz))
    rw [List.reverse_cons, stable_sort_append_singleton (fun a b => comp b a) P
      (fun x y z hxy hyz => htrans z y x hyz hxy)
      (fun x y z hx hy hz hyx hzy => hneg z y x hz hy hx hzy hyx) _ a
      (fun z hz => has z (List.mem_reverse.1 hz)) ha, hrev]
    have key := stable_insert_reverse (fun a b => comp b a) P
      (fun x y z hx hy hz hyx hzy => hneg z y x hz hy hx hzy hyx) a
      (stable_sort comp as).reverse ha hmem (List.pairwise_reverse.2 hsorted)
    rw [List.reverse_reverse] at key
    rw [← key, List.reverse_reverse]
    rfl

theorem std_move_merge_adaptive_backward_stable (comp : Nat → Nat → Bool) (P : Nat → Prop)
    (hasym : ∀ a b, comp a b = true → comp b a = false)
    (htrans : ∀ a b c, comp a b = true → comp b c = true → comp a c = true)
    (hneg : ∀ a b c, P a → P b → P c → comp b a = false → comp c b = false → comp c a = false)
    (s1 s2 : List Nat) (h1 : ∀ z ∈ s1, P z) (h2 : ∀ z ∈ s2, P z)
    (hs1 : s1.Pairwise (fun x y => comp y x = false))
    (hs2 : s2.Pairwise (fun x y => comp y x = false)) :
    std.move_merge_adaptive_backward comp s1 s2 = stable_sort comp (s1 ++ s2) := by
  rw [std_move_merge_adaptive_backward_eq, std_move_merge_eq (fun a b => comp b a) P
    (fun x y z hx hy hz hyx hzy => hneg z y x hz hy hx hzy hyx) _ _
    (fun z hz => h2 z (List.mem_reverse.1 hz)) (fun z hz => h1 z (List.mem_reverse.1 hz))
    (List.pairwise_reverse.2 hs2) (List.pairwise_reverse.2 hs1), ← List.reverse_append]
  exact stable_sort_reverse comp P hasym htrans hneg _ (by
    intro z hz
    rcases List.mem_append.1 hz with hz | hz
    · exact h1 z hz
    · exact h2 z hz)

theorem std_merge_adaptive_eq (comp : Nat → Nat → Bool) (P : Nat → Prop)
    (hasym : ∀ a b, comp a b = true → comp b a = false)
    (htrans : ∀ a b c, comp a b = true → comp b c = true → comp a c = true)
    (hneg : ∀ a b c, P a → P b → P c → comp b a = false → comp c b = false → comp c a = false)
    (s1 s2 : List Nat) (h1 : ∀ z ∈ s1, P z) (h2 : ∀ z ∈ s2, P z)
    (hs1 : s1.Pairwise (fun x y => comp y x = false))
    (hs2 : s2.Pairwise (fun x y => comp y x = false)) :
    std.merge_adaptive comp s1 s2 = stable_sort comp (s1 ++ s2) := by
  unfold std.merge_adaptive
  split
  · exact std_move_merge_eq comp P hneg s1 s2 h1 h2 hs1 hs2
  · exact std_move_merge_adaptive_backward_stable comp P hasym htrans hneg s1 s2 h1 h2 hs1 hs2

/-- One pass over runs that are each sorted keeps them sorted and keeps the stable sort of their
concatenation. -/
theorem std_merge_sort_loop_eq (comp : Nat → Nat → Bool) (P : Nat → Prop)
    (hasym : ∀ a b, comp a b = true → comp b a = false)
    (htrans : ∀ a b c, comp a b = true → comp b c = true → comp a c = true)
    (hneg : ∀ a b c, P a → P b → P c → comp b a = false → comp c b = false → comp c a = false) :
    ∀ runs : List (List Nat),
      (∀ r ∈ runs, (∀ z ∈ r, P z) ∧ r.Pairwise (fun x y => comp y x = false)) →
      (∀ r ∈ std.merge_sort_loop comp runs,
        (∀ z ∈ r, P z) ∧ r.Pairwise (fun x y => comp y x = false)) ∧
      stable_sort comp (std.merge_sort_loop comp runs).flatten = stable_sort comp runs.flatten
  | [], _ => by simp [std.merge_sort_loop]
  | [r], h => by simpa [std.merge_sort_loop] using h
  | r1 :: r2 :: rest, h => by
    have hr1 := h r1 (by simp)
    have hr2 := h r2 (by simp)
    have ih := std_merge_sort_loop_eq comp P hasym htrans hneg rest
      (fun r hr => h r (by simp [hr]))
    have hP12 : ∀ z ∈ r1 ++ r2, P z := by
      intro z hz
      rcases List.mem_append.1 hz with hz | hz
      · exact hr1.1 z hz
      · exact hr2.1 z hz
    have hm := std_move_merge_eq comp P hneg r1 r2 hr1.1 hr2.1 hr1.2 hr2.2
    simp only [std.merge_sort_loop, List.mem_cons, forall_eq_or_imp, List.flatten_cons]
    refine ⟨⟨⟨?_, ?_⟩, ih.1⟩, ?_⟩
    · rw [hm]
      exact fun z hz => hP12 z ((stable_sort_perm comp _).mem_iff.1 hz)
    · rw [hm]
      exact stable_sort_pairwise comp P hasym hneg _ hP12
    · rw [hm, stable_sort_stable_sort_append comp hasym htrans, ← List.append_assoc]
      exact stable_sort_append_congr comp _ _ _ ih.2

theorem std_merge_sort_passes_eq (comp : Nat → Nat → Bool) (P : Nat → Prop)
    (hasym : ∀ a b, comp a b = true → comp b a = false)
    (htrans : ∀ a b c, comp a b = true → comp b c = true → comp a c = true)
    (hneg : ∀ a b c, P a → P b → P c → comp b a = false → comp c b = false → comp c a = false)
    (fuel : Nat) (runs : List (List Nat)) (hfuel : runs.length ≤ fuel + 1)
    (h : ∀ r ∈ runs, (∀ z ∈ r, P z) ∧ r.Pairwise (fun x y => comp y x = false)) :
    std.merge_sort_passes comp fuel runs = stable_sort comp runs.flatten := by
  induction fuel generalizing runs with
  | zero =>
    match runs, hfuel, h with
    | [], _, _ => simp [std.merge_sort_passes, stable_sort]
    | [r], _, h =>
      simpa [std.merge_sort_passes] using
        (stable_sort_of_chain comp r (h r (by simp)).2.chain').symm
    | _ :: _ :: _, hfuel, _ => simp at hfuel
  | succ n ih =>
    match runs, hfuel, h with
    | [], _, _ => simp [std.merge_sort_passes, stable_sort]
    | [r], _, h =>
      simpa [std.merge_sort_passes] using
        (stable_sort_of_chain comp r (h r (by simp)).2.chain').symm
    | r1 :: r2 :: rest, hfuel, h =>
      have hloop := std_merge_sort_loop_eq comp P hasym htrans hneg _ h
      rw [std_merge_sort_passes_succ, ih _ ?_ hloop.1, hloop.2]
      rw [std_merge_sort_loop_length]
      simp only [List.length_cons] at hfuel ⊢
      omega

theorem std_chunk_insertion_sort_eq (comp : Nat → Nat → Bool) (P : Nat → Prop)
    (hasym : ∀ a b, comp a b = true → comp b a = false)
    (htrans : ∀ a b c, comp a b = true → comp b c = true → comp a c = true)
    (hneg : ∀ a b c, P a → P b → P c → comp b a = false → comp c b = false → comp c a = false)
    (chunk_size fuel : Nat) (l : List Nat) (hl : ∀ z ∈ l, P z) :
    (∀ r ∈ std.chunk_insertion_sort comp chunk_size fuel l,
      (∀ z ∈ r, P z) ∧ r.Pairwise (fun x y => comp y x = false)) ∧
    stable_sort comp (std.chunk_insertion_sort comp chunk_size fuel l).flatten =
      stable_sort comp l := by
  have hrun : ∀ m : List Nat, (∀ z ∈ m, P z) →
      (∀ z ∈ std.insertion_sort comp m, P z) ∧
        (std.insertion_sort comp m).Pairwise (fun x y => comp y x = false) := by
    intro m hm
    rw [std_insertion_sort_eq comp P hasym htrans hneg m hm]
    exact ⟨fun z hz => hm z ((stable_sort_perm comp m).mem_iff.1 hz),
      stable_sort_pairwise comp P hasym hneg m hm⟩
  induction fuel generalizing l with
  | zero =>
    simp only [std.chunk_insertion_sort, List.mem_singleton, forall_eq, List.flatten_cons,
      List.flatten_nil, List.append_nil]
    exact ⟨hrun l hl, by
      rw [std_insertion_sort_eq comp P hasym htrans hneg l hl, stable_sort_idem comp hasym]⟩
  | succ n ih =>
    unfold std.chunk_insertion_sort
    split
    · have htake : ∀ z ∈ l.take chunk_size, P z := fun z hz => hl z (List.mem_of_mem_take hz)
      have hdrop : ∀ z ∈ l.drop chunk_size, P z := fun z hz => hl z (List.mem_of_mem_drop hz)
      have ih' := ih _ hdrop
      simp only [List.mem_cons, forall_eq_or_imp, List.flatten_cons]
      refine ⟨⟨hrun _ htake, ih'.1⟩, ?_⟩
      rw [std_insertion_sort_eq comp P hasym htrans hneg _ htake,
        stable_sort_stable_sort_append comp hasym htrans,
        stable_sort_append_congr comp _ _ _ ih'.2, List.take_append_drop]
    · simp only [List.mem_singleton, forall_eq, List.flatten_cons, List.flatten_nil,
        List.append_nil]
      exact ⟨hrun l hl, by
        rw [std_insertion_sort_eq comp P hasym htrans hneg l hl, stable_sort_idem comp hasym]⟩

theorem std_merge_sort_with_buffer_eq (comp : Nat → Nat → Bool) (P : Nat → Prop)
    (hasym : ∀ a b, comp a b = true → comp b a = false)
    (htrans : ∀ a b c, comp a b = true → comp b c = true → comp a c = true)
    (hneg : ∀ a b c, P a → P b → P c → comp b a = false → comp c b = false → comp c a = false)
    (l : List Nat) (hl : ∀ z ∈ l, P z) :
    std.merge_sort_with_buffer comp l = stable_sort comp l := by
  have h := std_chunk_insertion_sort_eq comp P hasym htrans hneg 7 l.length l hl
  unfold std.merge_sort_with_buffer
  rw [std_merge_sort_passes_eq comp P hasym htrans hneg _ _ (Nat.le_succ _) h.1, h.2]

/-- Under a comparator that is a strict weak order on the elements of `l` (asymmetric,
transitive, and with "not below" transitive), the library sort returns what the stable insertion
sort returns. -/
theorem std_stable_sort_eq (comp : Nat → Nat → Bool) (P : Nat → Prop)
    (hasym : ∀ a b, comp a b = true → comp b a = false)
    (htrans : ∀ a b c, comp a b = true → comp b c = true → comp a c = true)
    (hneg : ∀ a b c, P a → P b → P c → comp b a = false → comp c b = false → comp c a = false)
    (l : List Nat) (hl : ∀ z ∈ l, P z) : std.stable_sort comp l = stable_sort comp l := by
  unfold std.stable_sort
  split
  next h =>
    have : l = [] := by simpa using h
    subst this
    rfl
  · have htake : ∀ z ∈ l.take ((l.length + 1) / 2), P z := fun z hz =>
      hl z (List.mem_of_mem_take hz)
    have hdrop : ∀ z ∈ l.drop ((l.length + 1) / 2), P z := fun z hz =>
      hl z (List.mem_of_mem_drop hz)
    unfold std.stable_sort_adaptive
    simp only []
    rw [std_merge_sort_with_buffer_eq comp P hasym htrans hneg _ htake,
      std_merge_sort_with_buffer_eq comp P hasym htrans hneg _ hdrop,
      std_merge_adaptive_eq comp P hasym htrans hneg _ _
        (fun z hz => htake z ((stable_sort_perm comp _).mem_iff.1 hz))
        (fun z hz => hdrop z ((stable_sort_perm comp _).mem_iff.1 hz))
        (stable_sort_pairwise comp P hasym hneg _ htake)
        (stable_sort_pairwise comp P hasym hneg _ hdrop),
      stable_sort_stable_sort_append comp hasym htrans,
      stable_sort_append_stable_sort comp hasym, List.take_append_drop]

/-! ### The loops of the library sort run to their end -/

/-- With a positive chunk size, as many steps as the range has elements are enough for the loop
of `__chunk_insertion_sort`: more steps give the same runs. -/
theorem std_chunk_insertion_sort_fuel (comp : Nat → Nat → Bool) (chunk_size fuel : Nat)
    (l : List Nat) (hk : 0 < chunk_size) (hfuel : l.length ≤ fuel) :
    std.chunk_insertion_sort comp chunk_size (fuel + 1) l =
      std.chunk_insertion_sort comp chunk_size fuel l := by
  induction fuel generalizing l with
  | zero =>
    have : l = [] := List.length_eq_zero.1 (Nat.le_zero.1 hfuel)
    subst this
    simp [std.chunk_insertion_sort, Nat.not_le.2 hk]
  | succ n ih =>
    rw [std.chunk_insertion_sort]
    conv_rhs => rw [std.chunk_insertion_sort]
    split
    next h =>
      rw [ih _ (by rw [List.length_drop]; omega)]
    next h => rfl

/-- As many passes as there are runs are enough for the loop of `__merge_sort_with_buffer`:
more passes give the same result. -/
theorem std_merge_sort_passes_fuel (comp : Nat → Nat → Bool) (fuel : Nat)
    (runs : List (List Nat)) (hfuel : runs.length ≤ fuel + 1) :
    std.merge_sort_passes comp (fuel + 1) runs = std.merge_sort_passes comp fuel runs := by
  induction fuel generalizing runs with
  | zero =>
    match runs, hfuel with
    | [], _ => simp [std.merge_sort_passes]
    | [r], _ => simp [std.merge_sort_passes]
    | _ :: _ :: _, hfuel => simp at hfuel
  | succ n ih =>
    match runs, hfuel with
    | [], _ => simp [std.merge_sort_passes]
    | [r], _ => simp [std.merge_sort_passes]
    | r1 :: r2 :: rest, hfuel =>
      rw [std_merge_sort_passes_succ, std_merge_sort_passes_succ]
      refine ih _ ?_
      rw [std_merge_sort_loop_length]
      simp only [List.length_cons] at hfuel ⊢
      omega

/-! ### The comparison primitives -/

theorem Double.lt_asymm (a b : Double) (h : Double.lt a b = true) : Double.lt b a = false := by
  cases a <;> cases b <;> simp_all [Double.lt]
  exact le_of_lt h

theorem Double.lt_iff (a b : Double) : a < b ↔ Double.lt a b = true := Iff.rfl

theorem Numeric_neg_iff {T : Type} [LT T] [DecidableRel (fun a b : T => a < b)] (a b : T) :
    compare.Numeric a b < 0 ↔ a < b := by
  unfold compare.Numeric
  split
  · simp [*]
  · split <;> simp [*]

theorem Numeric_pos_iff {T : Type} [LT T] [DecidableRel (fun a b : T => a < b)]
    (hasym : ∀ a b : T, a < b → ¬ b < a) (a b : T) :
    compare.Numeric a b > 0 ↔ b < a := by
  unfold compare.Numeric
  split
  next h => simp [hasym a b h]
  next h => split <;> simp [*]

theorem Numeric_zero_iff {T : Type} [LT T] [DecidableRel (fun a b : T => a < b)] (a b : T) :
    compare.Numeric a b = 0 ↔ ¬ a < b ∧ ¬ b < a := by
  unfold compare.Numeric
  split
  · simp [*]
  · split <;> simp [*]

theorem String_neg_iff (a b : Bytes) : compare.String a b < 0 ↔ a < b := by
  unfold compare.String
  split
  · simp [*]
  · split <;> simp [*]

theorem String_pos_iff (a b : Bytes) : compare.String a b > 0 ↔ b < a := by
  unfold compare.String
  split
  next h => simp [lt_asymm h]
  next h => split <;> simp [*]

theorem Double.lt_asymm_rel (a b : Double) (h : a < b) : ¬ b < a := by
  rw [Double.lt_iff] at *
  simp [Double.lt_asymm a b h]

/-! ### The order of keys -/

theorem Key.below_asymm (a b : Key) (h : a.below b = true) : b.below a = false := by
  cases a <;> cases b <;> simp_all [Key.below]
  · exact le_of_lt h
  · exact Double.lt_asymm _ _ h
  · exact le_of_lt h
  · exact le_of_lt h

theorem key_below_asymm (a b : Option Key) (h : key_below a b = true) :
    key_below b a = false := by
  cases a <;> cases b <;> simp_all [key_below]
  exact Key.below_asymm _ _ h

theorem Column.sort_comp_asymm (c : Column) (desc : Bool) (a b : Nat)
    (h : c.sort_comp desc a b = true) : c.sort_comp desc b a = false := by
  unfold Column.sort_comp at *
  cases desc <;> simp_all <;> exact key_below_asymm _ _ h

theorem Column.row_map_eq (dcheck_is_on : Bool) (c : Column) (h : c.type_ ≠ ColumnType.kDummy) :
    c.row_map dcheck_is_on = some c.rows := by
  simp [Column.row_map, PERFETTO_DCHECK, h, Column.rows]

theorem NullableNumeric_neg_iff {T : Type} [LT T] [DecidableRel (fun a b : T => a < b)]
    (a b : Option T) :
    compare.NullableNumeric a b < 0 ↔
      (a = none ∧ b ≠ none) ∨ ∃ x y, a = some x ∧ b = some y ∧ x < y := by
  cases a <;> cases b <;> simp [compare.NullableNumeric, Numeric_neg_iff]

theorem NullableNumeric_pos_iff {T : Type} [LT T] [DecidableRel (fun a b : T => a < b)]
    (hasym : ∀ a b : T, a < b → ¬ b < a) (a b : Option T) :
    compare.NullableNumeric a b > 0 ↔
      (b = none ∧ a ≠ none) ∨ ∃ x y, a = some x ∧ b = some y ∧ y < x := by
  cases a <;> cases b <;> simp [compare.NullableNumeric, Numeric_pos_iff hasym]

theorem key_below_some {V : Type} [LT V] [DecidableRel (fun a b : V => a < b)] (K : V → Key)
    (hK : ∀ a b, (K a).below (K b) = decide (a < b)) (hasym : ∀ a b : V, a < b → ¬ b < a)
    (a b : V) :
    decide (compare.Numeric a b < 0) = key_below (some (K a)) (some (K b)) ∧
      decide (compare.Numeric a b > 0) = key_below (some (K b)) (some (K a)) := by
  simp only [key_below, hK, Numeric_neg_iff, Numeric_pos_iff hasym, and_self]

theorem key_below_map {V : Type} [LT V] [DecidableRel (fun a b : V => a < b)] (K : V → Key)
    (hK : ∀ a b, (K a).below (K b) = decide (a < b)) (hasym : ∀ a b : V, a < b → ¬ b < a)
    (a b : Option V) :
    decide (compare.NullableNumeric a b < 0) = key_below (a.map K) (b.map K) ∧
      decide (compare.NullableNumeric a b > 0) = key_below (b.map K) (a.map K) := by
  cases a <;> cases b <;>
    simp [key_below, hK, compare.NullableNumeric, Numeric_neg_iff, Numeric_pos_iff hasym]

theorem key_below_string (a b : NullTermStringView) :
    decide (compare.NullableString a b < 0) = key_below (a.map Key.string) (b.map Key.string) ∧
      decide (compare.NullableString a b > 0) =
        key_below (b.map Key.string) (a.map Key.string) := by
  cases a <;> cases b <;>
    simp [key_below, Key.below, compare.NullableString, String_neg_iff, String_pos_iff]

/-- The comparator that `StableSort` hands to the row map is the strict order of the keys, in the
sort direction. -/
theorem Column.StableSort_eq (dcheck_is_on : Bool) (c : Column) (desc : Bool) (s : List Nat)
    (h : c.type_ ≠ ColumnType.kDummy) :
    c.StableSort dcheck_is_on desc s = some (std.stable_sort (c.sort_comp desc) s) := by
  have hrm := Column.row_map_eq dcheck_is_on c h
  have hInt : ∀ a b : Int, a < b → ¬ b < a := fun a b hab => lt_asymm hab
  have hNat : ∀ a b : Nat, a < b → ¬ b < a := fun a b hab => lt_asymm hab
  have hL := key_below_some Key.long (fun _ _ => by simp [Key.below]) hInt
  have hLo := key_below_map Key.long (fun _ _ => by simp [Key.below]) hInt
  have hD := key_below_some Key.double (fun _ _ => by simp [Key.below, Double.lt_iff])
    Double.lt_asymm_rel
  have hDo := key_below_map Key.double (fun _ _ => by simp [Key.below, Double.lt_iff])
    Double.lt_asymm_rel
  have hP := key_below_some Key.position (fun _ _ => by simp [Key.below]) hNat
  rcases c with ⟨ty, nv, nm, fl, tb, ci, ri, sp, nl⟩
  cases ty <;> cases nl <;> cases desc <;>
    simp [Column.StableSort, Column.StableSortT, Column.StableSortNumeric, PERFETTO_DCHECK,
      Column.IsNullable, ColumnTypeHelper.ToColumnType, is_arithmetic, hrm, RowMap.StableSort] at h ⊢ <;>
    congr 1 <;> funext a b <;>
    simp only [Column.sort_comp, Column.row_key, Column.key, Column.long_at, Column.double_at,
      Column.IsNullable, Column.position, if_true, if_false, Bool.false_eq_true] <;>
    simp only [gt_iff_lt, hL, hLo, hD, hDo, hP, key_below_string, Option.map_some']

theorem key_below_negtrans_map {V : Type} [LinearOrder V] (K : V → Key)
    (hK : ∀ a b, (K a).below (K b) = decide (a < b)) (x y z : Option V)
    (hyx : key_below (y.map K) (x.map K) = false) (hzy : key_below (z.map K) (y.map K) = false) :
    key_below (z.map K) (x.map K) = false := by
  cases x <;> cases y <;> cases z <;> simp_all [key_below]
  exact le_trans hyx hzy

theorem Double.lt_negtrans (x y z : Double) (hx : x ≠ Double.nan) (hy : y ≠ Double.nan)
    (hz : z ≠ Double.nan) (hyx : Double.lt y x = false) (hzy : Double.lt z y = false) :
    Double.lt z x = false := by
  cases x <;> cases y <;> cases z <;> simp_all [Double.lt]
  exact le_trans hyx hzy

theorem key_below_negtrans_double (x y z : Option Double) (hx : x ≠ some Double.nan)
    (hy : y ≠ some Double.nan) (hz : z ≠ some Double.nan)
    (hyx : key_below (y.map Key.double) (x.map Key.double) = false)
    (hzy : key_below (z.map Key.double) (y.map Key.double) = false) :
    key_below (z.map Key.double) (x.map Key.double) = false := by
  cases x <;> cases y <;> cases z <;> simp_all [key_below, Key.below]
  exact Double.lt_negtrans _ _ _ hx hy hz hyx hzy

/-- Among rows whose key is not NaN, "not below" is transitive. -/
theorem Column.key_below_negtrans (c : Column) (x y z : Nat)
    (hx : c.row_key x ≠ some (Key.double Double.nan))
    (hy : c.row_key y ≠ some (Key.double Double.nan))
    (hz : c.row_key z ≠ some (Key.double Double.nan))
    (hyx : key_below (c.row_key y) (c.row_key x) = false)
    (hzy : key_below (c.row_key z) (c.row_key y) = false) :
    key_below (c.row_key z) (c.row_key x) = false := by
  unfold Column.row_key Column.key at *
  cases hty : c.type_ <;> simp only [hty] at hx hy hz hyx hzy ⊢
  · exact key_below_negtrans_map Key.long (fun _ _ => by simp [Key.below]) _ _ _ hyx hzy
  · exact key_below_negtrans_map Key.long (fun _ _ => by simp [Key.below]) _ _ _ hyx hzy
  · exact key_below_negtrans_map Key.long (fun _ _ => by simp [Key.below]) _ _ _ hyx hzy
  · refine key_below_negtrans_double _ _ _ ?_ ?_ ?_ hyx hzy
    · intro hn; rw [hn] at hx; simp at hx
    · intro hn; rw [hn] at hy; simp at hy
    · intro hn; rw [hn] at hz; simp at hz
  · exact key_below_negtrans_map Key.string (fun _ _ => by simp [Key.below]) _ _ _ hyx hzy
  · simp_all [key_below, Key.below]
    exact le_trans hyx hzy
  · simp [key_below]

theorem Column.sort_comp_negtrans (c : Column) (desc : Bool) (x y z : Nat)
    (hx : c.row_key x ≠ some (Key.double Double.nan))
    (hy : c.row_key y ≠ some (Key.double Double.nan))
    (hz : c.row_key z ≠ some (Key.double Double.nan))
    (hyx : c.sort_comp desc y x = false) (hzy : c.sort_comp desc z y = false) :
    c.sort_comp desc z x = false := by
  unfold Column.sort_comp at *
  cases desc
  · simpa using c.key_below_negtrans x y z hx hy hz (by simpa using hyx) (by simpa using hzy)
  · simpa using c.key_below_negtrans z y x hz hy hx (by simpa using hzy) (by simpa using hyx)

theorem Double.lt_trans (a b c : Double) (hab : Double.lt a b = true)
    (hbc : Double.lt b c = true) : Double.lt a c = true := by
  cases a <;> cases b <;> cases c <;> simp_all [Double.lt]
  exact hab.trans hbc

theorem Key.below_trans (a b c : Key) (hab : a.below b = true) (hbc : b.below c = true) :
    a.below c = true := by
  cases a <;> cases b <;> cases c <;> simp_all [Key.below]
  · exact lt_trans hab hbc
  · exact Double.lt_trans _ _ _ hab hbc
  · exact lt_trans hab hbc
  · exact lt_trans hab hbc

theorem key_below_trans (a b c : Option Key) (hab : key_below a b = true)
    (hbc : key_below b c = true) : key_below a c = true := by
  cases a <;> cases b <;> cases c <;> simp_all [key_below]
  exact Key.below_trans _ _ _ hab hbc

theorem Column.sort_comp_trans (c : Column) (desc : Bool) (x y z : Nat)
    (hxy : c.sort_comp desc x y = true) (hyz : c.sort_comp desc y z = true) :
    c.sort_comp desc x z = true := by
  unfold Column.sort_comp at *
  cases desc
  · simpa using key_below_trans _ _ _ (by simpa using hxy) (by simpa using hyz)
  · simpa using key_below_trans _ _ _ (by simpa using hyz) (by simpa using hxy)

theorem Column.in_order_iff (c : Column) (desc : Bool) (a b : Nat) :
    c.in_order desc a b ↔ c.sort_comp desc b a = false := by
  unfold Column.in_order Column.sort_comp
  cases desc <;> simp

/-- When no key of the sequence is a NaN the comparator is a strict weak order on its rows, and
`StableSort` returns the stable sort of the sequence by the keys. -/
theorem Column.StableSort_nan_free (dcheck_is_on : Bool) (c : Column) (desc : Bool)
    (s : List Nat) (h : c.type_ ≠ ColumnType.kDummy) (hnan : c.nan_free s) :
    c.StableSort dcheck_is_on desc s = some (stable_sort (c.sort_comp desc) s) := by
  rw [c.StableSort_eq dcheck_is_on desc s h]
  exact congrArg some (std_stable_sort_eq (c.sort_comp desc)
    (fun r => c.row_key r ≠ some (Key.double Double.nan)) (c.sort_comp_asymm desc)
    (c.sort_comp_trans desc) (fun x y z hx hy hz => c.sort_comp_negtrans desc x y z hx hy hz)
    s hnan)

theorem Column.nan_free_of_perm (c : Column) (s out : List Nat) (hp : out.Perm s)
    (hnan : c.nan_free s) : c.nan_free out :=
  fun r hr => hnan r (hp.mem_iff.1 hr)

/-! ### Normal forms of the filter paths -/

theorem FilterIntoNumericWithComparatorSlow_eq {T : Type} (dcheck_is_on : Bool) (c : Column)
    (nv : NullableVector T) (is_nullable : Bool) (op : FilterOp) (rm : List Nat) (cmp : T → Int)
    (h : c.type_ ≠ ColumnType.kDummy) (hop : op.is_ordering = true) :
    c.FilterIntoNumericWithComparatorSlow dcheck_is_on nv is_nullable op rm cmp =
      some (rm.filter (fun r =>
        if is_nullable then present_and (nv.Get (c.position r)) (fun v => op.accepts (cmp v))
        else op.accepts (cmp (nv.GetNonNull (c.position r))))) := by
  have hrm := Column.row_map_eq dcheck_is_on c h
  cases op <;>
    simp [Column.FilterIntoNumericWithComparatorSlow, hrm, RowMap.FilterInto, FilterOp.accepts,
      Column.position, FilterOp.is_ordering, present_and] at hop ⊢

theorem FilterIntoStringSlow_eq (dcheck_is_on : Bool) (c : Column) (op : FilterOp)
    (str_value : Bytes) (rm : List Nat) (h : c.type_ = ColumnType.kString)
    (hop : op.is_ordering = true) :
    c.FilterIntoStringSlow dcheck_is_on op (SqlValue.String str_value) rm =
      some (rm.filter (fun r =>
        present_and (c.GetStringPoolStringAtIdx (c.position r))
          (fun v => op.accepts (compare.String v str_value)))) := by
  have hrm := Column.row_map_eq dcheck_is_on c (by simp [h])
  cases op <;>
    simp [Column.FilterIntoStringSlow, hrm, RowMap.FilterInto, FilterOp.accepts, h,
      PERFETTO_DCHECK, Column.position, FilterOp.is_ordering] at hop ⊢ <;>
    congr 1 <;> funext r <;> cases c.GetStringPoolStringAtIdx (c.rows.Get r) <;>
    simp [present_and]

theorem FilterIntoIdSlow_eq (dcheck_is_on : Bool) (c : Column) (op : FilterOp)
    (long_value : Int) (rm : List Nat) (h : c.type_ = ColumnType.kId)
    (hop : op.is_ordering = true) :
    c.FilterIntoIdSlow dcheck_is_on op (SqlValue.Long long_value) rm =
      some (rm.filter (fun r =>
        op.accepts (compare.Numeric (c.position r) (static_cast_uint32 long_value)))) := by
  have hrm := Column.row_map_eq dcheck_is_on c (by simp [h])
  cases op <;>
    simp [Column.FilterIntoIdSlow, hrm, RowMap.FilterInto, FilterOp.accepts, h,
      PERFETTO_DCHECK, Column.position, FilterOp.is_ordering] at hop ⊢

/-- On a linear order the sign of `compare::Numeric` decides every ordering operator. -/
theorem accepts_Numeric {T : Type} [LinearOrder T] (op : FilterOp) (v k : T) :
    op.accepts (compare.Numeric v k) = op.holds v k := by
  unfold compare.Numeric
  rcases lt_trichotomy v k with hlt | heq | hgt
  · cases op <;> simp [FilterOp.accepts, FilterOp.holds, hlt, hlt.le, hlt.ne, not_lt.2 hlt.le]
  · subst heq
    cases op <;> simp [FilterOp.accepts, FilterOp.holds]
  · cases op <;>
      simp [FilterOp.accepts, FilterOp.holds, hgt, hgt.le, hgt.ne', not_lt.2 hgt.le,
        not_le.2 hgt]

/-! ### Filtering claims -/

/-- C1: on an Int32, UInt32 or Int64 column, nullable or not, an ordering operator with an
integer scalar `k` leaves exactly the rows of the input whose stored value `v` is present and
has `v op k` over the integers, in input order. -/
theorem C1_filter_integer_exact (dcheck_is_on : Bool) (c : Column) (op : FilterOp) (k : Int)
    (rm : List Nat)
    (hT : c.type_ = ColumnType.kInt32 ∨ c.type_ = ColumnType.kUint32 ∨
      c.type_ = ColumnType.kInt64)
    (hop : op.is_ordering = true) :
    c.FilterIntoSlow dcheck_is_on op (SqlValue.Long k) rm =
      some (rm.filter (fun r =>
        present_and (c.long_at (c.position r)) (fun v => op.holds v k))) := by
  have hd : c.type_ ≠ ColumnType.kDummy := by rcases hT with h | h | h <;> simp [h]
  have hne : op ≠ FilterOp.kIsNull ∧ op ≠ FilterOp.kIsNotNull := by
    cases op <;> simp [FilterOp.is_ordering] at hop ⊢
  rcases hT with h | h | h <;> cases hn : c.nullable <;>
    simp [Column.FilterIntoSlow, Column.FilterIntoNumericSlow, h, hn, Column.IsNullable,
      PERFETTO_DCHECK, ColumnTypeHelper.ToColumnType, is_arithmetic, hne,
      FilterIntoNumericWithComparatorSlow_eq dcheck_is_on c _ _ op rm _ hd hop,
      accepts_Numeric, Column.long_at, present_and]

/-- C1 at scenario A: the nullable Int32 values 5, null, 3, 5 filtered with `Equal 5` over the
rows 0, 1, 2, 3 give the rows 0 and 3. -/
theorem C1_scenario_a :
    (scenario_a.FilterIntoSlow true FilterOp.kEq (SqlValue.Long 5) [0, 1, 2, 3] = some [0, 3]) ∧
      scenario_a.FilterIntoSlow true FilterOp.kEq (SqlValue.Long 5) [0, 1, 2, 3] =
        some ([0, 1, 2, 3].filter (fun r =>
          present_and (scenario_a.long_at (scenario_a.position r))
            (fun v => FilterOp.kEq.holds v 5))) :=
  ⟨by decide, C1_filter_integer_exact true scenario_a FilterOp.kEq 5 [0, 1, 2, 3]
    (Or.inl rfl) rfl⟩

theorem present_and_isSome {T : Type} (o : Option T) (p : T → Bool)
    (h : present_and o p = true) : o.isSome = true := by
  cases o <;> simp_all [present_and]

/-- C2: on a nullable numeric column and on a String column, for every ordering operator and
every scalar, `FilterIntoSlow` returns and no row whose value is absent is in what it returns;
`NotEqual` is one of these operators. -/
theorem C2_absent_rows_never_pass (dcheck_is_on : Bool) (c : Column) (op : FilterOp)
    (value : SqlValue) (rm : List Nat)
    (hcol : (c.is_numeric = true ∧ c.IsNullable = true) ∨ c.type_ = ColumnType.kString)
    (hop : op.is_ordering = true) :
    ∃ out, c.FilterIntoSlow dcheck_is_on op value rm = some out ∧
      ∀ r ∈ out, c.absent r = false := by
  have hne : op ≠ FilterOp.kIsNull ∧ op ≠ FilterOp.kIsNotNull := by
    cases op <;> simp [FilterOp.is_ordering] at hop ⊢
  rcases hcol with ⟨hnum, hnl⟩ | hstr
  · have hd : c.type_ ≠ ColumnType.kDummy := by
      intro hd; simp [Column.is_numeric, hd] at hnum
    have hnl' : c.nullable = true := hnl
    cases hty : c.type_ <;> simp [Column.is_numeric, hty] at hnum <;> cases value <;>
      simp [Column.FilterIntoSlow, Column.FilterIntoNumericSlow, hty, hnl', Column.IsNullable,
        PERFETTO_DCHECK, ColumnTypeHelper.ToColumnType, is_arithmetic, hne,
        FilterIntoNumericWithComparatorSlow_eq dcheck_is_on c _ _ op rm _ hd hop,
        Column.absent, Column.row_key, Column.key, Column.long_at, Column.double_at] <;>
      intro r _ hr <;> have := present_and_isSome _ _ hr <;>
      simp_all [Option.isSome_iff_exists, Option.ne_none_iff_exists]
  · have hdisp : c.FilterIntoSlow dcheck_is_on op value rm =
        c.FilterIntoStringSlow dcheck_is_on op value rm := by
      simp [Column.FilterIntoSlow, hstr]
    rw [hdisp]
    cases value
    case String str_value =>
      rw [FilterIntoStringSlow_eq dcheck_is_on c op str_value rm hstr hop]
      refine ⟨_, rfl, ?_⟩
      intro r hr
      have := present_and_isSome _ _ (List.mem_filter.1 hr).2
      simpa [Column.absent, Column.row_key, Column.key, hstr] using this
    all_goals simp [Column.FilterIntoStringSlow, hstr, PERFETTO_DCHECK, hne]

/-- C2 on a String column holding "a", an absent string and the empty string: `NotEqual "b"`
keeps the rows 0 and 2 and drops the absent row 1. -/
theorem C2_not_equal_drops_absent :
    (string_column.FilterIntoSlow true FilterOp.kNe (SqlValue.String [98]) [0, 1, 2] =
        some [0, 2] ∧ string_column.absent 1 = true) ∧
      ∃ out, string_column.FilterIntoSlow true FilterOp.kNe (SqlValue.String [98]) [0, 1, 2] =
        some out ∧ ∀ r ∈ out, string_column.absent r = false :=
  ⟨by decide, C2_absent_rows_never_pass true string_column FilterOp.kNe (SqlValue.String [98])
    [0, 1, 2] (Or.inr rfl) rfl⟩

/-- C3: on a non-nullable Int32, UInt32, Int64 or Double column and for every input row set,
`IsNotNull` with the null scalar returns the row set unchanged and `IsNull` with the null scalar
returns the empty row set. -/
theorem C3_null_tests_on_non_nullable (dcheck_is_on : Bool) (c : Column) (rm : List Nat)
    (hnum : c.is_numeric = true) (hnn : c.IsNullable = false) :
    c.FilterIntoSlow dcheck_is_on FilterOp.kIsNotNull SqlValue.Null rm = some rm ∧
      c.FilterIntoSlow dcheck_is_on FilterOp.kIsNull SqlValue.Null rm = some [] := by
  have hnl : c.nullable = false := hnn
  cases hty : c.type_ <;> simp [Column.is_numeric, hty] at hnum <;>
    simp [Column.FilterIntoSlow, Column.FilterIntoNumericSlow, hty, hnl, Column.IsNullable,
      PERFETTO_DCHECK, ColumnTypeHelper.ToColumnType, is_arithmetic, SqlValue.is_null]

/-- C3 at scenario E: on the non-nullable Int64 value 7, `IsNull` gives the empty set and
`IsNotNull` gives the row 0. -/
theorem C3_scenario_e :
    scenario_e.FilterIntoSlow true FilterOp.kIsNotNull SqlValue.Null [0] = some [0] ∧
      scenario_e.FilterIntoSlow true FilterOp.kIsNull SqlValue.Null [0] = some [] :=
  C3_null_tests_on_non_nullable true scenario_e [0] rfl rfl

/-- C4: for every ordering operator and every input row set, `FilterIntoSlow` returns the empty
row set, and does not fail, when the kind of the scalar does not fit the column: a scalar that
is neither an integer nor a double (a string) on an Int32, UInt32, Int64 or Double column, a
scalar that is no string on a String column, a scalar that is no integer (a double or a string)
on a RowId column. -/
theorem C4_kind_mismatch_gives_empty (dcheck_is_on : Bool) (c : Column) (op : FilterOp)
    (value : SqlValue) (rm : List Nat) (hop : op.is_ordering = true)
    (hmis : (c.is_numeric = true ∧ value.type ≠ SqlValue.Type.kLong ∧
        value.type ≠ SqlValue.Type.kDouble) ∨
      (c.type_ = ColumnType.kString ∧ value.type ≠ SqlValue.Type.kString) ∨
      (c.type_ = ColumnType.kId ∧ value.type ≠ SqlValue.Type.kLong)) :
    c.FilterIntoSlow dcheck_is_on op value rm = some [] := by
  have hne : op ≠ FilterOp.kIsNull ∧ op ≠ FilterOp.kIsNotNull := by
    cases op <;> simp [FilterOp.is_ordering] at hop ⊢
  rcases hmis with ⟨hnum, hl, hd⟩ | ⟨hty, hs⟩ | ⟨hty, hl⟩
  · cases hty : c.type_ <;> simp [Column.is_numeric, hty] at hnum <;>
      cases value <;> simp [SqlValue.type] at hl hd <;> cases hn : c.nullable <;>
      simp [Column.FilterIntoSlow, Column.FilterIntoNumericSlow, hty, hn, Column.IsNullable,
        PERFETTO_DCHECK, ColumnTypeHelper.ToColumnType, is_arithmetic, hne]
  · cases value <;> simp [SqlValue.type] at hs <;>
      simp [Column.FilterIntoSlow, Column.FilterIntoStringSlow, hty, PERFETTO_DCHECK, hne]
  · cases value <;> simp [SqlValue.type] at hl <;>
      simp [Column.FilterIntoSlow, Column.FilterIntoIdSlow, hty, PERFETTO_DCHECK, hne]

/-- C4 on three columns: a string scalar on an Int64 column, an integer scalar on a String
column and a double scalar on a RowId column all give the empty row set. -/
theorem C4_mismatch_examples :
    scenario_e.FilterIntoSlow true FilterOp.kNe (SqlValue.String [55]) [0] = some [] ∧
      string_column.FilterIntoSlow true FilterOp.kGe (SqlValue.Long 0) [0, 1, 2] = some [] ∧
      id_column.FilterIntoSlow true FilterOp.kLe (SqlValue.Double (Double.finite 3)) [0, 1] =
        some [] :=
  ⟨C4_kind_mismatch_gives_empty true scenario_e FilterOp.kNe (SqlValue.String [55]) [0] rfl
      (Or.inl ⟨rfl, by decide, by decide⟩),
    C4_kind_mismatch_gives_empty true string_column FilterOp.kGe (SqlValue.Long 0) [0, 1, 2] rfl
      (Or.inr (Or.inl ⟨rfl, by decide⟩)),
    C4_kind_mismatch_gives_empty true id_column FilterOp.kLe (SqlValue.Double (Double.finite 3))
      [0, 1] rfl (Or.inr (Or.inr ⟨rfl, by decide⟩))⟩

/-- C5, at a scalar outside the range of `uint32_t`: on a RowId column over the rows 0, 1, 2, 3
the filter `LessThan -1` keeps all four rows, although no position is below -1; the scalar has
been narrowed to `2 ^ 32 - 1` before the comparison. -/
theorem C5_negative_scalar_is_narrowed :
    id_column.FilterIntoSlow true FilterOp.kLt (SqlValue.Long (-1)) [0, 1, 2, 3] =
        some [0, 1, 2, 3] ∧
      [0, 1, 2, 3].filter (fun r => FilterOp.kLt.holds (id_column.position r : Int) (-1)) = [] ∧
      static_cast_uint32 (-1) = 4294967295 := by
  decide

/-- With a scalar in the range of `uint32_t` the RowId filter compares the positions with the
scalar itself. -/
theorem FilterIntoIdSlow_in_range (dcheck_is_on : Bool) (c : Column) (op : FilterOp) (k : Int)
    (rm : List Nat) (h : c.type_ = ColumnType.kId) (hop : op.is_ordering = true)
    (hk : 0 ≤ k ∧ k < 4294967296) :
    c.FilterIntoSlow dcheck_is_on op (SqlValue.Long k) rm =
      some (rm.filter (fun r => op.holds (c.position r : Int) k)) := by
  have hdisp : c.FilterIntoSlow dcheck_is_on op (SqlValue.Long k) rm =
      c.FilterIntoIdSlow dcheck_is_on op (SqlValue.Long k) rm := by
    simp [Column.FilterIntoSlow, h]
  rw [hdisp, FilterIntoIdSlow_eq dcheck_is_on c op k rm h hop]
  have hcast : static_cast_uint32 k = k.toNat := by
    unfold static_cast_uint32
    rw [Int.emod_eq_of_lt hk.1 hk.2]
  have hk' : ((k.toNat : Nat) : Int) = k := Int.toNat_of_nonneg hk.1
  have hfun : (fun r => op.accepts (compare.Numeric (c.position r) (static_cast_uint32 k))) =
      (fun r => op.holds (c.position r : Int) k) := by
    funext r
    rw [hcast, accepts_Numeric]
    cases op <;> simp [FilterOp.holds] <;> omega
  rw [hfun]

/-- The negated integer-vs-double comparator decides every ordering operator between the exact
value of a finite double and the integer. -/
theorem accepts_neg_LongToDouble (op : FilterOp) (k : Int) (q : ℚ) :
    op.accepts (-compare.LongToDouble k (Double.finite q)) = op.holds q (k : ℚ) := by
  unfold compare.LongToDouble
  rcases lt_trichotomy q (k : ℚ) with hlt | heq | hgt
  · cases op <;> simp [FilterOp.accepts, FilterOp.holds, hlt, hlt.le, hlt.ne, not_lt.2 hlt.le]
  · subst heq
    cases op <;> simp [FilterOp.accepts, FilterOp.holds]
  · cases op <;>
      simp [FilterOp.accepts, FilterOp.holds, hgt, hgt.le, hgt.ne', not_lt.2 hgt.le,
        not_le.2 hgt]

/-- C6: on a Double column, for every ordering operator and every integer scalar `k`, the
filter keeps the rows passing the negated sign of `LongToDouble(k, d)`, and so a row holding a
present finite double `d` is kept exactly when `d op k` holds between the exact values. -/
theorem C6_double_column_integer_scalar (dcheck_is_on : Bool) (c : Column) (op : FilterOp)
    (k : Int) (rm : List Nat) (hty : c.type_ = ColumnType.kDouble)
    (hop : op.is_ordering = true) :
    ∃ out, c.FilterIntoSlow dcheck_is_on op (SqlValue.Long k) rm = some out ∧
      out = rm.filter (fun r => present_and (c.double_at (c.position r))
        (fun d => op.accepts (-compare.LongToDouble k d))) ∧
      ∀ r q, c.double_at (c.position r) = some (Double.finite q) →
        (r ∈ out ↔ r ∈ rm ∧ op.holds q (k : ℚ) = true) := by
  have hd : c.type_ ≠ ColumnType.kDummy := by simp [hty]
  have hne : op ≠ FilterOp.kIsNull ∧ op ≠ FilterOp.kIsNotNull := by
    cases op <;> simp [FilterOp.is_ordering] at hop ⊢
  have hF : c.FilterIntoSlow dcheck_is_on op (SqlValue.Long k) rm =
      some (rm.filter (fun r => present_and (c.double_at (c.position r))
        (fun d => op.accepts (-compare.LongToDouble k d)))) := by
    cases hn : c.nullable <;>
      simp [Column.FilterIntoSlow, Column.FilterIntoNumericSlow, hty, hn, Column.IsNullable,
        PERFETTO_DCHECK, ColumnTypeHelper.ToColumnType, is_arithmetic, hne,
        FilterIntoNumericWithComparatorSlow_eq dcheck_is_on c _ _ op rm _ hd hop,
        Column.double_at, present_and]
  refine ⟨_, hF, rfl, ?_⟩
  intro r q hq
  simp [List.mem_filter, hq, present_and, accepts_neg_LongToDouble]

/-- C6 at scenario B: the doubles 1.0 and 2.0 filtered with `LessThan` and the integer 2 give
the row 0. -/
theorem C6_scenario_b :
    scenario_b.FilterIntoSlow true FilterOp.kLt (SqlValue.Long 2) [0, 1] = some [0] ∧
      ∃ out, scenario_b.FilterIntoSlow true FilterOp.kLt (SqlValue.Long 2) [0, 1] = some out ∧
        out = [0, 1].filter (fun r => present_and (scenario_b.double_at (scenario_b.position r))
          (fun d => FilterOp.kLt.accepts (-compare.LongToDouble 2 d))) ∧
        ∀ r q, scenario_b.double_at (scenario_b.position r) = some (Double.finite q) →
          (r ∈ out ↔ r ∈ [0, 1] ∧ FilterOp.kLt.holds q ((2 : Int) : ℚ) = true) :=
  ⟨by decide, C6_double_column_integer_scalar true scenario_b FilterOp.kLt 2 [0, 1] rfl rfl⟩

/-- On a column that is not a Dummy column, `FilterIntoSlow` either keeps the rows of the input
that pass some test, or aborts; it aborts only in a build with `PERFETTO_DCHECK` switched on,
when `IsNull` or `IsNotNull` comes with a scalar that is not null. -/
theorem FilterIntoSlow_shape (dcheck_is_on : Bool) (c : Column) (op : FilterOp)
    (value : SqlValue) (rm : List Nat) (h : c.type_ ≠ ColumnType.kDummy) :
    (∃ p : Nat → Bool, c.FilterIntoSlow dcheck_is_on op value rm = some (rm.filter p)) ∨
      (c.FilterIntoSlow dcheck_is_on op value rm = none ∧ dcheck_is_on = true ∧
        op.is_ordering = false ∧ value.is_null = false) := by
  have hrm := Column.row_map_eq dcheck_is_on c h
  cases hop : op.is_ordering
  · -- `IsNull` and `IsNotNull`
    have hcases : op = FilterOp.kIsNull ∨ op = FilterOp.kIsNotNull := by
      cases op <;> simp [FilterOp.is_ordering] at hop ⊢
    cases dcheck_is_on <;> cases hv : value.is_null <;> cases hn : c.nullable <;>
      cases hty : c.type_ <;> rcases hcases with rfl | rfl <;>
      simp [Column.FilterIntoSlow, Column.FilterIntoNumericSlow, Column.FilterIntoStringSlow,
        Column.FilterIntoIdSlow, hty, hn, hv, Column.IsNullable, PERFETTO_DCHECK,
        ColumnTypeHelper.ToColumnType, is_arithmetic, hrm, RowMap.FilterInto] at h ⊢ <;>
      first
      | exact ⟨_, rfl⟩
      | exact ⟨fun _ => false, fun _ _ => rfl⟩
      | exact ⟨fun _ => true, (List.filter_eq_self.2 (fun _ _ => rfl)).symm⟩
  · -- the ordering operators
    have hne : op ≠ FilterOp.kIsNull ∧ op ≠ FilterOp.kIsNotNull := by
      cases op <;> simp [FilterOp.is_ordering] at hop ⊢
    left
    cases hty : c.type_ <;> cases value <;> cases hn : c.nullable <;>
      simp [Column.FilterIntoSlow, Column.FilterIntoNumericSlow, hty, hn, Column.IsNullable,
        PERFETTO_DCHECK, ColumnTypeHelper.ToColumnType, is_arithmetic, hne,
        FilterIntoNumericWithComparatorSlow_eq dcheck_is_on c _ _ op rm _ h hop] at h ⊢ <;>
      first
      | exact ⟨_, rfl⟩
      | exact ⟨fun _ => false, fun _ _ => rfl⟩
      | skip
    all_goals first
      | (rw [FilterIntoStringSlow_eq dcheck_is_on c op _ rm hty hop]; exact ⟨_, rfl⟩)
      | (rw [FilterIntoIdSlow_eq dcheck_is_on c op _ rm hty hop]; exact ⟨_, rfl⟩)
      | (refine ⟨fun _ => false, ?_⟩
         simp [Column.FilterIntoStringSlow, Column.FilterIntoIdSlow, hty, PERFETTO_DCHECK, hne])

/-- In a build with `PERFETTO_DCHECK` switched on, `IsNull` and `IsNotNull` abort on a scalar
that is not null. -/
theorem FilterIntoSlow_aborts (c : Column) (op : FilterOp) (value : SqlValue) (rm : List Nat)
    (hop : op.is_ordering = false) (hv : value.is_null = false) :
    c.FilterIntoSlow true op value rm = none := by
  have hcases : op = FilterOp.kIsNull ∨ op = FilterOp.kIsNotNull := by
    cases op <;> simp [FilterOp.is_ordering] at hop ⊢
  cases hn : c.nullable <;> cases hty : c.type_ <;> rcases hcases with rfl | rfl <;>
    simp [Column.FilterIntoSlow, Column.FilterIntoNumericSlow, Column.FilterIntoStringSlow,
      Column.FilterIntoIdSlow, hty, hn, hv, Column.IsNullable, PERFETTO_DCHECK,
      ColumnTypeHelper.ToColumnType, is_arithmetic, PERFETTO_FATAL]

/-- C7: on a column that is not a Dummy column, for every operator, scalar and input row set,
whatever `FilterIntoSlow` returns is a subsequence of the input (rows of the input, none added
or repeated, in input order); and it does return, except in a build with `PERFETTO_DCHECK`
switched on when `IsNull` or `IsNotNull` is called with a scalar that is not null. -/
theorem C7_filter_result_is_subsequence (dcheck_is_on : Bool) (c : Column) (op : FilterOp)
    (value : SqlValue) (rm : List Nat) (h : c.type_ ≠ ColumnType.kDummy) :
    (∀ out, c.FilterIntoSlow dcheck_is_on op value rm = some out → out.Sublist rm) ∧
      (c.FilterIntoSlow dcheck_is_on op value rm = none ↔
        dcheck_is_on = true ∧ op.is_ordering = false ∧ value.is_null = false) := by
  rcases FilterIntoSlow_shape dcheck_is_on c op value rm h with ⟨p, hp⟩ | ⟨hnone, hbuild⟩
  · refine ⟨?_, ?_⟩
    · intro out hout
      rw [hp] at hout
      cases hout
      exact List.filter_sublist rm
    · refine ⟨fun hnone => ?_, fun hbuild => ?_⟩
      · rw [hp] at hnone
        cases hnone
      · rcases hbuild with ⟨rfl, hop, hv⟩
        rw [FilterIntoSlow_aborts c op value rm hop hv] at hp
        cases hp
  · refine ⟨?_, ?_⟩
    · intro out hout
      rw [hnone] at hout
      cases hout
    · exact ⟨fun _ => hbuild, fun _ => hnone⟩

/-- C7 on the values 5, null, 3, 5 read through a row map that reverses the rows: `GreaterThan 3`
over the rows 3, 0, 2 keeps 3 and 0, in that order. -/
theorem C7_reversed_rows :
    reversed_column.FilterIntoSlow true FilterOp.kGt (SqlValue.Long 3) [3, 0, 2] = some [3, 0] ∧
      ((∀ out, reversed_column.FilterIntoSlow true FilterOp.kGt (SqlValue.Long 3) [3, 0, 2] =
          some out → out.Sublist [3, 0, 2]) ∧
        (reversed_column.FilterIntoSlow true FilterOp.kGt (SqlValue.Long 3) [3, 0, 2] = none ↔
          true = true ∧ FilterOp.kGt.is_ordering = false ∧
            (SqlValue.Long 3).is_null = false)) :=
  ⟨by decide, C7_filter_result_is_subsequence true reversed_column FilterOp.kGt (SqlValue.Long 3)
    [3, 0, 2] (by decide)⟩

/-! ### Sorting claims -/

/-- C8: on every column that is not a Dummy column, `StableSort` returns, and what it returns is
a permutation of the input in which every row may stand before its successor in the sort
direction (keys non-decreasing when ascending, non-increasing when descending, an absent value
below every present one); when no key is a NaN the same holds of every pair of rows, not only of
neighbours. -/
theorem C8_stable_sort_sorted_permutation (dcheck_is_on : Bool) (c : Column) (desc : Bool)
    (s : List Nat) (h : c.type_ ≠ ColumnType.kDummy) :
    ∃ out, c.StableSort dcheck_is_on desc s = some out ∧ out.Perm s ∧
      out.Chain' (c.in_order desc) ∧ (c.nan_free s → out.Pairwise (c.in_order desc)) := by
  refine ⟨_, c.StableSort_eq dcheck_is_on desc s h, std_stable_sort_perm _ _, ?_, ?_⟩
  · exact std_stable_sort_chain (c.sort_comp desc) (c.in_order desc)
      (fun a b hab => (c.in_order_iff desc a b).2 (c.sort_comp_asymm desc a b hab))
      (fun a b hab => (c.in_order_iff desc a b).2 hab) s
  · intro hnan
    rw [std_stable_sort_eq (c.sort_comp desc)
      (fun r => c.row_key r ≠ some (Key.double Double.nan)) (c.sort_comp_asymm desc)
      (c.sort_comp_trans desc) (fun x y z hx hy hz => c.sort_comp_negtrans desc x y z hx hy hz)
      s hnan]
    exact (stable_sort_pairwise (c.sort_comp desc)
      (fun r => c.row_key r ≠ some (Key.double Double.nan)) (c.sort_comp_asymm desc)
      (fun x y z hx hy hz => c.sort_comp_negtrans desc x y z hx hy hz) s hnan).imp
      (fun {a b} hab => (c.in_order_iff desc a b).2 hab)

/-- C8 at scenario C: the strings "b", absent, "a" sorted ascending over the rows 0, 1, 2 give
1, 2, 0. -/
theorem C8_scenario_c :
    scenario_c.StableSort true false [0, 1, 2] = some [1, 2, 0] ∧
      ∃ out, scenario_c.StableSort true false [0, 1, 2] = some out ∧ out.Perm [0, 1, 2] ∧
        out.Chain' (scenario_c.in_order false) ∧
        (scenario_c.nan_free [0, 1, 2] → out.Pairwise (scenario_c.in_order false)) :=
  ⟨by decide, C8_stable_sort_sorted_permutation true scenario_c false [0, 1, 2] (by decide)⟩

/-- Why the order of every pair needs keys without NaN: `compare::Numeric` ties NaN with both
2.0 and 1.0, and the sort leaves the rows 0, 1, 2 holding 2.0, NaN, 1.0 where they are; each
row is in order with its successor, the rows 0 and 2 are not. -/
theorem StableSort_with_nan :
    nan_column.StableSort true false [0, 1, 2] = some [0, 1, 2] ∧
      nan_column.in_order false 0 1 ∧ nan_column.in_order false 1 2 ∧
      ¬ nan_column.in_order false 0 2 := by
  decide

/-- C9, on keys with a NaN: in the non-nullable Double column holding NaN, 3.0, NaN, 2.0, 2.0,
5.0, 5.0, 5.0 the rows 3 and 4 hold the same value 2.0 and stand in this order in the input
0, 1, 2, 3, 4, 5, 6, 7; the ascending sort returns 0, 4, 1, 2, 3, 5, 6, 7, where row 4 stands
before row 3. -/
theorem C9_nan_exchanges_ties :
    nan_ties_column.row_key 3 = some (Key.double (Double.finite 2)) ∧
      nan_ties_column.row_key 4 = some (Key.double (Double.finite 2)) ∧
      nan_ties_column.same_key 3 4 ∧ [3, 4].Sublist [0, 1, 2, 3, 4, 5, 6, 7] ∧
      nan_ties_column.StableSort true false [0, 1, 2, 3, 4, 5, 6, 7] =
        some [0, 4, 1, 2, 3, 5, 6, 7] ∧
      ¬ [3, 4].Sublist [0, 4, 1, 2, 3, 5, 6, 7] := by
  decide

/-- C9, amended: on every column that is not a Dummy column, in both directions and for every
input sequence none of whose keys is a NaN, two rows with equal keys (neither key below the
other, two absent values included) that stand in the order `a`, `b` in the input stand in that
order in the output of `StableSort`; the descending sort is the library sort, and with it the
stable sort, under the ascending comparator with its two arguments exchanged. -/
theorem C9_stable_sort_keeps_ties (dcheck_is_on : Bool) (c : Column) (desc : Bool)
    (s : List Nat) (a b : Nat) (h : c.type_ ≠ ColumnType.kDummy) (hnan : c.nan_free s)
    (hab : [a, b].Sublist s) (heq : c.same_key a b) :
    (∃ out, c.StableSort dcheck_is_on desc s = some out ∧ [a, b].Sublist out) ∧
      c.StableSort dcheck_is_on true s =
        some (std.stable_sort (fun x y => c.sort_comp false y x) s) ∧
      c.StableSort dcheck_is_on true s =
        some (stable_sort (fun x y => c.sort_comp false y x) s) := by
  refine ⟨⟨_, c.StableSort_nan_free dcheck_is_on desc s h hnan, ?_⟩, ?_, ?_⟩
  · refine pair_sublist_stable_sort _ a b s hab ?_
    unfold Column.sort_comp
    cases desc
    · simpa using heq.2
    · simpa using heq.1
  · rw [c.StableSort_eq dcheck_is_on true s h]
    rfl
  · rw [c.StableSort_nan_free dcheck_is_on true s h hnan]
    rfl

/-- C9, amended, on two rows holding the same value: the descending sort keeps them in input
order, while reversing the ascending output would exchange them. -/
theorem C9_tied_rows :
    (tied_column.StableSort true true [0, 1] = some [0, 1] ∧
      (tied_column.StableSort true false [0, 1]).map List.reverse = some [1, 0]) ∧
      tied_column.nan_free [0, 1] ∧
      ((∃ out, tied_column.StableSort true true [0, 1] = some out ∧ [0, 1].Sublist out) ∧
        tied_column.StableSort true true [0, 1] =
          some (std.stable_sort (fun x y => tied_column.sort_comp false y x) [0, 1]) ∧
        tied_column.StableSort true true [0, 1] =
          some (stable_sort (fun x y => tied_column.sort_comp false y x) [0, 1])) :=
  ⟨by decide, by decide, C9_stable_sort_keeps_ties true tied_column true [0, 1] 0 1 (by decide)
    (by decide) (List.Sublist.refl _) (by decide)⟩

/-- C10, on keys with a NaN: in the non-nullable Double column holding 2.0, NaN, 2.0, 1.0, NaN
the ascending sort of the rows 0, 1, 2, 3, 4 returns 0, 1, 3, 2, 4, and the ascending sort of
that sequence returns 3, 0, 1, 2, 4. -/
theorem C10_nan_sorted_twice :
    nan_twice_column.StableSort true false [0, 1, 2, 3, 4] = some [0, 1, 3, 2, 4] ∧
      nan_twice_column.StableSort true false [0, 1, 3, 2, 4] = some [3, 0, 1, 2, 4] := by
  decide

/-- C10, amended: on every column that is not a Dummy column, in both directions and for every
input sequence none of whose keys is a NaN, `StableSort` returns, and applied to its own output
in the same direction it returns that output again. -/
theorem C10_stable_sort_idempotent (dcheck_is_on : Bool) (c : Column) (desc : Bool)
    (s : List Nat) (h : c.type_ ≠ ColumnType.kDummy) (hnan : c.nan_free s) :
    ∃ out, c.StableSort dcheck_is_on desc s = some out ∧
      c.StableSort dcheck_is_on desc out = some out := by
  refine ⟨_, c.StableSort_nan_free dcheck_is_on desc s h hnan, ?_⟩
  rw [c.StableSort_nan_free dcheck_is_on desc _ h
    (c.nan_free_of_perm s _ (stable_sort_perm _ s) hnan)]
  exact congrArg some (stable_sort_idem _ (c.sort_comp_asymm desc) s)

/-- C10, amended, on a nullable Int32 column holding 2, null, 1, null, 2, sorted descending
twice. -/
theorem C10_sorted_twice :
    sorted_twice_column.StableSort true true [0, 1, 2, 3, 4] = some [0, 4, 2, 1, 3] ∧
      sorted_twice_column.nan_free [0, 1, 2, 3, 4] ∧
      ∃ out, sorted_twice_column.StableSort true true [0, 1, 2, 3, 4] = some out ∧
        sorted_twice_column.StableSort true true out = some out :=
  ⟨by decide, by decide, C10_stable_sort_idempotent true sorted_twice_column true
    [0, 1, 2, 3, 4] (by decide) (by decide)⟩

/-! ### Sorting in both directions -/

/-- C11, on keys with a NaN: in the non-nullable Double column holding 2.0, NaN, 1.0, NaN the
ascending sort of the rows 0, 1, 2, 3 returns 2, 0, 1, 3; the descending sort of that sequence
returns 0, 2, 1, 3, and the descending sort of the input returns 0, 1, 2, 3. -/
theorem C11_nan_directions_differ :
    nan_direction_column.StableSort true false [0, 1, 2, 3] = some [2, 0, 1, 3] ∧
      nan_direction_column.StableSort true true [2, 0, 1, 3] = some [0, 2, 1, 3] ∧
      nan_direction_column.StableSort true true [0, 1, 2, 3] = some [0, 1, 2, 3] := by
  decide

/-- C11, amended: on every column that is not a Dummy column and for every input sequence none
of whose keys is a NaN, sorting the sequence ascending and sorting the result descending gives
the sequence that sorting it descending at once gives. -/
theorem C11_descending_after_ascending (dcheck_is_on : Bool) (c : Column) (s : List Nat)
    (h : c.type_ ≠ ColumnType.kDummy) (hnan : c.nan_free s) :
    ∃ asc out, c.StableSort dcheck_is_on false s = some asc ∧
      c.StableSort dcheck_is_on true asc = some out ∧
      c.StableSort dcheck_is_on true s = some out := by
  refine ⟨_, _, c.StableSort_nan_free dcheck_is_on false s h hnan, ?_,
    c.StableSort_nan_free dcheck_is_on true s h hnan⟩
  rw [c.StableSort_nan_free dcheck_is_on true _ h
    (c.nan_free_of_perm s _ (stable_sort_perm _ s) hnan)]
  exact congrArg some (stable_sort_stable_sort _ _ (c.sort_comp_asymm true)
    (c.sort_comp_trans true) (fun a b hab => by simpa [Column.sort_comp] using hab) s)

/-- C11, amended, on a nullable Int32 column holding 2, null, 1, null, 2: ascending gives the
rows 1, 3, 2, 0, 4, and descending gives 0, 4, 2, 1, 3 from there as from the input. -/
theorem C11_both_directions :
    (sorted_twice_column.StableSort true false [0, 1, 2, 3, 4] = some [1, 3, 2, 0, 4] ∧
      sorted_twice_column.StableSort true true [1, 3, 2, 0, 4] = some [0, 4, 2, 1, 3]) ∧
      sorted_twice_column.nan_free [0, 1, 2, 3, 4] ∧
      ∃ asc out, sorted_twice_column.StableSort true false [0, 1, 2, 3, 4] = some asc ∧
        sorted_twice_column.StableSort true true asc = some out ∧
        sorted_twice_column.StableSort true true [0, 1, 2, 3, 4] = some out :=
  ⟨by decide, by decide, C11_descending_after_ascending true sorted_twice_column
    [0, 1, 2, 3, 4] (by decide) (by decide)⟩

/-! ### Where absent values are placed -/

theorem stable_insert_classes (comp : Nat → Nat → Bool) (A : Nat → Bool)
    (hasym : ∀ a b, comp a b = true → comp b a = false)
    (hfirst : ∀ a b, A a = true → A b = false → comp a b = true) (x : Nat) (l : List Nat)
    (hl : l.Pairwise (fun a b => A b = true → A a = true)) :
    (stable_insert comp x l).Pairwise (fun a b => A b = true → A a = true) := by
  induction l with
  | nil => simp [stable_insert]
  | cons y ys ih =>
    rw [List.pairwise_cons] at hl
    unfold stable_insert
    split
    next hyx =>
      rw [List.pairwise_cons]
      refine ⟨?_, ih hl.2⟩
      intro z hz hAz
      rcases (mem_stable_insert comp x z ys).1 hz with rfl | hz
      · cases hAy : A y
        · rw [hasym z y (hfirst z y hAz hAy)] at hyx
          exact absurd hyx (by simp)
        · rfl
      · exact hl.1 z hz hAz
    next hyx =>
      have hyx' : comp y x = false := by simpa using hyx
      rw [List.pairwise_cons]
      refine ⟨?_, List.pairwise_cons.2 hl⟩
      intro z hz hAz
      have hAy : A y = true := by
        rcases List.mem_cons.1 hz with rfl | hz
        · exact hAz
        · exact hl.1 z hz hAz
      cases hAx : A x
      · rw [hfirst y x hAy hAx] at hyx'
        exact absurd hyx' (by simp)
      · rfl

theorem stable_sort_classes (comp : Nat → Nat → Bool) (A : Nat → Bool)
    (hasym : ∀ a b, comp a b = true → comp b a = false)
    (hfirst : ∀ a b, A a = true → A b = false → comp a b = true) (l : List Nat) :
    (stable_sort comp l).Pairwise (fun a b => A b = true → A a = true) := by
  induction l with
  | nil => simp [stable_sort]
  | cons x xs ih =>
    unfold stable_sort
    exact stable_insert_classes comp A hasym hfirst x _ ih

/-- Whatever else the comparator does, the library sort puts the elements of a class that
the comparator puts below all others in front of the others. -/
theorem std_stable_sort_classes (comp : Nat → Nat → Bool) (A : Nat → Bool)
    (hasym : ∀ a b, comp a b = true → comp b a = false)
    (hfirst : ∀ a b, A a = true → A b = false → comp a b = true) (l : List Nat) :
    (std.stable_sort comp l).Pairwise (fun a b => A b = true → A a = true) := by
  have hchain := std_stable_sort_chain comp (fun a b => A b = true → A a = true)
    (fun a b hab hb => by
      cases ha : A a
      · have hba := hfirst b a hb ha
        rw [hasym a b hab] at hba
        exact absurd hba (by simp)
      · rfl)
    (fun a b hba hb => by
      cases ha : A a
      · exact absurd (hfirst b a hb ha) (by simp [hba])
      · rfl) l
  haveI : IsTrans Nat (fun a b => A b = true → A a = true) :=
    ⟨fun _ _ _ hab hbc hc => hab (hbc hc)⟩
  exact List.chain'_iff_pairwise.1 hchain

theorem key_below_of_absent (a b : Option Key) (ha : a.isNone = true) (hb : b.isNone = false) :
    key_below a b = true := by
  cases a <;> cases b <;> simp_all [key_below]

/-- C12, at a descending sort: the strings "b", absent, "a" sorted descending over the rows
0, 1, 2 give 0, 2, 1, where the absent row 1 stands behind the two present rows. -/
theorem C12_descending_puts_absent_last :
    scenario_c.StableSort true true [0, 1, 2] = some [0, 2, 1] ∧
      scenario_c.absent 1 = true ∧ scenario_c.absent 0 = false ∧ scenario_c.absent 2 = false ∧
      ¬ scenario_c.absent_first [0, 2, 1] := by
  decide

/-- C12, amended: on every column that is not a Dummy column, so on every nullable numeric column
and every String column, `StableSort` returns; in an ascending sort every row whose value is
absent stands before every row whose value is present, and in a descending sort every row whose
value is absent stands behind every row whose value is present. -/
theorem C12_absent_first_or_last (dcheck_is_on : Bool) (c : Column) (desc : Bool)
    (s : List Nat) (h : c.type_ ≠ ColumnType.kDummy) :
    ∃ out, c.StableSort dcheck_is_on desc s = some out ∧
      (desc = false → c.absent_first out) ∧ (desc = true → c.absent_last out) := by
  refine ⟨_, c.StableSort_eq dcheck_is_on desc s h, ?_, ?_⟩
  · rintro rfl
    exact std_stable_sort_classes _ (fun r => c.absent r) (c.sort_comp_asymm false)
      (fun a b ha hb => by
        simpa [Column.sort_comp] using key_below_of_absent _ _ ha hb) s
  · rintro rfl
    have := std_stable_sort_classes (c.sort_comp true) (fun r => !c.absent r)
      (c.sort_comp_asymm true)
      (fun a b ha hb => by
        simp only [Bool.not_eq_true', Bool.not_eq_false'] at ha hb
        simpa [Column.sort_comp] using key_below_of_absent _ _ hb ha) s
    unfold Column.absent_last
    refine this.imp ?_
    intro a b hab hb
    simpa using hab (by simpa using hb)

/-- C12, amended, at scenario C: ascending gives 1, 2, 0 with the absent row first, descending
gives 0, 2, 1 with the absent row last. -/
theorem C12_scenario_c :
    (scenario_c.StableSort true false [0, 1, 2] = some [1, 2, 0] ∧
      scenario_c.StableSort true true [0, 1, 2] = some [0, 2, 1]) ∧
      (∃ out, scenario_c.StableSort true false [0, 1, 2] = some out ∧
        (false = false → scenario_c.absent_first out) ∧
        (false = true → scenario_c.absent_last out)) ∧
      ∃ out, scenario_c.StableSort true true [0, 1, 2] = some out ∧
        (true = false → scenario_c.absent_first out) ∧
        (true = true → scenario_c.absent_last out) :=
  ⟨by decide, C12_absent_first_or_last true scenario_c false [0, 1, 2] (by decide),
    C12_absent_first_or_last true scenario_c true [0, 1, 2] (by decide)⟩

/-! ### Dummy columns -/

/-- C13: on a Dummy column `FilterIntoSlow` aborts for every operator, scalar and row set and
`StableSort` aborts for both directions and every sequence, whether or not `PERFETTO_DCHECK` is
compiled in.  On every other column `StableSort` returns, and `FilterIntoSlow` returns unless
the assertion on the scalar of `IsNull` / `IsNotNull` fails, which is an abort of another kind:
the fatal branch of the Dummy column is not the one taken. -/
theorem C13_dummy_column_is_fatal (dcheck_is_on : Bool) (c : Column) (op : FilterOp)
    (value : SqlValue) (rm : List Nat) (desc : Bool) (s : List Nat) :
    (c.type_ = ColumnType.kDummy →
      c.FilterIntoSlow dcheck_is_on op value rm = none ∧
        c.StableSort dcheck_is_on desc s = none) ∧
    (c.type_ ≠ ColumnType.kDummy →
      (c.StableSort dcheck_is_on desc s).isSome = true ∧
        (c.FilterIntoSlow dcheck_is_on op value rm = none →
          dcheck_is_on = true ∧ op.is_ordering = false ∧ value.is_null = false)) := by
  refine ⟨fun h => ?_, fun h => ⟨?_, fun hnone => ?_⟩⟩
  · cases desc <;>
      simp [Column.FilterIntoSlow, Column.StableSort, Column.StableSortT, h, PERFETTO_FATAL]
  · rw [c.StableSort_eq dcheck_is_on desc s h]
    rfl
  · rcases FilterIntoSlow_shape dcheck_is_on c op value rm h with ⟨p, hp⟩ | ⟨_, hbuild⟩
    · rw [hp] at hnone
      cases hnone
    · exact hbuild

/-- C13 on a Dummy column and on the Int64 column of scenario E. -/
theorem C13_dummy_and_int64 :
    (dummy_column.FilterIntoSlow false FilterOp.kEq (SqlValue.Long 7) [0] = none ∧
      dummy_column.StableSort false true [0] = none ∧
      scenario_e.FilterIntoSlow false FilterOp.kEq (SqlValue.Long 7) [0] = some [0] ∧
      scenario_e.StableSort false true [0] = some [0]) ∧
      ((dummy_column.type_ = ColumnType.kDummy →
        dummy_column.FilterIntoSlow false FilterOp.kEq (SqlValue.Long 7) [0] = none ∧
          dummy_column.StableSort false true [0] = none) ∧
      (dummy_column.type_ ≠ ColumnType.kDummy →
        (dummy_column.StableSort false true [0]).isSome = true ∧
          (dummy_column.FilterIntoSlow false FilterOp.kEq (SqlValue.Long 7) [0] = none →
            false = true ∧ FilterOp.kEq.is_ordering = false ∧
              (SqlValue.Long 7).is_null = false))) :=
  ⟨by decide, C13_dummy_column_is_fatal false dummy_column FilterOp.kEq (SqlValue.Long 7) [0]
    true [0]⟩

/-! ### The null tests -/

/-- The null tests keep the rows whose value is absent, or the others; they return when
`PERFETTO_DCHECK` is compiled out or the scalar is null. -/
theorem FilterIntoSlow_null_tests (dcheck_is_on : Bool) (c : Column) (value : SqlValue)
    (rm : List Nat) (h : c.type_ ≠ ColumnType.kDummy)
    (hv : dcheck_is_on = false ∨ value.is_null = true) :
    c.FilterIntoSlow dcheck_is_on FilterOp.kIsNull value rm =
        some (rm.filter (fun r => c.absent r)) ∧
      c.FilterIntoSlow dcheck_is_on FilterOp.kIsNotNull value rm =
        some (rm.filter (fun r => !c.absent r)) := by
  have hrm := Column.row_map_eq dcheck_is_on c h
  have hd : (dcheck_is_on && !value.is_null) = false := by
    rcases hv with rfl | hv <;> simp [*]
  cases hn : c.nullable <;> cases hty : c.type_ <;>
    simp [Column.FilterIntoSlow, Column.FilterIntoNumericSlow, Column.FilterIntoStringSlow,
      Column.FilterIntoIdSlow, hty, hn, hd, Column.IsNullable, PERFETTO_DCHECK,
      ColumnTypeHelper.ToColumnType, is_arithmetic, hrm, RowMap.FilterInto, Column.absent,
      Column.row_key, Column.key, Column.long_at, Column.double_at, Column.has_value,
      Column.position] at h ⊢

theorem String_zero_nil_iff (v : Bytes) : compare.String v [] = 0 ↔ v = [] := by
  unfold compare.String
  cases v with
  | nil => simp
  | cons a l =>
    have h1 : ¬ (a :: l < ([] : List Nat)) := not_lt_of_gt (List.nil_lt_cons a l)
    simp [h1, List.nil_lt_cons a l]

/-- C14: on a String column the null tests read the resolved string and nothing else: `IsNull`
keeps exactly the rows whose string is absent and `IsNotNull` exactly the others, whatever the
column's nullability; `Equal` with the empty string keeps exactly the rows holding the empty
string.  So a row holding the empty string passes `IsNotNull` and `Equal ""` and not `IsNull`,
and a row holding an absent string does not pass `Equal ""`. -/
theorem C14_string_null_tests (dcheck_is_on : Bool) (c : Column) (rm : List Nat)
    (h : c.type_ = ColumnType.kString) :
    ∃ is_null is_not_null eq_empty,
      (∀ b, { c with nullable := b }.FilterIntoSlow dcheck_is_on FilterOp.kIsNull SqlValue.Null rm
        = some is_null) ∧
      (∀ b, { c with nullable := b }.FilterIntoSlow dcheck_is_on FilterOp.kIsNotNull
        SqlValue.Null rm = some is_not_null) ∧
      c.FilterIntoSlow dcheck_is_on FilterOp.kEq (SqlValue.String []) rm = some eq_empty ∧
      is_null = rm.filter (fun r => (c.GetStringPoolStringAtIdx (c.position r)).isNone) ∧
      is_not_null = rm.filter (fun r => (c.GetStringPoolStringAtIdx (c.position r)).isSome) ∧
      eq_empty = rm.filter (fun r => c.GetStringPoolStringAtIdx (c.position r) == some []) ∧
      (∀ r ∈ rm, c.GetStringPoolStringAtIdx (c.position r) = some [] →
        r ∈ is_not_null ∧ r ∈ eq_empty ∧ r ∉ is_null) ∧
      (∀ r ∈ rm, c.GetStringPoolStringAtIdx (c.position r) = none →
        r ∈ is_null ∧ r ∉ eq_empty ∧ r ∉ is_not_null) := by
  have hrm := Column.row_map_eq dcheck_is_on c (by simp [h])
  refine ⟨_, _, _, ?_, ?_, ?_, rfl, rfl, rfl, ?_, ?_⟩
  · intro b
    simp [Column.FilterIntoSlow, Column.FilterIntoStringSlow, h, PERFETTO_DCHECK,
      SqlValue.is_null, Column.row_map, Column.rows, RowMap.FilterInto,
      Column.GetStringPoolStringAtIdx, Column.position]
  · intro b
    simp [Column.FilterIntoSlow, Column.FilterIntoStringSlow, h, PERFETTO_DCHECK,
      SqlValue.is_null, Column.row_map, Column.rows, RowMap.FilterInto,
      Column.GetStringPoolStringAtIdx, Column.position]
  · have hdisp : c.FilterIntoSlow dcheck_is_on FilterOp.kEq (SqlValue.String []) rm =
        c.FilterIntoStringSlow dcheck_is_on FilterOp.kEq (SqlValue.String []) rm := by
      simp [Column.FilterIntoSlow, h]
    rw [hdisp, FilterIntoStringSlow_eq dcheck_is_on c FilterOp.kEq [] rm h rfl]
    congr 2
    funext r
    cases hs : c.GetStringPoolStringAtIdx (c.position r) with
    | none => simp [present_and]
    | some v => cases v <;> simp [present_and, FilterOp.accepts, String_zero_nil_iff]
  · intro r hr hs
    simp [List.mem_filter, hr, hs]
  · intro r hr hs
    simp [List.mem_filter, hr, hs]

/-- C14 on a String column holding "a", an absent string and the empty string. -/
theorem C14_empty_is_not_absent :
    string_column.FilterIntoSlow true FilterOp.kIsNull SqlValue.Null [0, 1, 2] = some [1] ∧
      string_column.FilterIntoSlow true FilterOp.kIsNotNull SqlValue.Null [0, 1, 2] =
        some [0, 2] ∧
      string_column.FilterIntoSlow true FilterOp.kEq (SqlValue.String []) [0, 1, 2] = some [2] ∧
      ∃ is_null is_not_null eq_empty,
        (∀ b, { string_column with nullable := b }.FilterIntoSlow true FilterOp.kIsNull
          SqlValue.Null [0, 1, 2] = some is_null) ∧
        (∀ b, { string_column with nullable := b }.FilterIntoSlow true FilterOp.kIsNotNull
          SqlValue.Null [0, 1, 2] = some is_not_null) ∧
        string_column.FilterIntoSlow true FilterOp.kEq (SqlValue.String []) [0, 1, 2] =
          some eq_empty ∧
        is_null = [0, 1, 2].filter (fun r =>
          (string_column.GetStringPoolStringAtIdx (string_column.position r)).isNone) ∧
        is_not_null = [0, 1, 2].filter (fun r =>
          (string_column.GetStringPoolStringAtIdx (string_column.position r)).isSome) ∧
        eq_empty = [0, 1, 2].filter (fun r =>
          string_column.GetStringPoolStringAtIdx (string_column.position r) == some []) ∧
        (∀ r ∈ [0, 1, 2],
          string_column.GetStringPoolStringAtIdx (string_column.position r) = some [] →
            r ∈ is_not_null ∧ r ∈ eq_empty ∧ r ∉ is_null) ∧
        (∀ r ∈ [0, 1, 2],
          string_column.GetStringPoolStringAtIdx (string_column.position r) = none →
            r ∈ is_null ∧ r ∉ eq_empty ∧ r ∉ is_not_null) :=
  ⟨by decide, by decide, by decide, C14_string_null_tests true string_column [0, 1, 2] rfl⟩

/-- C16, in a build with `PERFETTO_DCHECK` compiled in: on the non-nullable Int64 value 7,
`IsNotNull` returns the row 0 for the null scalar and aborts for the scalar 1, so the outcome is
not the same for every scalar. -/
theorem C16_scalar_is_asserted_null :
    scenario_e.FilterIntoSlow true FilterOp.kIsNotNull SqlValue.Null [0] = some [0] ∧
      scenario_e.FilterIntoSlow true FilterOp.kIsNotNull (SqlValue.Long 1) [0] = none ∧
      scenario_e.FilterIntoSlow true FilterOp.kIsNotNull SqlValue.Null [0] ≠
        scenario_e.FilterIntoSlow true FilterOp.kIsNotNull (SqlValue.Long 1) [0] := by
  decide

/-- C16, amended: on a column that is not a Dummy column, `FilterIntoSlow` with `IsNull` or
`IsNotNull` aborts exactly when `PERFETTO_DCHECK` is compiled in and the scalar is not null;
whenever it returns, for whatever scalar, `IsNull` has kept exactly the rows whose value is
absent and `IsNotNull` exactly the others. -/
theorem C16_null_tests_read_only_absence (dcheck_is_on : Bool) (c : Column) (op : FilterOp)
    (value : SqlValue) (rm : List Nat) (h : c.type_ ≠ ColumnType.kDummy)
    (hop : op = FilterOp.kIsNull ∨ op = FilterOp.kIsNotNull) :
    (c.FilterIntoSlow dcheck_is_on op value rm = none ↔
        dcheck_is_on = true ∧ value.is_null = false) ∧
      ∀ out, c.FilterIntoSlow dcheck_is_on op value rm = some out →
        out = rm.filter (fun r => if op = FilterOp.kIsNull then c.absent r else !c.absent r) := by
  have hord : op.is_ordering = false := by rcases hop with rfl | rfl <;> rfl
  by_cases hv : dcheck_is_on = false ∨ value.is_null = true
  · have hnf := FilterIntoSlow_null_tests dcheck_is_on c value rm h hv
    have hsome : c.FilterIntoSlow dcheck_is_on op value rm =
        some (rm.filter (fun r => if op = FilterOp.kIsNull then c.absent r else !c.absent r)) := by
      rcases hop with rfl | rfl
      · simpa using hnf.1
      · simpa using hnf.2
    refine ⟨?_, ?_⟩
    · rw [hsome]
      constructor
      · intro hnone
        cases hnone
      · rintro ⟨hdc, hnull⟩
        rcases hv with hv | hv
        · rw [hdc] at hv
          cases hv
        · rw [hnull] at hv
          cases hv
    · intro out hout
      rw [hsome] at hout
      cases hout
      rfl
  · have hdc : dcheck_is_on = true := by
      cases dcheck_is_on
      · exact absurd (Or.inl rfl) hv
      · rfl
    have hnull : value.is_null = false := by
      cases hn : value.is_null
      · rfl
      · exact absurd (Or.inr hn) hv
    subst hdc
    have hnone := FilterIntoSlow_aborts c op value rm hord hnull
    refine ⟨⟨fun _ => ⟨rfl, hnull⟩, fun _ => hnone⟩, ?_⟩
    intro out hout
    rw [hnone] at hout
    cases hout

/-- C16, amended, on the nullable Int32 values 5, null, 3, 5 in a build without
`PERFETTO_DCHECK`: `IsNull` with the scalar 9 keeps the row 1, as with the null scalar. -/
theorem C16_scenario_a :
    (scenario_a.FilterIntoSlow false FilterOp.kIsNull (SqlValue.Long 9) [0, 1, 2, 3] = some [1] ∧
      scenario_a.FilterIntoSlow false FilterOp.kIsNull SqlValue.Null [0, 1, 2, 3] = some [1]) ∧
      ((scenario_a.FilterIntoSlow false FilterOp.kIsNull (SqlValue.Long 9) [0, 1, 2, 3] = none ↔
          false = true ∧ (SqlValue.Long 9).is_null = false) ∧
        ∀ out, scenario_a.FilterIntoSlow false FilterOp.kIsNull (SqlValue.Long 9) [0, 1, 2, 3] =
            some out →
          out = [0, 1, 2, 3].filter (fun r =>
            if FilterOp.kIsNull = FilterOp.kIsNull then scenario_a.absent r
            else !scenario_a.absent r)) :=
  ⟨by decide, C16_null_tests_read_only_absence false scenario_a FilterOp.kIsNull
    (SqlValue.Long 9) [0, 1, 2, 3] (by decide) (Or.inl rfl)⟩

/-- C18: on a column that is not a Dummy column, `IsNull` and `IsNotNull` (called with the null
scalar) split the input row set: there is a test such that `IsNull` keeps the rows passing it and
`IsNotNull` the rows failing it, each in input order; so no row is in both results, every row of
the input is in one of them, and the two lengths add up to the length of the input. -/
theorem C18_null_tests_partition (dcheck_is_on : Bool) (c : Column) (rm : List Nat)
    (h : c.type_ ≠ ColumnType.kDummy) :
    ∃ (p : Nat → Bool) (is_null is_not_null : List Nat),
      c.FilterIntoSlow dcheck_is_on FilterOp.kIsNull SqlValue.Null rm = some is_null ∧
      c.FilterIntoSlow dcheck_is_on FilterOp.kIsNotNull SqlValue.Null rm = some is_not_null ∧
      is_null = rm.filter p ∧ is_not_null = rm.filter (fun r => !p r) ∧
      (∀ r, ¬ (r ∈ is_null ∧ r ∈ is_not_null)) ∧
      (∀ r, r ∈ rm ↔ r ∈ is_null ∨ r ∈ is_not_null) ∧
      is_null.length + is_not_null.length = rm.length := by
  have hnf := FilterIntoSlow_null_tests dcheck_is_on c SqlValue.Null rm h (Or.inr rfl)
  refine ⟨fun r => c.absent r, _, _, hnf.1, hnf.2, rfl, rfl, ?_, ?_, ?_⟩
  · intro r
    simp [List.mem_filter]
    intro _ ha _
    exact ha
  · intro r
    simp only [List.mem_filter]
    cases c.absent r <;> simp
  · induction rm with
    | nil => rfl
    | cons x xs ih =>
      have ih' := ih (FilterIntoSlow_null_tests dcheck_is_on c SqlValue.Null xs h (Or.inr rfl))
      simp only [List.filter_cons]
      cases c.absent x <;> simp <;> omega

/-- C18 on the nullable Int32 values 5, null, 3, 5: `IsNull` keeps the row 1 and `IsNotNull`
the rows 0, 2, 3. -/
theorem C18_scenario_a :
    (scenario_a.FilterIntoSlow true FilterOp.kIsNull SqlValue.Null [0, 1, 2, 3] = some [1] ∧
      scenario_a.FilterIntoSlow true FilterOp.kIsNotNull SqlValue.Null [0, 1, 2, 3] =
        some [0, 2, 3]) ∧
      ∃ (p : Nat → Bool) (is_null is_not_null : List Nat),
        scenario_a.FilterIntoSlow true FilterOp.kIsNull SqlValue.Null [0, 1, 2, 3] =
          some is_null ∧
        scenario_a.FilterIntoSlow true FilterOp.kIsNotNull SqlValue.Null [0, 1, 2, 3] =
          some is_not_null ∧
        is_null = [0, 1, 2, 3].filter p ∧ is_not_null = [0, 1, 2, 3].filter (fun r => !p r) ∧
        (∀ r, ¬ (r ∈ is_null ∧ r ∈ is_not_null)) ∧
        (∀ r, r ∈ [0, 1, 2, 3] ↔ r ∈ is_null ∨ r ∈ is_not_null) ∧
        is_null.length + is_not_null.length = [0, 1, 2, 3].length :=
  ⟨by decide, C18_null_tests_partition true scenario_a [0, 1, 2, 3] (by decide)⟩

/-! ### The ordering operators together -/

theorem present_and_map {T U : Type} (o : Option T) (f : T → U) (p : U → Bool) :
    present_and (o.map f) p = present_and o (fun v => p (f v)) := by
  cases o <;> rfl

theorem present_and_none {T : Type} (p : T → Bool) : present_and none p = false := rfl

theorem present_and_some {T : Type} (v : T) (p : T → Bool) : present_and (some v) p = p v := rfl

/-- Every ordering operator keeps the rows whose comparison result it accepts. -/
theorem FilterIntoSlow_ordering (dcheck_is_on : Bool) (c : Column) (op : FilterOp)
    (value : SqlValue) (rm : List Nat) (h : c.type_ ≠ ColumnType.kDummy)
    (hop : op.is_ordering = true) :
    c.FilterIntoSlow dcheck_is_on op value rm =
      some (rm.filter (fun r => present_and (c.compare_with value (c.position r)) op.accepts)) := by
  have hne : op ≠ FilterOp.kIsNull ∧ op ≠ FilterOp.kIsNotNull := by
    cases op <;> simp [FilterOp.is_ordering] at hop ⊢
  cases hty : c.type_ <;> cases value <;> cases hn : c.nullable <;>
    simp [Column.FilterIntoSlow, Column.FilterIntoNumericSlow, hty, hn, Column.IsNullable,
      PERFETTO_DCHECK, ColumnTypeHelper.ToColumnType, is_arithmetic, hne,
      FilterIntoNumericWithComparatorSlow_eq dcheck_is_on c _ _ op rm _ h hop,
      Column.compare_with, present_and_map, present_and_none, present_and_some,
      Column.long_at, Column.double_at] at h ⊢
  all_goals first
    | rw [FilterIntoStringSlow_eq dcheck_is_on c op _ rm hty hop]
    | rw [FilterIntoIdSlow_eq dcheck_is_on c op _ rm hty hop]
    | simp [Column.FilterIntoStringSlow, Column.FilterIntoIdSlow, hty, PERFETTO_DCHECK, hne]

theorem Column.compare_with_isNone (c : Column) (value : SqlValue) (r : Nat)
    (hc : c.compatible value = true) :
    (c.compare_with value (c.position r)).isNone = c.absent r := by
  cases hty : c.type_ <;> cases value <;>
    simp [Column.compatible, hty, SqlValue.type] at hc <;>
    simp [Column.compare_with, hty, Column.absent, Column.row_key, Column.key]

theorem accepts_cases (x : Int) :
    (FilterOp.kLe.accepts x = (FilterOp.kLt.accepts x || FilterOp.kEq.accepts x)) ∧
      (FilterOp.kGe.accepts x = (FilterOp.kGt.accepts x || FilterOp.kEq.accepts x)) ∧
      (FilterOp.kNe.accepts x = (FilterOp.kLt.accepts x || FilterOp.kGt.accepts x)) ∧
      ((FilterOp.kLt.accepts x && FilterOp.kEq.accepts x) = false) ∧
      ((FilterOp.kLt.accepts x && FilterOp.kGt.accepts x) = false) ∧
      ((FilterOp.kEq.accepts x && FilterOp.kGt.accepts x) = false) ∧
      ((FilterOp.kLt.accepts x || FilterOp.kEq.accepts x || FilterOp.kGt.accepts x) = true) := by
  simp only [FilterOp.accepts]
  rcases lt_trichotomy x 0 with hx | hx | hx
  · simp [hx, hx.le, hx.ne, not_lt.2 hx.le]
  · simp [hx]
  · simp [hx, hx.le, hx.ne', not_lt.2 hx.le, not_le.2 hx]

/-- C19: on a column that is not a Dummy column, for every scalar and input row set, the six
ordering operators return, and their results fit together: no row is in two of the results of
`LessThan`, `Equal` and `GreaterThan`; `LessOrEqual` keeps exactly the rows of the input that
`LessThan` or `Equal` keeps, `GreaterOrEqual` those that `GreaterThan` or `Equal` keeps,
`NotEqual` those that `LessThan` or `GreaterThan` keeps; and when the kind of the scalar fits the
column, the rows kept by `LessThan`, `Equal` or `GreaterThan` are exactly the rows whose value is
present. -/
theorem C19_ordering_operators_consistent (dcheck_is_on : Bool) (c : Column) (value : SqlValue)
    (rm : List Nat) (h : c.type_ ≠ ColumnType.kDummy) :
    ∃ lt eq gt ne le ge,
      c.FilterIntoSlow dcheck_is_on FilterOp.kLt value rm = some lt ∧
      c.FilterIntoSlow dcheck_is_on FilterOp.kEq value rm = some eq ∧
      c.FilterIntoSlow dcheck_is_on FilterOp.kGt value rm = some gt ∧
      c.FilterIntoSlow dcheck_is_on FilterOp.kNe value rm = some ne ∧
      c.FilterIntoSlow dcheck_is_on FilterOp.kLe value rm = some le ∧
      c.FilterIntoSlow dcheck_is_on FilterOp.kGe value rm = some ge ∧
      (∀ r, ¬ (r ∈ lt ∧ r ∈ eq)) ∧ (∀ r, ¬ (r ∈ lt ∧ r ∈ gt)) ∧ (∀ r, ¬ (r ∈ eq ∧ r ∈ gt)) ∧
      le = rm.filter (fun r => decide (r ∈ lt ∨ r ∈ eq)) ∧
      ge = rm.filter (fun r => decide (r ∈ gt ∨ r ∈ eq)) ∧
      ne = rm.filter (fun r => decide (r ∈ lt ∨ r ∈ gt)) ∧
      (c.compatible value = true →
        rm.filter (fun r => decide (r ∈ lt ∨ r ∈ eq ∨ r ∈ gt)) =
          rm.filter (fun r => !c.absent r)) := by
  refine ⟨_, _, _, _, _, _,
    FilterIntoSlow_ordering dcheck_is_on c FilterOp.kLt value rm h rfl,
    FilterIntoSlow_ordering dcheck_is_on c FilterOp.kEq value rm h rfl,
    FilterIntoSlow_ordering dcheck_is_on c FilterOp.kGt value rm h rfl,
    FilterIntoSlow_ordering dcheck_is_on c FilterOp.kNe value rm h rfl,
    FilterIntoSlow_ordering dcheck_is_on c FilterOp.kLe value rm h rfl,
    FilterIntoSlow_ordering dcheck_is_on c FilterOp.kGe value rm h rfl, ?_, ?_, ?_, ?_, ?_, ?_, ?_⟩
  · intro r
    simp only [List.mem_filter]
    rintro ⟨⟨_, h1⟩, ⟨_, h2⟩⟩
    cases hx : c.compare_with value (c.position r) with
    | none => simp [hx, present_and_none] at h1
    | some x =>
      rw [hx, present_and_some] at h1 h2
      have := (accepts_cases x).2.2.2.1
      simp [h1, h2] at this
  · intro r
    simp only [List.mem_filter]
    rintro ⟨⟨_, h1⟩, ⟨_, h2⟩⟩
    cases hx : c.compare_with value (c.position r) with
    | none => simp [hx, present_and_none] at h1
    | some x =>
      rw [hx, present_and_some] at h1 h2
      have := (accepts_cases x).2.2.2.2.1
      simp [h1, h2] at this
  · intro r
    simp only [List.mem_filter]
    rintro ⟨⟨_, h1⟩, ⟨_, h2⟩⟩
    cases hx : c.compare_with value (c.position r) with
    | none => simp [hx, present_and_none] at h1
    | some x =>
      rw [hx, present_and_some] at h1 h2
      have := (accepts_cases x).2.2.2.2.2.1
      simp [h1, h2] at this
  · refine List.filter_congr ?_
    intro r hr
    cases hx : c.compare_with value (c.position r) with
    | none => simp [List.mem_filter, hx, present_and_none]
    | some x => simp [List.mem_filter, hr, hx, present_and_some, (accepts_cases x).1]
  · refine List.filter_congr ?_
    intro r hr
    cases hx : c.compare_with value (c.position r) with
    | none => simp [List.mem_filter, hx, present_and_none]
    | some x => simp [List.mem_filter, hr, hx, present_and_some, (accepts_cases x).2.1]
  · refine List.filter_congr ?_
    intro r hr
    cases hx : c.compare_with value (c.position r) with
    | none => simp [List.mem_filter, hx, present_and_none]
    | some x => simp [List.mem_filter, hr, hx, present_and_some, (accepts_cases x).2.2.1]
  · intro hc
    refine List.filter_congr ?_
    intro r hr
    have hnone := c.compare_with_isNone value r hc
    cases hx : c.compare_with value (c.position r) with
    | none =>
      rw [hx] at hnone
      simp [List.mem_filter, hx, present_and_none, ← hnone]
    | some x =>
      rw [hx] at hnone
      have := (accepts_cases x).2.2.2.2.2.2
      simp only [Bool.or_eq_true, or_assoc] at this
      simp [List.mem_filter, hr, hx, present_and_some, ← hnone, this]

/-- C19 on the nullable Int32 values 5, null, 3, 5 and the scalar 4. -/
theorem C19_scenario_a :
    (scenario_a.FilterIntoSlow true FilterOp.kLt (SqlValue.Long 4) [0, 1, 2, 3] = some [2] ∧
      scenario_a.FilterIntoSlow true FilterOp.kEq (SqlValue.Long 4) [0, 1, 2, 3] = some [] ∧
      scenario_a.FilterIntoSlow true FilterOp.kGt (SqlValue.Long 4) [0, 1, 2, 3] = some [0, 3] ∧
      scenario_a.FilterIntoSlow true FilterOp.kNe (SqlValue.Long 4) [0, 1, 2, 3] =
        some [0, 2, 3]) ∧
      ∃ lt eq gt ne le ge,
        scenario_a.FilterIntoSlow true FilterOp.kLt (SqlValue.Long 4) [0, 1, 2, 3] = some lt ∧
        scenario_a.FilterIntoSlow true FilterOp.kEq (SqlValue.Long 4) [0, 1, 2, 3] = some eq ∧
        scenario_a.FilterIntoSlow true FilterOp.kGt (SqlValue.Long 4) [0, 1, 2, 3] = some gt ∧
        scenario_a.FilterIntoSlow true FilterOp.kNe (SqlValue.Long 4) [0, 1, 2, 3] = some ne ∧
        scenario_a.FilterIntoSlow true FilterOp.kLe (SqlValue.Long 4) [0, 1, 2, 3] = some le ∧
        scenario_a.FilterIntoSlow true FilterOp.kGe (SqlValue.Long 4) [0, 1, 2, 3] = some ge ∧
        (∀ r, ¬ (r ∈ lt ∧ r ∈ eq)) ∧ (∀ r, ¬ (r ∈ lt ∧ r ∈ gt)) ∧ (∀ r, ¬ (r ∈ eq ∧ r ∈ gt)) ∧
        le = [0, 1, 2, 3].filter (fun r => decide (r ∈ lt ∨ r ∈ eq)) ∧
        ge = [0, 1, 2, 3].filter (fun r => decide (r ∈ gt ∨ r ∈ eq)) ∧
        ne = [0, 1, 2, 3].filter (fun r => decide (r ∈ lt ∨ r ∈ gt)) ∧
        (scenario_a.compatible (SqlValue.Long 4) = true →
          [0, 1, 2, 3].filter (fun r => decide (r ∈ lt ∨ r ∈ eq ∨ r ∈ gt)) =
            [0, 1, 2, 3].filter (fun r => !scenario_a.absent r)) :=
  ⟨by decide, C19_ordering_operators_consistent true scenario_a (SqlValue.Long 4) [0, 1, 2, 3]
    (by decide)⟩

/-! ### The scalar of a RowId filter -/

/-- C20: on a RowId column, for every ordering operator and input row set, two integer scalars
that are congruent modulo `2 ^ 32` give the same result; `Equal` with `2 ^ 32 + 2` keeps exactly
the rows at position 2, and `LessThan` with `-1` keeps exactly the rows whose position is below
`2 ^ 32 - 1`. -/
theorem C20_scalar_taken_modulo (dcheck_is_on : Bool) (c : Column) (op : FilterOp)
    (k k' : Int) (rm : List Nat) (h : c.type_ = ColumnType.kId) (hop : op.is_ordering = true)
    (hk : k % 4294967296 = k' % 4294967296) :
    c.FilterIntoSlow dcheck_is_on op (SqlValue.Long k) rm =
        c.FilterIntoSlow dcheck_is_on op (SqlValue.Long k') rm ∧
      c.FilterIntoSlow dcheck_is_on FilterOp.kEq (SqlValue.Long 4294967298) rm =
        some (rm.filter (fun r => decide (c.position r = 2))) ∧
      c.FilterIntoSlow dcheck_is_on FilterOp.kLt (SqlValue.Long (-1)) rm =
        some (rm.filter (fun r => decide (c.position r < 4294967295))) := by
  have hdisp : ∀ op' v, c.FilterIntoSlow dcheck_is_on op' v rm =
      c.FilterIntoIdSlow dcheck_is_on op' v rm := by
    intro op' v
    simp [Column.FilterIntoSlow, h]
  have h1 : static_cast_uint32 4294967298 = 2 := by decide
  have h2 : static_cast_uint32 (-1) = 4294967295 := by decide
  refine ⟨?_, ?_, ?_⟩
  · rw [hdisp, hdisp, FilterIntoIdSlow_eq dcheck_is_on c op k rm h hop,
      FilterIntoIdSlow_eq dcheck_is_on c op k' rm h hop]
    simp only [static_cast_uint32, hk]
  · rw [hdisp, FilterIntoIdSlow_eq dcheck_is_on c FilterOp.kEq _ rm h rfl, h1]
    congr 2
    funext r
    rw [accepts_Numeric]
    rfl
  · rw [hdisp, FilterIntoIdSlow_eq dcheck_is_on c FilterOp.kLt _ rm h rfl, h2]
    congr 2
    funext r
    rw [accepts_Numeric]
    rfl

/-- C20 on a RowId column over the rows 0, 1, 2, 3: `Equal` with `2 ^ 32 + 2` and with 2 both
keep the row 2, `LessThan -1` keeps every row. -/
theorem C20_wrapped_scalars :
    (id_column.FilterIntoSlow true FilterOp.kEq (SqlValue.Long 4294967298) [0, 1, 2, 3] =
        some [2] ∧
      id_column.FilterIntoSlow true FilterOp.kEq (SqlValue.Long 2) [0, 1, 2, 3] = some [2]) ∧
      (id_column.FilterIntoSlow true FilterOp.kEq (SqlValue.Long 4294967298) [0, 1, 2, 3] =
          id_column.FilterIntoSlow true FilterOp.kEq (SqlValue.Long 2) [0, 1, 2, 3] ∧
        id_column.FilterIntoSlow true FilterOp.kEq (SqlValue.Long 4294967298) [0, 1, 2, 3] =
          some ([0, 1, 2, 3].filter (fun r => decide (id_column.position r = 2))) ∧
        id_column.FilterIntoSlow true FilterOp.kLt (SqlValue.Long (-1)) [0, 1, 2, 3] =
          some ([0, 1, 2, 3].filter (fun r => decide (id_column.position r < 4294967295)))) :=
  ⟨by decide, C20_scalar_taken_modulo true id_column FilterOp.kEq 4294967298 2 [0, 1, 2, 3]
    rfl rfl (by decide)⟩

/-! ### Construction -/

theorem Column.make_cases (d : ColumnDecls) (dcheck_is_on : Bool) (name : String)
    (type : ColumnType) (flags : Nat) (table : Table) (col_idx_in_table row_map_idx : Nat)
    (nv : NullableVectorBase) (nullable : Bool) :
    Column.make d dcheck_is_on name type flags table col_idx_in_table row_map_idx nv
        nullable = none ∨
      Column.make d dcheck_is_on name type flags table col_idx_in_table row_map_idx nv
        nullable =
        some { type_ := type, nullable_vector_ := nv, name_ := name, flags_ := flags,
               table_ := table, col_idx_in_table_ := col_idx_in_table,
               row_map_idx_ := row_map_idx, string_pool_ := table.string_pool_,
               nullable := nullable } := by
  cases type <;> simp only [Column.make, PERFETTO_DCHECK, bind, pure] <;> split_ifs <;> simp

theorem Column.make_eq_some (d : ColumnDecls) (dcheck_is_on : Bool) (name : String)
    (type : ColumnType) (flags : Nat) (table : Table) (col_idx_in_table row_map_idx : Nat)
    (nv : NullableVectorBase) (nullable : Bool) (c : Column)
    (h : Column.make d dcheck_is_on name type flags table col_idx_in_table row_map_idx nv
      nullable = some c) :
    c = { type_ := type, nullable_vector_ := nv, name_ := name, flags_ := flags, table_ := table,
          col_idx_in_table_ := col_idx_in_table, row_map_idx_ := row_map_idx,
          string_pool_ := table.string_pool_, nullable := nullable } := by
  rcases Column.make_cases d dcheck_is_on name type flags table col_idx_in_table row_map_idx nv
    nullable with hnone | hsome
  · rw [hnone] at h
    cases h
  · rw [hsome] at h
    exact (Option.some.inj h).symm

theorem Column.make_isSome (d : ColumnDecls) (name : String) (type : ColumnType) (flags : Nat)
    (table : Table) (col_idx_in_table row_map_idx : Nat) (nv : NullableVectorBase)
    (nullable : Bool) :
    (Column.make d false name type flags table col_idx_in_table row_map_idx nv
      nullable).isSome = true := by
  cases type <;> simp [Column.make, PERFETTO_DCHECK]

theorem testBit_and_uint32_not (f k i : Nat) (hf : f < 4294967296) :
    (f &&& uint32_not k).testBit i = (f.testBit i && !k.testBit i) := by
  have hk : k % 2 ^ 32 < 2 ^ 32 := Nat.mod_lt _ (by decide)
  have hpow : (4294967296 : Nat) = 2 ^ 32 := by norm_num
  rw [Nat.testBit_and, uint32_not, hpow, Nat.testBit_two_pow_sub_succ hk, Nat.testBit_mod_two_pow]
  by_cases hi : i < 32
  · simp [hi]
  · have hfi : f.testBit i = false :=
      Nat.testBit_lt_two_pow (lt_of_lt_of_le (hpow ▸ hf)
        (Nat.pow_le_pow_right (by decide) (not_lt.1 hi)))
    simp [hi, hfi]

/-- C15: the copy-rebind constructor returns whenever `PERFETTO_DCHECK` is compiled out, and a
column `c₁` that it returns has the flags of the source with every bit of
`kNoCrossTableInheritFlags` cleared and every other bit as it was, the type and the storage
accessor of the source, the table, column index and row-map index that were supplied, and the
supplied name, or the name of the source when none was supplied; a column obtained by rebinding
`c₁` again has the flags of `c₁`. -/
theorem C15_copy_rebind (d : ColumnDecls) (dcheck_is_on : Bool) (column : Column)
    (table : Table) (col_idx row_map_idx : Nat) (name : Option String)
    (hflags : column.flags_ < 4294967296) :
    (dcheck_is_on = false →
      (Column.make_rebound d dcheck_is_on column table col_idx row_map_idx name).isSome = true) ∧
    ∀ c₁, Column.make_rebound d dcheck_is_on column table col_idx row_map_idx name = some c₁ →
      (∀ i, c₁.flags_.testBit i =
        (column.flags_.testBit i && !d.kNoCrossTableInheritFlags.testBit i)) ∧
      c₁.type_ = column.type_ ∧ c₁.nullable_vector_ = column.nullable_vector_ ∧
      c₁.table_ = table ∧ c₁.col_idx_in_table_ = col_idx ∧ c₁.row_map_idx_ = row_map_idx ∧
      c₁.name_ = name.getD column.name_ ∧
      ∀ table' col_idx' row_map_idx' name' c₂,
        Column.make_rebound d dcheck_is_on c₁ table' col_idx' row_map_idx' name' = some c₂ →
          c₂.flags_ = c₁.flags_ := by
  refine ⟨?_, ?_⟩
  · rintro rfl
    exact Column.make_isSome d _ _ _ _ _ _ _ _
  · intro c₁ h₁
    have e₁ := Column.make_eq_some _ _ _ _ _ _ _ _ _ _ _ h₁
    subst e₁
    refine ⟨fun i => testBit_and_uint32_not _ _ i hflags, rfl, rfl, rfl, rfl, rfl, ?_, ?_⟩
    · cases name <;> rfl
    · intro table' col_idx' row_map_idx' name' c₂ h₂
      have e₂ := Column.make_eq_some _ _ _ _ _ _ _ _ _ _ _ h₂
      subst e₂
      show column.flags_ &&& uint32_not d.kNoCrossTableInheritFlags &&&
          uint32_not d.kNoCrossTableInheritFlags =
        column.flags_ &&& uint32_not d.kNoCrossTableInheritFlags
      rw [Nat.land_assoc, Nat.and_self]

/-- C15 on a column with the flags 0, 1 and 2 set, where the flags 0 and 2 are not inherited:
the rebound column has the flag 1 only, the type of the source, and the new index and name. -/
theorem C15_flagged_column :
    ((Column.make_rebound example_decls true flagged_column (example_table
        (StringPool.of_list [])) 3 4 (some "renamed")).map
        (fun c => (c.flags_, c.type_, c.col_idx_in_table_, c.row_map_idx_, c.name_)) =
      some (2, ColumnType.kInt32, 3, 4, "renamed")) ∧
    ((true = false →
      (Column.make_rebound example_decls true flagged_column (example_table
        (StringPool.of_list [])) 3 4 (some "renamed")).isSome = true) ∧
    ∀ c₁, Column.make_rebound example_decls true flagged_column (example_table
        (StringPool.of_list [])) 3 4 (some "renamed") = some c₁ →
      (∀ i, c₁.flags_.testBit i =
        (flagged_column.flags_.testBit i &&
          !example_decls.kNoCrossTableInheritFlags.testBit i)) ∧
      c₁.type_ = flagged_column.type_ ∧
      c₁.nullable_vector_ = flagged_column.nullable_vector_ ∧
      c₁.table_ = example_table (StringPool.of_list []) ∧ c₁.col_idx_in_table_ = 3 ∧
      c₁.row_map_idx_ = 4 ∧ c₁.name_ = (some "renamed").getD flagged_column.name_ ∧
      ∀ table' col_idx' row_map_idx' name' c₂,
        Column.make_rebound example_decls true c₁ table' col_idx' row_map_idx' name' = some c₂ →
          c₂.flags_ = c₁.flags_) :=
  ⟨by decide, C15_copy_rebind example_decls true flagged_column
    (example_table (StringPool.of_list [])) 3 4 (some "renamed") (by decide)⟩

/-! ### Integer columns and double scalars -/

/-- C17, at a stored integer above `2 ^ 53`: the Int64 value `2 ^ 53 + 1` promoted to double is
`2 ^ 53`, so the promoted value equals the scalar `2 ^ 53`; `FilterIntoSlow` with `Equal` and
that scalar nevertheless drops the row, and with `GreaterThan` keeps it. -/
theorem C17_large_integer_is_not_rounded :
    static_cast_double 9007199254740993 = Double.finite 9007199254740992 ∧
      FilterOp.kEq.accepts (compare.Numeric (static_cast_double 9007199254740993)
        (Double.finite 9007199254740992)) = true ∧
      large_column.FilterIntoSlow true FilterOp.kEq
        (SqlValue.Double (Double.finite 9007199254740992)) [0] = some [] ∧
      large_column.FilterIntoSlow true FilterOp.kGt
        (SqlValue.Double (Double.finite 9007199254740992)) [0] = some [0] := by
  decide

/-- The integer-vs-double comparator decides every ordering operator between the integer and
the exact value of a finite double. -/
theorem accepts_LongToDouble (op : FilterOp) (v : Int) (q : ℚ) :
    op.accepts (compare.LongToDouble v (Double.finite q)) = op.holds (v : ℚ) q := by
  unfold compare.LongToDouble
  rcases lt_trichotomy (v : ℚ) q with hlt | heq | hgt
  · cases op <;> simp [FilterOp.accepts, FilterOp.holds, hlt, hlt.le, hlt.ne, not_lt.2 hlt.le]
  · rw [heq]
    cases op <;> simp [FilterOp.accepts, FilterOp.holds]
  · cases op <;>
      simp [FilterOp.accepts, FilterOp.holds, hgt, hgt.le, hgt.ne', not_lt.2 hgt.le,
        not_le.2 hgt]

/-- Up to `2 ^ 53` in magnitude, comparing the promoted integer with a double gives the result
of the integer-vs-double comparator. -/
theorem Numeric_static_cast_double (v : Int) (d : Double)
    (hv : v.natAbs ≤ 9007199254740992) :
    compare.Numeric (static_cast_double v) d = compare.LongToDouble v d := by
  have hcast : static_cast_double v = Double.finite v := by
    simp [static_cast_double, hv]
  rw [hcast]
  cases d <;> simp [compare.Numeric, compare.LongToDouble, Double.lt_iff, Double.lt]

/-- C17, amended: on an Int32, UInt32 or Int64 column, for every ordering operator and every
double scalar `d`, `FilterIntoSlow` keeps the rows whose present integer `v` passes the sign of
`LongToDouble(v, d)`; for a finite `d` these are the rows with `v op d` between the exact values
of `v` and `d`.  For `v` of magnitude up to `2 ^ 53` this is the comparison of `(double)v` with
`d`; above `2 ^ 53` the stored integer is not rounded to a double first. -/
theorem C17_integer_column_double_scalar (dcheck_is_on : Bool) (c : Column) (op : FilterOp)
    (d : Double) (rm : List Nat)
    (hT : c.type_ = ColumnType.kInt32 ∨ c.type_ = ColumnType.kUint32 ∨
      c.type_ = ColumnType.kInt64)
    (hop : op.is_ordering = true) :
    ∃ out, c.FilterIntoSlow dcheck_is_on op (SqlValue.Double d) rm = some out ∧
      out = rm.filter (fun r => present_and (c.long_at (c.position r))
        (fun v => op.accepts (compare.LongToDouble v d))) ∧
      (∀ r v q, d = Double.finite q → c.long_at (c.position r) = some v →
        (r ∈ out ↔ r ∈ rm ∧ op.holds (v : ℚ) q = true)) ∧
      (∀ v : Int, v.natAbs ≤ 9007199254740992 →
        compare.Numeric (static_cast_double v) d = compare.LongToDouble v d) := by
  have hd : c.type_ ≠ ColumnType.kDummy := by rcases hT with h | h | h <;> simp [h]
  have hF := FilterIntoSlow_ordering dcheck_is_on c op (SqlValue.Double d) rm hd hop
  have hcw : ∀ p, c.compare_with (SqlValue.Double d) p =
      (c.long_at p).map (fun v => compare.LongToDouble v d) := by
    intro p
    rcases hT with h | h | h <;> simp [Column.compare_with, h]
  simp only [hcw, present_and_map] at hF
  refine ⟨_, hF, rfl, ?_, fun v hv => Numeric_static_cast_double v d hv⟩
  intro r v q hq hv
  subst hq
  simp [List.mem_filter, hv, present_and_some, accepts_LongToDouble]

/-- C17, amended, on a nullable Int64 column holding 3, null and `2 ^ 53 + 1`: `LessOrEqual`
with the double `2 ^ 53` keeps the row 0 only. -/
theorem C17_mixed_column :
    mixed_column.FilterIntoSlow true FilterOp.kLe
        (SqlValue.Double (Double.finite 9007199254740992)) [0, 1, 2] = some [0] ∧
      ∃ out, mixed_column.FilterIntoSlow true FilterOp.kLe
          (SqlValue.Double (Double.finite 9007199254740992)) [0, 1, 2] = some out ∧
        out = [0, 1, 2].filter (fun r =>
          present_and (mixed_column.long_at (mixed_column.position r))
            (fun v => FilterOp.kLe.accepts
              (compare.LongToDouble v (Double.finite 9007199254740992)))) ∧
        (∀ r v q, Double.finite 9007199254740992 = Double.finite q →
          mixed_column.long_at (mixed_column.position r) = some v →
            (r ∈ out ↔ r ∈ [0, 1, 2] ∧ FilterOp.kLe.holds (v : ℚ) q = true)) ∧
        (∀ v : Int, v.natAbs ≤ 9007199254740992 →
          compare.Numeric (static_cast_double v) (Double.finite 9007199254740992) =
            compare.LongToDouble v (Double.finite 9007199254740992)) :=
  ⟨by decide, C17_integer_column_double_scalar true mixed_column FilterOp.kLe
    (Double.finite 9007199254740992) [0, 1, 2] (Or.inr (Or.inr rfl)) rfl⟩

end trace_processor
